import Mathlib

/-!
# Natron viewer render pipeline (`Engine/ViewerInstance.cpp`)

A shallow embedding of `ViewerInstance::renderViewer`, of the texture-filling and
auto-contrast helpers it drives and of `ViewerInstance::getColorAt`, together with
`ConnectCommand::doConnect` of `Gui/NodeGraphUndoRedo.cpp`, followed by the properties
established about them.

Conventions of the embedding:

* C `int` values are `ℤ`; coordinates and loop counters stay far from the 32-bit range. The
  byte count of line 421, a product of two dimensions and 4 taken in `int`, is the exception:
  it is reduced to 32 bits (`wrapInt32`) before it is stored in the `size_t` field.
* C `double`/`float` values are exact rationals (`ℚ`): rounding error, NaN and infinities are
  outside the model. `std::floor`/`std::ceil` are `Int.floor`/`Int.ceil`, and
  `std::ceil(std::log(z) / std::log(2.))` is `Int.clog 2 z`, the least integer `k` with
  `z ≤ 2 ^ k`. The rounding of that one quotient can move the result across an integer;
  `closestPowerOf2Double` takes the computed quotient as an argument for the statements that
  depend on it.
* A `double` stored into an `int` is truncated toward zero (`cTrunc`).
* Loops are structural recursions on a fuel argument; a loop that exhausts its fuel yields
  `none`.
-/

namespace Natron

/-! ## Numeric helpers -/

/-- Conversion of a `double` to `int`: truncation toward zero. -/
@[irreducible]
def cTrunc (q : ℚ) : ℤ :=
  if 0 ≤ q then ⌊q⌋ else ⌈q⌉

/-- The value `std::ceil((double)a / (double)b)` stored into an `int`. -/
@[irreducible]
def ceilDiv (a b : ℤ) : ℤ :=
  cTrunc (⌈(a : ℚ) / (b : ℚ)⌉ : ℚ)

/-! ## Rectangles -/

/-- The type `RectI`: integer rectangle with `left = x1`, `bottom = y1`, `right = x2`, `top = y2`. -/
structure RectI where
  x1 : ℤ
  y1 : ℤ
  x2 : ℤ
  y2 : ℤ
deriving DecidableEq

namespace RectI

def width (r : RectI) : ℤ := r.x2 - r.x1

def height (r : RectI) : ℤ := r.y2 - r.y1

def left (r : RectI) : ℤ := r.x1

def bottom (r : RectI) : ℤ := r.y1

def right (r : RectI) : ℤ := r.x2

def top (r : RectI) : ℤ := r.y2

/-- Modelled from the spec: `RectI::isNull` (declared in `Engine/Rect.h`): the rectangle
`[x1,x2) × [y1,y2)` holds no pixel. -/
def isNull (r : RectI) : Bool :=
  decide (r.x2 ≤ r.x1) || decide (r.y2 ≤ r.y1)

/-- Modelled from the spec: `RectI::intersect` (declared in `Engine/Rect.h`), the intersection
the `Rect` type supports. `a.intersect r out` is the value of `*intersection` after
`a.intersect(r, &intersection)` when it held `out` before: the component-wise max/min
rectangle when both rectangles are non-null and meet, and `out` unchanged otherwise. -/
def intersect (a r : RectI) (out : RectI) : RectI :=
  if a.isNull || r.isNull then out
  else if a.x1 > r.x2 ∨ r.x1 > a.x2 ∨ a.y1 > r.y2 ∨ r.y1 > a.y2 then out
  else { x1 := max a.x1 r.x1, y1 := max a.y1 r.y1, x2 := min a.x2 r.x2, y2 := min a.y2 r.y2 }

/-- Modelled from the spec: the value `RectI::intersect` returns, whether the two rectangles
are non-null and meet, in which case `*intersection` is assigned. -/
def intersects (a r : RectI) : Bool :=
  !(a.isNull || r.isNull) && !decide (a.x1 > r.x2 ∨ r.x1 > a.x2 ∨ a.y1 > r.y2 ∨ r.y1 > a.y2)

end RectI

/-- The type `TextureRect`: the sampled source rectangle, the output dimensions and the downsampling
factor. -/
structure TextureRect where
  x1 : ℤ
  y1 : ℤ
  x2 : ℤ
  y2 : ℤ
  w : ℤ
  h : ℤ
  closestPo2 : ℤ
deriving DecidableEq

/-! ## Zoom factor and tile scheduling (`renderViewer`, lines 387-414) -/

/-- The expression `zoomFactor >= 1 ? 1 : std::pow(2, -std::ceil(std::log(zoomFactor) / std::log(2.)))`. -/
@[irreducible]
def closestPowerOf2 (zoomFactor : ℚ) : ℚ :=
  if zoomFactor ≥ 1 then 1 else (2 : ℚ) ^ (-(Int.clog 2 zoomFactor))

/-- Line 388 as it is evaluated in doubles: `logQuotient` is the double that
`std::log(zoomFactor) / std::log(2.)` evaluates to. `std::ceil` of a double and
`std::pow(2, n)` for an integer `n` in the exponent range are exact. -/
def closestPowerOf2Double (zoomFactor logQuotient : ℚ) : ℚ :=
  if zoomFactor ≥ 1 then 1 else (2 : ℚ) ^ (-⌈logQuotient⌉)

/-- The value `std::pow(2., (double)getViewerTilesPowerOf2())`. -/
@[irreducible]
def tileSize (viewerTilesPowerOf2 : ℕ) : ℚ :=
  (2 : ℚ) ^ viewerTilesPowerOf2

/-- The tile rectangle `texRect` in downsampled coordinates (lines 392-397). -/
@[irreducible]
def computeTexRect (roi : RectI) (closestPowerOf2 tileSize : ℚ) : RectI :=
  { x1 := cTrunc ((⌊((roi.x1 : ℚ) / closestPowerOf2) / tileSize⌋ : ℚ) * tileSize)
    y1 := cTrunc ((⌊((roi.y1 : ℚ) / closestPowerOf2) / tileSize⌋ : ℚ) * tileSize)
    x2 := cTrunc ((⌈((roi.x2 : ℚ) / closestPowerOf2) / tileSize⌉ : ℚ) * tileSize)
    y2 := cTrunc ((⌈((roi.y2 : ℚ) / closestPowerOf2) / tileSize⌉ : ℚ) * tileSize) }

/-- The tile rectangle rescaled to full resolution (lines 403-407), before clipping. -/
@[irreducible]
def rescaleTexRect (texRect : RectI) (closestPowerOf2 : ℚ) : RectI :=
  { x1 := cTrunc ((texRect.x1 : ℚ) * closestPowerOf2)
    y1 := cTrunc ((texRect.y1 : ℚ) * closestPowerOf2)
    x2 := cTrunc ((texRect.x2 : ℚ) * closestPowerOf2)
    y2 := cTrunc ((texRect.y2 : ℚ) * closestPowerOf2) }

/-- The values the scheduling step of `renderViewer` leaves behind. -/
structure Scheduled where
  texRect : RectI
  texRectClipped : RectI
  textureRect : TextureRect
deriving DecidableEq

/-- Lines 390-414 of `renderViewer`: `none` is the early `return StatOK` taken when the tile
rectangle has zero width or height. -/
@[irreducible]
def scheduleTexture (rod roi : RectI) (closestPowerOf2 tileSize : ℚ) : Option Scheduled :=
  let texRect := computeTexRect roi closestPowerOf2 tileSize
  if texRect.width = 0 ∨ texRect.height = 0 then none
  else
    let scaled := rescaleTexRect texRect closestPowerOf2
    let texRectClipped := scaled.intersect rod scaled
    let texW := if texRect.width > rod.width then rod.width else texRect.width
    let texH := if texRect.height > rod.height then rod.height else texRect.height
    some { texRect := texRect
           texRectClipped := texRectClipped
           textureRect :=
             { x1 := texRectClipped.x1, y1 := texRectClipped.y1
               x2 := texRectClipped.x2, y2 := texRectClipped.y2
               w := texW, h := texH, closestPo2 := cTrunc closestPowerOf2 } }

/-! ## Channel selection and the 32-bit texel (`renderFunctor`, `scaleToTexture32bits`) -/

/-- The enumeration `ViewerInstance::DisplayChannels`. -/
inductive DisplayChannels where
  | RGB
  | R
  | G
  | B
  | A
  | LUMINANCE
deriving DecidableEq

/-- The values of `rOffset`, `gOffset`, `bOffset` and `luminance` after the `switch` of
`renderFunctor` (lines 667-698). -/
structure ChannelOffsets where
  rOffset : ℕ
  gOffset : ℕ
  bOffset : ℕ
  luminance : Bool
deriving DecidableEq

/-- The `switch` of `renderFunctor`: the four locals start as `0, 0, 0, false` and each case
assigns what the source assigns. -/
def channelOffsets (channels : DisplayChannels) : ChannelOffsets :=
  let init : ChannelOffsets := { rOffset := 0, gOffset := 0, bOffset := 0, luminance := false }
  match channels with
  | .RGB => { init with rOffset := 0, gOffset := 1, bOffset := 2 }
  | .LUMINANCE => { init with luminance := true }
  | .R => { init with rOffset := 0, gOffset := 0, bOffset := 0 }
  | .G => { init with rOffset := 1, gOffset := 1, bOffset := 1 }
  | .B => { init with rOffset := 2, gOffset := 2, bOffset := 2 }
  | .A => { init with rOffset := 3, gOffset := 3, bOffset := 3 }

/-- A source pixel: the four interleaved components `src_pixels[0..3]`. -/
structure Pixel where
  r : ℚ
  g : ℚ
  b : ℚ
  a : ℚ
deriving DecidableEq

/-- The value `src_pixels[i]` for a component offset `i`; offsets past 3 do not occur. -/
def Pixel.comp (px : Pixel) (i : ℕ) : ℚ :=
  match i with
  | 0 => px.r
  | 1 => px.g
  | 2 => px.b
  | _ => px.a

/-- The four floats written for one destination pixel by the inner loop body of
`scaleToTexture32bits` (lines 889-900). -/
def texel32 (px : Pixel) (rOffset gOffset bOffset : ℕ) (luminance : Bool) : Pixel :=
  let r := px.comp rOffset
  let g := px.comp gOffset
  let b := px.comp bOffset
  if luminance then
    let r := 299 / 1000 * r + 587 / 1000 * g + 114 / 1000 * b
    { r := r, g := r, b := r, a := 1 }
  else { r := r, g := g, b := b, a := 1 }

/-- The destination pixel produced in the float path for a channel mode: `renderFunctor`
followed by the loop body of `scaleToTexture32bits`. -/
def renderFunctorTexel32 (channels : DisplayChannels) (px : Pixel) : Pixel :=
  let o := channelOffsets channels
  texel32 px o.rOffset o.gOffset o.bOffset o.luminance

/-! ## Row bands (`renderViewer`, lines 579-588) and destination rows -/

/-- The `while (k < texRectClipped.y2)` loop of lines 583-588, started at `k`: the pairs pushed
onto `splitRows`. `none` when the fuel runs out before the loop condition fails. -/
def splitRowsLoop (rowsPerThread y2 : ℤ) : ℕ → ℤ → Option (List (ℤ × ℤ))
  | 0, k => if k < y2 then none else some []
  | fuel + 1, k =>
    if k < y2 then
      let top := k + rowsPerThread
      let realTop := if top > y2 then y2 else top
      (splitRowsLoop rowsPerThread y2 fuel (k + rowsPerThread)).map (fun l => (k, realTop) :: l)
    else some []

/-- Lines 579-588: `rowsPerThread` and the row bands handed to `renderFunctor`. -/
def splitRows (texRectClipped : RectI) (idealThreadCount : ℤ) (fuel : ℕ) :
    Option (List (ℤ × ℤ)) :=
  let rowsPerThread := ceilDiv (texRectClipped.x2 - texRectClipped.x1) idealThreadCount
  splitRowsLoop rowsPerThread texRectClipped.y2 fuel texRectClipped.y1

/-- The outer loop `for (y = yRange.first; y < yRange.second; y += closestPowerOf2)` shared by
`scaleToTexture8bits` and `scaleToTexture32bits`, started at `y` with the counter `dstY`: the
pairs (source row, `dstY`) of the iterations. -/
def scanRowsLoop (closestPowerOf2 ySecond : ℤ) : ℕ → ℤ → ℤ → Option (List (ℤ × ℤ))
  | 0, y, _ => if y < ySecond then none else some []
  | fuel + 1, y, dstY =>
    if y < ySecond then
      (scanRowsLoop closestPowerOf2 ySecond fuel (y + closestPowerOf2) (dstY + 1)).map
        (fun l => (y, dstY) :: l)
    else some []

/-- The destination rows (in units of `texRect.w` pixels from the start of the buffer) that
`scaleToTexture8bits` / `scaleToTexture32bits` write for a row band: the base row
`(yRange.first - texRect.y1) / closestPowerOf2` of line 788 / 878 plus `dstY`. -/
def destRows (yRange : ℤ × ℤ) (texRect : TextureRect) (closestPowerOf2 : ℤ) (fuel : ℕ) :
    Option (List ℤ) :=
  let base := Int.tdiv (yRange.1 - texRect.y1) closestPowerOf2
  (scanRowsLoop closestPowerOf2 yRange.2 fuel yRange.1 0).map
    (fun l => l.map (fun yd => base + yd.2))

/-! ## Auto-contrast estimation (`findAutoContrastVminVmax`, lines 559-563, 591-606) -/

def INT_MAX : ℤ := 2147483647

def INT_MIN : ℤ := -2147483648

/-- A source image: its region of definition and `pixelAt(x, y)`. -/
structure Image where
  rod : RectI
  pixelAt : ℤ → ℤ → Pixel

/-- The values `mini`, `maxi` the `switch` of lines 725-752 computes for one pixel. -/
def pixelMiniMaxi (channels : DisplayChannels) (px : Pixel) : ℚ × ℚ :=
  match channels with
  | .RGB => (min (min px.r px.g) px.b, max (max px.r px.g) px.b)
  | .LUMINANCE =>
    let r := 299 / 1000 * px.r + 587 / 1000 * px.g + 114 / 1000 * px.b
    (r, r)
  | .R => (px.r, px.r)
  | .G => (px.g, px.g)
  | .B => (px.b, px.b)
  | .A => (px.a, px.a)

/-- Lines 753-758: the update of `(localVmin, localVmax)` by one pixel. -/
def updateLocal (loc : ℚ × ℚ) (mm : ℚ × ℚ) : ℚ × ℚ :=
  (if mm.1 < loc.1 then mm.1 else loc.1, if mm.2 > loc.2 then mm.2 else loc.2)

/-- The values of a unit-step loop variable running over `[lo, hi)`. -/
def intRange (lo hi : ℤ) : List ℤ :=
  (List.range (hi - lo).toNat).map (fun (i : ℕ) => lo + (i : ℤ))

/-- The inner loop of lines 718-761 over one scan-line. -/
def scanLine (image : Image) (channels : DisplayChannels) (rect : RectI) (y : ℤ)
    (loc : ℚ × ℚ) : ℚ × ℚ :=
  (intRange rect.left rect.right).foldl
    (fun acc x => updateLocal acc (pixelMiniMaxi channels (image.pixelAt x y))) loc

/-- The `(localVmin, localVmax)` of lines 714-762. -/
def localVminVmax (image : Image) (channels : DisplayChannels) (rect : RectI) : ℚ × ℚ :=
  (intRange rect.bottom rect.top).foldl
    (fun acc y => scanLine image channels rect y acc) ((INT_MAX : ℚ), (INT_MIN : ℚ))

/-- The function `findAutoContrastVminVmax`: the shared `(vmin, vmax)` after the call, given its value
before. -/
def findAutoContrastVminVmax (image : Image) (channels : DisplayChannels) (rect : RectI)
    (v : ℚ × ℚ) : ℚ × ℚ :=
  let loc := localVminVmax image channels rect
  (min v.1 loc.1, max v.2 loc.2)

/-- The `while (k < roi.y2)` loop of lines 596-601, started at `k`: the rectangles pushed onto
`splitRects`. `none` when the fuel runs out before the loop condition fails. -/
def splitRectsLoop (roi : RectI) (rowsPerThread : ℤ) : ℕ → ℤ → Option (List RectI)
  | 0, k => if k < roi.y2 then none else some []
  | fuel + 1, k =>
    if k < roi.y2 then
      let top := k + rowsPerThread
      let realTop := if top > roi.top then roi.top else top
      (splitRectsLoop roi rowsPerThread fuel (k + rowsPerThread)).map
        (fun l => { x1 := roi.left, y1 := k, x2 := roi.right, y2 := realTop } :: l)
    else some []

/-- Lines 593-601: the sub-rectangles the estimator is mapped over in the multi-threaded
pass. -/
def splitRects (roi : RectI) (idealThreadCount : ℤ) (fuel : ℕ) : Option (List RectI) :=
  let rowsPerThread := ceilDiv roi.width idealThreadCount
  splitRectsLoop roi rowsPerThread fuel roi.y1

/-- Lines 603-606: `(vmin, vmax)` after the estimator has run on the rectangles of `rects`,
the workers taking the accumulator lock in the order of the list. -/
def mergedVminVmax (image : Image) (channels : DisplayChannels) (rects : List RectI) : ℚ × ℚ :=
  rects.foldl (fun v r => findAutoContrastVminVmax image channels r v)
    ((INT_MAX : ℚ), (INT_MIN : ℚ))

/-- Lines 560-562: `(vmin, vmax)` after the single-threaded run over the whole region. -/
def singleVminVmax (image : Image) (channels : DisplayChannels) (roi : RectI) : ℚ × ℚ :=
  findAutoContrastVminVmax image channels roi ((INT_MAX : ℚ), (INT_MIN : ℚ))

/-! ## Identity-chain resolution (`renderViewer`, lines 315-345) -/

/-- The key `Natron::Image::makeKey(hash, time, scale, view)`; the render scale is the constant
`(1, 1)` of line 292 and is left out. -/
structure ImageKey where
  hash : ℕ
  time : ℤ
  view : ℤ
deriving DecidableEq

/-- The fields of `ImageParams` the pass reads. -/
structure ImageParams where
  rod : RectI
  isRodProjectFormat : Bool
  inputNbIdentity : ℤ
  inputTimeIdentity : ℤ
deriving DecidableEq

/-- An image-cache entry: the params and the image handed back by `getImageFromCache`. -/
structure CachedImage where
  params : ImageParams
  image : Image

/-- Modelled from the spec: the image cache (`Natron::getImageFromCache`, declared in
`Engine/AppManager.h`), of which the pass relies on `lookup(key) -> optional<Entry>`. -/
def ImageCache : Type := ImageKey → Option CachedImage

/-- The producer graph as the pass sees it: nodes are numbered, `hash n` is
`n->hash().value()` and `input n i` is `n->input(i)` (`none` for a null pointer). -/
structure Graph where
  hash : ℕ → ℕ
  input : ℕ → ℤ → Option ℕ

/-- The locals of lines 315-322 that the identity walk reads and writes, together with the
list of keys passed to `getImageFromCache` so far. -/
structure Resolve where
  inputImageKey : ImageKey
  isInputImgCached : Bool
  cached : Option CachedImage
  inputIdentityNumber : ℤ
  inputIdentityTime : ℤ
  lookups : List ImageKey

/-- The pattern of lines 324-328 and 336-340: look `key` up and, on a hit, read the identity
redirect from the cached params. -/
def lookupImage (cache : ImageCache) (key : ImageKey) (s : Resolve) : Resolve :=
  match cache key with
  | some e =>
    { s with inputImageKey := key, isInputImgCached := true, cached := some e
             inputIdentityNumber := e.params.inputNbIdentity
             inputIdentityTime := e.params.inputTimeIdentity
             lookups := s.lookups ++ [key] }
  | none =>
    { s with inputImageKey := key, isInputImgCached := false, lookups := s.lookups ++ [key] }

/-- Lines 315-329: the locals after the first lookup. `inputIdentityTime` is uninitialised in
the source until a hit assigns it; it is never read before that. -/
def resolveInit (g : Graph) (cache : ImageCache) (activeInputToRender : ℕ) (time view : ℤ)
    (forceRender : Bool) : Resolve :=
  let key : ImageKey := { hash := g.hash activeInputToRender, time := time, view := view }
  let s : Resolve :=
    { inputImageKey := key, isInputImgCached := false, cached := none
      inputIdentityNumber := -1, inputIdentityTime := 0, lookups := [] }
  if !forceRender then lookupImage cache key s else s

/-- The condition of the `while` of line 332. -/
def resolveCond (forceRender : Bool) (s : Resolve) : Bool :=
  !forceRender && decide (s.inputIdentityNumber ≠ -1) && s.isInputImgCached

/-- The body of the `while` of lines 333-344. The upstream node is always taken from
`activeInputToRender`, which the loop never reassigns. -/
def resolveStep (g : Graph) (cache : ImageCache) (activeInputToRender : ℕ) (view : ℤ)
    (s : Resolve) : Resolve :=
  match g.input activeInputToRender s.inputIdentityNumber with
  | some recursiveInput =>
    lookupImage cache
      { hash := g.hash recursiveInput, time := s.inputIdentityTime, view := view } s
  | none => { s with isInputImgCached := false }

/-- The `while` of lines 332-345; `none` when the fuel runs out with the condition still
true. -/
def resolveLoop (g : Graph) (cache : ImageCache) (activeInputToRender : ℕ) (view : ℤ)
    (forceRender : Bool) : ℕ → Resolve → Option Resolve
  | 0, s => if resolveCond forceRender s then none else some s
  | fuel + 1, s =>
    if resolveCond forceRender s then
      resolveLoop g cache activeInputToRender view forceRender fuel
        (resolveStep g cache activeInputToRender view s)
    else some s

/-- Lines 315-345: the identity-chain walk of `renderViewer`. -/
def resolveIdentity (g : Graph) (cache : ImageCache) (activeInputToRender : ℕ) (time view : ℤ)
    (forceRender : Bool) (fuel : ℕ) : Option Resolve :=
  resolveLoop g cache activeInputToRender view forceRender fuel
    (resolveInit g cache activeInputToRender time view forceRender)

/-! ## The render pass: data (`ViewerInstancePrivate`, collaborators) -/

/-- The enumeration `Natron::Status`, restricted to the two values `renderViewer` returns. -/
inductive Status where
  | StatOK
  | StatFailed
deriving DecidableEq

/-- The enumeration `OpenGLViewerI::BitDepth`. -/
inductive BitDepth where
  | BYTE
  | HALF_FLOAT
  | FLOAT
deriving DecidableEq

/-- The enumeration `ViewerInstance::ViewerColorSpace` held in `_imp->lut`. -/
inductive ViewerColorSpace where
  | sRGB
  | Linear
  | Rec709
deriving DecidableEq

/-- The arguments of the `FrameKey` constructor call of lines 444-451. -/
structure FrameKey where
  time : ℤ
  treeVersion : ℕ
  exposure : ℚ
  lut : ViewerColorSpace
  bitDepth : BitDepth
  channels : DisplayChannels
  view : ℤ
  textureRect : TextureRect
deriving DecidableEq

/-- Modelled from the spec: the texture cache (`Natron::getTextureFromCache`,
`getTextureFromCacheOrCreate`, `AppManager::removeFromViewerCache`, declared outside this
file), of which the pass relies on `lookup(key)`, `createAndReserve(key, params)` and
`remove(entry)`. The cache is the list of the keys that have an entry. -/
abbrev TextureCache : Type := List FrameKey

/-- Modelled from the spec: `lookup(key) -> optional<Entry>` of the texture cache. -/
def getTextureFromCache (cache : TextureCache) (key : FrameKey) : Bool :=
  decide (key ∈ cache)

/-- Modelled from the spec: `createAndReserve(key, params) -> Entry` of the texture cache. -/
def getTextureFromCacheOrCreate (cache : TextureCache) (key : FrameKey) : TextureCache :=
  if key ∈ cache then cache else key :: cache

/-- Modelled from the spec: `remove(entry)` of the texture cache; a null `cachedFrame` removes
nothing. -/
def removeFromViewerCache (cache : TextureCache) (cachedFrame : Option FrameKey) :
    TextureCache :=
  match cachedFrame with
  | some key => cache.filter (fun k => decide (k ≠ key))
  | none => cache

/-- The struct `InterThreadInfos` (lines 49-70), without the buffer pointer. -/
structure InterThreadInfos where
  textureRect : TextureRect
  bytesCount : ℤ
  autoContrast : Bool
  channels : DisplayChannels
  bitDepth : BitDepth
  exposure : ℚ
  offset : ℚ

/-- The fields of `ViewerInstancePrivate` the pass reads or writes, and the texture cache. -/
structure ViewerState where
  forceRender : Bool
  interThreadInfos : InterThreadInfos
  mustFreeBuffer : Bool
  exposure : ℚ
  offset : ℚ
  lut : ViewerColorSpace
  channels : DisplayChannels
  lastRenderedImage : Option Image
  autoContrast : Bool
  vmin : ℚ
  vmax : ℚ
  textureCache : TextureCache

/-- What the call `activeInputToRender->renderRoI(...)` of lines 528-539 does: return an image,
return a null image, or raise. -/
inductive RenderResult where
  | image (img : Image)
  | null
  | raised

/-- What the pass reads from its collaborators. The four `aborted...` fields are the values
`aborted()` yields at the polls of lines 284, 552, 625 and 639. -/
structure Env where
  abortedAtEntry : Bool
  abortedAfterRender : Bool
  abortedAfterFill : Bool
  abortedBeforePublish : Bool
  zoomFactor : ℚ
  dispW : RectI
  viewsCount : ℤ
  currentView : ℤ
  graph : Graph
  activeInputToRender : ℕ
  activeInput : ℤ
  imageCache : ImageCache
  regionOfDefinition : Option (RectI × Bool)
  clipInfiniteRod : RectI → RectI × Bool
  imageRectangleDisplayed : RectI → RectI
  viewerTilesPowerOf2 : ℕ
  bitDepth : BitDepth
  userRoIEnabled : Bool
  supportsTiles : Bool
  renderRoI : RenderResult
  mustQuit : Bool
  idealThreadCount : ℤ
  hash : ℕ

/-- The four places where `renderViewer` itself polls `aborted()`: lines 284, 552, 625, 639. -/
inductive AbortPoll where
  | atEntry
  | afterRender
  | afterFill
  | beforePublish
deriving DecidableEq

/-- The calls the pass makes on its collaborators, in order; `aborted poll b` records that the
poll at `poll` was reached and yielded `b`. -/
inductive Event where
  | aborted (poll : AbortPoll) (value : Bool)
  | getImageFromCache (key : ImageKey)
  | removeFromNodeCache (key : ImageKey)
  | getRegionOfDefinition
  | rodChanged (rod : RectI)
  | getTextureFromCache (key : FrameKey)
  | getTextureFromCacheOrCreate (key : FrameKey)
  | freeBuffer
  | mallocBuffer (bytesCount : ℤ)
  | notifyInputNIsRendering (inputIndex : ℤ)
  | renderRoI (renderWindow : RectI)
  | notifyInputNIsFinishedRendering (inputIndex : ℤ)
  | removeFromViewerCache (cachedFrame : Option FrameKey)
  | renderFunctor (yRange : ℤ × ℤ)
  | clearExceedingEntriesFromNodeCache
  | updateViewer
  | doUpdateViewer
deriving DecidableEq

/-- How a pass ends: a returned status, or the re-raised error of line 538. -/
inductive Outcome where
  | returned (stat : Status)
  | raised
deriving DecidableEq

/-- A finished pass. -/
structure Pass where
  outcome : Outcome
  state : ViewerState
  trace : List Event

/-- One stage of the pass either ends it or hands the state and trace on. -/
inductive Step where
  | finished (pass : Pass)
  | continues (state : ViewerState) (trace : List Event)

/-! ## The render pass: control flow (`renderViewer`, lines 274-653) -/

/-- Lines 566-570 (and 608-612): the flat-range adjustment of `vmin` and the derived
exposure and offset, as `((vmin, vmax), (exposure, offset))`. -/
def autoContrastArgs (v : ℚ × ℚ) : (ℚ × ℚ) × (ℚ × ℚ) :=
  let vmax := v.2
  let vmin := if vmax = v.1 then vmax - 1 else v.1
  ((vmin, vmax), (1 / (vmax - vmin), -vmin / (vmax - vmin)))

/-- Lines 566-572 (and 608-617): the state after the estimate `v` has been turned into the
exposure and offset of the pass. -/
def applyAutoContrast (st : ViewerState) (v : ℚ × ℚ) : ViewerState :=
  let a := autoContrastArgs v
  { st with vmin := a.1.1, vmax := a.1.2
            interThreadInfos := { st.interThreadInfos with exposure := a.2.1, offset := a.2.2 }
            exposure := a.2.1, offset := a.2.2 }

/-- Lines 558-623: auto-contrast estimation and the `renderFunctor` calls, single-threaded or
over the row bands. `none` when a band-splitting loop runs out of fuel. -/
def fillStage (env : Env) (singleThreaded : Bool) (fuel : ℕ) (st : ViewerState) (image : Image)
    (roi texRectClipped : RectI) : Option (ViewerState × List Event) :=
  if singleThreaded then
    let st :=
      if st.interThreadInfos.autoContrast then
        applyAutoContrast st (singleVminVmax image st.interThreadInfos.channels roi)
      else st
    some (st, [Event.renderFunctor (texRectClipped.y1, texRectClipped.y2)])
  else
    match splitRows texRectClipped env.idealThreadCount fuel with
    | none => none
    | some rows =>
      if st.interThreadInfos.autoContrast then
        match splitRects roi env.idealThreadCount fuel with
        | none => none
        | some rects =>
          some (applyAutoContrast st (mergedVminVmax image st.interThreadInfos.channels rects),
            rows.map Event.renderFunctor)
      else some (st, rows.map Event.renderFunctor)

/-- The state and trace of a pass that removes `cachedFrame` and returns `stat`. -/
def evictAndReturn (stat : Status) (st : ViewerState) (tr : List Event)
    (cachedFrame : Option FrameKey) : Pass :=
  { outcome := Outcome.returned stat
    state := { st with textureCache := removeFromViewerCache st.textureCache cachedFrame }
    trace := tr ++ [Event.removeFromViewerCache cachedFrame] }

/-- Lines 544-631: from the null-image test after the upstream render to the end of the
cache-miss branch. -/
def afterRender (env : Env) (singleThreaded : Bool) (fuel : ℕ) (st : ViewerState)
    (tr : List Event) (cachedFrame : Option FrameKey) (roi texRectClipped : RectI) :
    Option Step :=
  match st.lastRenderedImage with
  | none => some (Step.finished (evictAndReturn Status.StatFailed st tr cachedFrame))
  | some image =>
    let tr := tr ++ [Event.aborted AbortPoll.afterRender env.abortedAfterRender]
    if env.abortedAfterRender then
      some (Step.finished (evictAndReturn Status.StatOK st tr cachedFrame))
    else
      match fillStage env singleThreaded fuel st image roi texRectClipped with
      | none => none
      | some (st, filled) =>
        let tr := tr ++ filled ++ [Event.aborted AbortPoll.afterFill env.abortedAfterFill]
        if env.abortedAfterFill then
          some (Step.finished (evictAndReturn Status.StatOK st tr cachedFrame))
        else some (Step.continues st (tr ++ [Event.clearExceedingEntriesFromNodeCache]))

/-- The state, the trace and `cachedFrame` after the output buffer has been obtained. -/
structure Allocated where
  state : ViewerState
  trace : List Event
  cachedFrame : Option FrameKey

/-- Lines 487-512: release of the previous transient buffer, then either a transient
`malloc` (force-render, user RoI or auto-contrast) or a new texture-cache entry for `key`. -/
def allocateBuffer (env : Env) (st : ViewerState) (tr : List Event) (byPassCache : Bool)
    (key : FrameKey) : Allocated :=
  let tr := if st.mustFreeBuffer then tr ++ [Event.freeBuffer] else tr
  let st := { st with mustFreeBuffer := false }
  if byPassCache || env.userRoIEnabled || st.interThreadInfos.autoContrast then
    { state := { st with mustFreeBuffer := true }
      trace := tr ++ [Event.mallocBuffer st.interThreadInfos.bytesCount]
      cachedFrame := none }
  else
    { state := { st with textureCache := getTextureFromCacheOrCreate st.textureCache key }
      trace := tr ++ [Event.getTextureFromCacheOrCreate key]
      cachedFrame := some key }

/-- The assignment of line 534: `lastRenderedImage` takes the image `renderRoI` returned
unless the input image was cached, in which case the return value is dropped (line 532). -/
def storeRendered (st : ViewerState) (isInputImgCached : Bool) (img : Option Image) :
    ViewerState :=
  if isInputImgCached then st else { st with lastRenderedImage := img }

/-- Lines 483-633: the cache-miss branch. -/
def renderMiss (env : Env) (singleThreaded : Bool) (fuel : ℕ) (st : ViewerState)
    (tr : List Event) (byPassCache isInputImgCached : Bool) (rod roi texRectClipped : RectI)
    (key : FrameKey) : Option Step :=
  let a := allocateBuffer env st tr byPassCache key
  let texRectClipped :=
    if !env.supportsTiles then texRectClipped.intersect rod texRectClipped else texRectClipped
  let tr :=
    a.trace ++ [Event.notifyInputNIsRendering env.activeInput, Event.renderRoI texRectClipped,
      Event.notifyInputNIsFinishedRendering env.activeInput]
  match env.renderRoI with
  | RenderResult.raised =>
    some (Step.finished { outcome := Outcome.raised, state := a.state, trace := tr })
  | RenderResult.null =>
    afterRender env singleThreaded fuel (storeRendered a.state isInputImgCached none) tr
      a.cachedFrame roi texRectClipped
  | RenderResult.image img =>
    afterRender env singleThreaded fuel (storeRendered a.state isInputImgCached (some img)) tr
      a.cachedFrame roi texRectClipped

/-- Lines 635-652: the quit test, the last abort poll and the hand-off to the display. -/
def publish (env : Env) (singleThreaded : Bool) (st : ViewerState) (tr : List Event) : Pass :=
  if env.mustQuit then { outcome := Outcome.returned Status.StatFailed, state := st, trace := tr }
  else
    let tr := tr ++ [Event.aborted AbortPoll.beforePublish env.abortedBeforePublish]
    if !env.abortedBeforePublish then
      { outcome := Outcome.returned Status.StatOK, state := st
        trace := tr ++ [if singleThreaded then Event.updateViewer else Event.doUpdateViewer] }
    else { outcome := Outcome.returned Status.StatOK, state := st, trace := tr }

/-- The test of lines 347-360: the walk ended on a cached, non-identity entry whose RoD was
project-format dependent and differs from the current project format. -/
def isStaleProjectFormat (dispW : RectI) (rs : Resolve) : Bool :=
  match rs.cached with
  | some e =>
    rs.isInputImgCached && decide (rs.inputIdentityNumber = -1) &&
      e.params.isRodProjectFormat && decide (dispW ≠ e.params.rod)
  | none => false

/-- Lines 362-377: the RoD of the pass and the state after it is known; `none` is the
`return stat` of line 374. The second component of the result is whether
`getRegionOfDefinition` was called. A hit always comes with its entry, so the case of a hit
without one is never taken. -/
def resolveRoD (env : Env) (rs : Resolve) (isInputImgCached : Bool) (st : ViewerState) :
    Option (RectI × Bool × ViewerState) :=
  match isInputImgCached, rs.cached with
  | true, some e => some (e.image.rod, false, { st with lastRenderedImage := some e.image })
  | _, _ =>
    match env.regionOfDefinition with
    | none => none
    | some (rod, _) => some ((env.clipInfiniteRod rod).1, true, st)

/-- The value of an `int` expression whose mathematical value is `n`: the two's-complement
reduction to 32 bits (signed overflow is undefined behaviour; this is what the compiled
multiplication yields). -/
def wrapInt32 (n : ℤ) : ℤ :=
  (n + 2 ^ 31) % 2 ^ 32 - 2 ^ 31

/-- Conversion to, and arithmetic in, the 64-bit unsigned `size_t`. -/
def toSizeT (n : ℤ) : ℤ :=
  n % 2 ^ 64

/-- Lines 419-442: the snapshot of the viewer settings taken for the pass. The product
`textureRect.w * textureRect.h * 4` of line 421 is taken in `int` and then stored in the
`size_t` field `bytesCount`; the `*= sizeof(float)` of line 427 is taken in `size_t`. -/
def snapshot (env : Env) (st : ViewerState) (textureRect : TextureRect) : ViewerState :=
  let bytesCount := toSizeT (wrapInt32 (wrapInt32 (textureRect.w * textureRect.h) * 4))
  let bytesCount :=
    if env.bitDepth = BitDepth.FLOAT ∨ env.bitDepth = BitDepth.HALF_FLOAT then
      toSizeT (bytesCount * 4)
    else bytesCount
  { st with interThreadInfos :=
      { textureRect := textureRect, bytesCount := bytesCount, bitDepth := env.bitDepth
        autoContrast := st.autoContrast, exposure := st.exposure, offset := st.offset
        channels := st.channels } }

/-- The calls of lines 284-377 on a pass that was not aborted at entry: the entry poll, the
image-cache lookups of the identity walk, the eviction of a stale entry, and the call of
`getRegionOfDefinition` when the walk did not end on a usable image. -/
def sourceTrace (rs : Resolve) (stale isInputImgCached : Bool) : List Event :=
  [Event.aborted AbortPoll.atEntry false] ++ rs.lookups.map Event.getImageFromCache ++
    (if stale then [Event.removeFromNodeCache rs.inputImageKey] else []) ++
    (if isInputImgCached then [] else [Event.getRegionOfDefinition])

/-- Lines 419-653: the settings snapshot, the frame key, the texture-cache lookup and what
follows it. -/
def frameStage (env : Env) (time view : ℤ) (singleThreaded : Bool) (fuel : ℕ)
    (st : ViewerState) (tr : List Event) (forceRender isInputImgCached : Bool)
    (rod roi : RectI) (sch : Scheduled) : Option Pass :=
  let st := snapshot env st sch.textureRect
  let key : FrameKey :=
    { time := time, treeVersion := env.hash, exposure := st.interThreadInfos.exposure
      lut := st.lut, bitDepth := st.interThreadInfos.bitDepth
      channels := st.interThreadInfos.channels, view := view
      textureRect := sch.textureRect }
  let lookup := !forceRender && !env.userRoIEnabled && !st.interThreadInfos.autoContrast
  let isCached := lookup && getTextureFromCache st.textureCache key
  let tr := if lookup then tr ++ [Event.getTextureFromCache key] else tr
  if isCached then some (publish env singleThreaded st tr)
  else
    match renderMiss env singleThreaded fuel st tr forceRender isInputImgCached rod roi
        sch.texRectClipped key with
    | none => none
    | some (Step.finished pass) => some pass
    | some (Step.continues st tr) => some (publish env singleThreaded st tr)

/-- Lines 380-653: from the known RoD on. -/
def scheduleStage (env : Env) (time view : ℤ) (singleThreaded : Bool) (fuel : ℕ)
    (st : ViewerState) (tr : List Event) (forceRender isInputImgCached : Bool) (rod : RectI) :
    Option Pass :=
  let tr := tr ++ [Event.rodChanged rod]
  let roi := env.imageRectangleDisplayed rod
  match scheduleTexture rod roi (closestPowerOf2 env.zoomFactor)
      (tileSize env.viewerTilesPowerOf2) with
  | none => some { outcome := Outcome.returned Status.StatOK, state := st, trace := tr }
  | some sch =>
    frameStage env time view singleThreaded fuel st tr forceRender isInputImgCached rod roi sch

/-- The method `ViewerInstance::renderViewer(time, singleThreaded)`. `none` when one of its
loops runs out of fuel. -/
def renderViewer (env : Env) (time : ℤ) (singleThreaded : Bool) (fuel : ℕ) (st : ViewerState) :
    Option Pass :=
  if env.abortedAtEntry then
    some { outcome := Outcome.returned Status.StatFailed, state := st
           trace := [Event.aborted AbortPoll.atEntry true] }
  else
    let view := if env.viewsCount > 0 then env.currentView else 0
    let forceRender := st.forceRender
    let st := { st with forceRender := false }
    match resolveIdentity env.graph env.imageCache env.activeInputToRender time view
        forceRender fuel with
    | none => none
    | some rs =>
      let stale := isStaleProjectFormat env.dispW rs
      let isInputImgCached := rs.isInputImgCached && !stale
      let tr := sourceTrace rs stale isInputImgCached
      match resolveRoD env rs isInputImgCached st with
      | none => some { outcome := Outcome.returned Status.StatFailed, state := st, trace := tr }
      | some (rod, _, st) =>
        scheduleStage env time view singleThreaded fuel st tr forceRender isInputImgCached rod

/-- The walk state agrees with the cache: on a hit, the identity redirect held in the locals
is the one of the entry cached under the current key. -/
def ResolveInv (cache : ImageCache) (s : Resolve) : Prop :=
  s.isInputImgCached = true →
    ∃ e, cache s.inputImageKey = some e ∧ s.inputIdentityNumber = e.params.inputNbIdentity ∧
      s.inputIdentityTime = e.params.inputTimeIdentity

/-- The merge of two `(vmin, vmax)` estimates: the smaller minimum and the larger maximum. -/
def mergeMinMax (a b : ℚ × ℚ) : ℚ × ℚ :=
  (min a.1 b.1, max a.2 b.2)

/-- The per-pixel `(mini, maxi)` values of the pixels with `x` in `[x1, x2)` on the rows
`rows`, row by row. -/
def regionValues (image : Image) (channels : DisplayChannels) (x1 x2 : ℤ) :
    List ℤ → List (ℚ × ℚ)
  | [] => []
  | y :: ys =>
    (intRange x1 x2).map (fun x => pixelMiniMaxi channels (image.pixelAt x y)) ++
      regionValues image channels x1 x2 ys

/-- The rows covered by a list of rectangles, in the order of the list. -/
def bandRows : List RectI → List ℤ
  | [] => []
  | r :: rs => intRange r.y1 r.y2 ++ bandRows rs

/-- The events of lines 284-377: the entry poll, the identity walk, the eviction of a stale
image and the call of `getRegionOfDefinition`. -/
def Event.isSource : Event → Bool
  | Event.aborted AbortPoll.atEntry false => true
  | Event.getImageFromCache _ => true
  | Event.removeFromNodeCache _ => true
  | Event.getRegionOfDefinition => true
  | _ => false

/-- The events of lines 454-652, from the texture-cache lookup on. -/
def Event.isFrame : Event → Bool
  | Event.aborted AbortPoll.afterRender _ => true
  | Event.aborted AbortPoll.afterFill _ => true
  | Event.aborted AbortPoll.beforePublish _ => true
  | Event.getTextureFromCache _ => true
  | Event.getTextureFromCacheOrCreate _ => true
  | Event.freeBuffer => true
  | Event.mallocBuffer _ => true
  | Event.notifyInputNIsRendering _ => true
  | Event.renderRoI _ => true
  | Event.notifyInputNIsFinishedRendering _ => true
  | Event.removeFromViewerCache _ => true
  | Event.renderFunctor _ => true
  | Event.clearExceedingEntriesFromNodeCache => true
  | Event.updateViewer => true
  | Event.doUpdateViewer => true
  | _ => false

/-! ## The float path (`scaleToTexture32bits`, lines 859-907) -/

/-- The inner loop of lines 888-903, entered with the loop variable `x`, with `src_pixels`
at the source pixel `(srcX, y)` and with `dst_pixels` at the destination pixel `dst` (in
units of 4 floats): the destination pixels written, each with its four floats. `none` when
the fuel runs out. -/
def fillRow32Loop (inputImage : Image) (y x2 closestPowerOf2 : ℤ) (rOffset gOffset bOffset : ℕ)
    (luminance : Bool) : ℕ → ℤ → ℤ → ℤ → Option (List (ℤ × Pixel))
  | 0, x, _, _ => if x < x2 then none else some []
  | fuel + 1, x, srcX, dst =>
    if x < x2 then
      (fillRow32Loop inputImage y x2 closestPowerOf2 rOffset gOffset bOffset luminance fuel
          (x + closestPowerOf2) (srcX + closestPowerOf2) (dst + 1)).map
        (fun l => (dst, texel32 (inputImage.pixelAt srcX y) rOffset gOffset bOffset luminance) :: l)
    else some []

/-- The body of the outer loop of lines 882-905 for the scan-lines `rows` (source row and
`dstY`), `output` being the destination pixel the base pointer is at. -/
def fillRows32 (inputImage : Image) (texRect : TextureRect) (closestPowerOf2 : ℤ)
    (rOffset gOffset bOffset : ℕ) (luminance : Bool) (output : ℤ) (fuel : ℕ) :
    List (ℤ × ℤ) → Option (List (ℤ × Pixel))
  | [] => some []
  | row :: rest =>
    match fillRow32Loop inputImage row.1 texRect.x2 closestPowerOf2 rOffset gOffset bOffset
        luminance fuel texRect.x1 texRect.x1 (output + row.2 * texRect.w),
      fillRows32 inputImage texRect closestPowerOf2 rOffset gOffset bOffset luminance output
        fuel rest with
    | some a, some b => some (a ++ b)
    | _, _ => none

/-- The method `scaleToTexture32bits`: the destination pixels written, in order, each with its
four floats; destination indices count pixels of 4 floats from the start of the buffer.
`interThreadInfos` is the snapshot `_imp->interThreadInfos` the method has access to. `none`
when a loop runs out of fuel. -/
def scaleToTexture32bits (_interThreadInfos : InterThreadInfos) (inputImage : Image)
    (yRange : ℤ × ℤ) (texRect : TextureRect) (closestPowerOf2 : ℤ)
    (rOffset gOffset bOffset : ℕ) (luminance : Bool) (fuel : ℕ) : Option (List (ℤ × Pixel)) :=
  let output := Int.tdiv (yRange.1 - texRect.y1) closestPowerOf2 * texRect.w
  match scanRowsLoop closestPowerOf2 yRange.2 fuel yRange.1 0 with
  | none => none
  | some rows =>
    fillRows32 inputImage texRect closestPowerOf2 rOffset gOffset bOffset luminance output
      fuel rows

/-! ## The 8-bit path: one direction of a scan-line (`scaleToTexture8bits`, lines 800-853) -/

/-- The function `toBGRA` (lines 909-918) on 32-bit words. -/
def toBGRA (r g b a : ℕ) : ℕ :=
  (b ||| (g <<< 8) ||| (r <<< 16) ||| (a <<< 24)) % 2 ^ 32

/-- Lines 834-836: `error = (error & 0xff) + t` in `unsigned` arithmetic, `t` being the value
of `toColorSpaceUint8xxFromLinearFloatFast`. -/
def errorUpdate (error t : ℕ) : ℕ :=
  ((error &&& 0xff) + t) % 2 ^ 32

/-- Lines 838-840: `(U8)(error >> 8)`. -/
def emittedByte (error : ℕ) : ℕ :=
  (error >>> 8) % 256

/-- What the 8-bit path reads for one scan-line `y`: the arguments of `scaleToTexture8bits`,
the exposure and offset of the pass, the fast transform of `_imp->colorSpace` (`none` for a
null pointer; `Lut::toColorSpaceUint8xxFromLinearFloatFast` is declared in `Engine/Lut.h`) and
`Color::floatToInt<256>`. -/
structure ScanLine8 where
  inputImage : Image
  y : ℤ
  texRect : TextureRect
  closestPowerOf2 : ℤ
  rOffset : ℕ
  gOffset : ℕ
  bOffset : ℕ
  luminance : Bool
  exposure : ℚ
  offset : ℚ
  colorSpace : Option (ℚ → ℕ)
  floatToInt256 : ℚ → ℕ

/-- Lines 817-824: the values `r`, `g`, `b` for the source pixel at offset `srcIndex` from
`texRect.x1` on the scan-line. -/
def ScanLine8.value (c : ScanLine8) (srcIndex : ℤ) : ℚ × ℚ × ℚ :=
  let px := c.inputImage.pixelAt (c.texRect.x1 + srcIndex) c.y
  let r := px.comp c.rOffset * c.exposure + c.offset
  let g := px.comp c.gOffset * c.exposure + c.offset
  let b := px.comp c.bOffset * c.exposure + c.offset
  if c.luminance then
    let r := 299 / 1000 * r + 587 / 1000 * g + 114 / 1000 * b
    (r, r, r)
  else (r, g, b)

/-- One iteration of the `while` of lines 810-853 that writes: the destination and source
index, the three error accumulators after the iteration and the word stored. -/
structure Write8 where
  dstIndex : ℤ
  srcIndex : ℤ
  error_r : ℕ
  error_g : ℕ
  error_b : ℕ
  word : ℕ
deriving DecidableEq

/-- Lines 817-843: the write of one iteration, entered with the accumulators `er`, `eg`,
`eb`. -/
def ScanLine8.write (c : ScanLine8) (dstIndex srcIndex : ℤ) (er eg eb : ℕ) : Write8 :=
  let v := c.value srcIndex
  match c.colorSpace with
  | none =>
    { dstIndex := dstIndex, srcIndex := srcIndex, error_r := er, error_g := eg, error_b := eb
      word := toBGRA (c.floatToInt256 v.1) (c.floatToInt256 v.2.1) (c.floatToInt256 v.2.2) 255 }
  | some lut =>
    let er := errorUpdate er (lut v.1)
    let eg := errorUpdate eg (lut v.2.1)
    let eb := errorUpdate eb (lut v.2.2)
    { dstIndex := dstIndex, srcIndex := srcIndex, error_r := er, error_g := eg, error_b := eb
      word := toBGRA (emittedByte er) (emittedByte eg) (emittedByte eb) 255 }

/-- The `while` of lines 810-853 for one direction, entered with `dstIndex`, `srcIndex` and
the three accumulators: the writes, in order. `none` when the fuel runs out. -/
def walk8Loop (c : ScanLine8) (backward : Bool) : ℕ → ℤ → ℤ → ℕ → ℕ → ℕ → Option (List Write8)
  | 0, dstIndex, srcIndex, _, _, _ =>
    if dstIndex < c.texRect.w ∧ dstIndex ≥ 0 then
      if srcIndex ≥ c.texRect.x2 - c.texRect.x1 then some [] else none
    else some []
  | fuel + 1, dstIndex, srcIndex, er, eg, eb =>
    if dstIndex < c.texRect.w ∧ dstIndex ≥ 0 then
      if srcIndex ≥ c.texRect.x2 - c.texRect.x1 then some []
      else
        let w := c.write dstIndex srcIndex er eg eb
        (walk8Loop c backward fuel (if backward then dstIndex - 1 else dstIndex + 1)
            (if backward then srcIndex - c.closestPowerOf2 else srcIndex + c.closestPowerOf2)
            w.error_r w.error_g w.error_b).map (fun l => w :: l)
    else some []

/-- Lines 802-810: one direction of the fill of a scan-line from the start index `start`, the
accumulators being initialised to `0x80`. -/
def walk8 (c : ScanLine8) (backward : Bool) (start : ℤ) (fuel : ℕ) : Option (List Write8) :=
  let dstIndex := if backward then start - 1 else start
  let srcIndex := dstIndex * c.closestPowerOf2
  walk8Loop c backward fuel dstIndex srcIndex 0x80 0x80 0x80

/-- The error diffusion in the spec's words: from the accumulator `acc`, for each value `t` of
the fast transform the accumulator becomes `(acc & 0xFF) + t` and the byte emitted is the top
8 bits of the 16-bit accumulator; the list of (accumulator, byte). -/
def specDiffuse (acc : ℕ) : List ℕ → List (ℕ × ℕ)
  | [] => []
  | t :: ts => (acc % 256 + t, (acc % 256 + t) / 256) :: specDiffuse (acc % 256 + t) ts

/-! ## Reading a pixel back (`getColorAt`, lines 1052-1082) -/

/-- The values of `Node::CanConnectInputReturnValue` that `doConnect` names, and the others. -/
inductive CanConnectInputReturnValue where
  | eCanConnectInput_ok
  | eCanConnectInput_differentFPS
  | eCanConnectInput_differentPars
  | refused (code : ℕ)
deriving DecidableEq

/-- A `NodeGuiPtr` that is not null: the gui's number and what `getNode()` returns (`none` for
a null `NodePtr`). -/
structure NodeGui where
  gui : ℕ
  node : Option ℕ
deriving DecidableEq

/-- What `doConnect` reads from the destination node and its collaborators. -/
structure ConnectEnv where
  isViewer : Bool
  maxInputCount : ℕ
  getInput : ℕ → Option ℕ
  canConnectInput : CanConnectInputReturnValue
  inputsConnectedToOldSrc : List ℤ

/-- The calls `doConnect` makes, in order; a node argument is `none` for a null `NodePtr`. -/
inductive ConnectCall where
  | disconnectInput (i : ℤ)
  | swapInput (src : Option ℕ) (inputNb : ℤ)
  | connectInput (src : Option ℕ) (inputNb : ℤ)
  | canConnectInput (src : Option ℕ) (inputNb : ℤ)
  | getInputIndicesConnectedToThisNode (oldSrc : ℕ)
  | connectInputToIndex (inputNb viewerInternalIndex : ℤ)
  | refreshEdges
  | refreshEdgesVisility (gui : ℕ)
deriving DecidableEq

/-- How a run of `doConnect` ends: it returns, or it calls a method through the null
`internalOldSrc`. -/
inductive ConnectEnd where
  | returned
  | nullOldSrcDereferenced
deriving DecidableEq

/-- The loop of lines 422-426 over the inputs of a viewer destination. -/
def disconnectNewSrc (env : ConnectEnv) (internalNewSrc : Option ℕ) (inputNb : ℤ) :
    List ConnectCall :=
  ((List.range env.maxInputCount).filter
      (fun (i : ℕ) => decide ((i : ℤ) ≠ inputNb) && decide (env.getInput i = internalNewSrc))).map
    (fun (i : ℕ) => ConnectCall.disconnectInput (i : ℤ))

/-- The statements `internalOldSrc->getInputIndicesConnectedToThisNode(internalDst)` and the
loop that follows (lines 442-445, 448-451, 460-463): through a null `internalOldSrc` the call
is a null dereference. -/
def disconnectOldSrc (env : ConnectEnv) (internalOldSrc : Option ℕ) :
    List ConnectCall × ConnectEnd :=
  match internalOldSrc with
  | none => ([], ConnectEnd.nullOldSrcDereferenced)
  | some old =>
    (ConnectCall.getInputIndicesConnectedToThisNode old ::
        env.inputsConnectedToOldSrc.map ConnectCall.disconnectInput, ConnectEnd.returned)

/-- The expression `connectionOk` of lines 436-438 and 454-456. -/
def connectionOk (ret : CanConnectInputReturnValue) : Bool :=
  decide (ret = CanConnectInputReturnValue.eCanConnectInput_ok) ||
    decide (ret = CanConnectInputReturnValue.eCanConnectInput_differentFPS) ||
    decide (ret = CanConnectInputReturnValue.eCanConnectInput_differentPars)

/-- Lines 428-466: the `if`/`else` chain on `internalOldSrc` and `internalNewSrc`, branch for
branch. -/
def connectBranches (env : ConnectEnv) (internalOldSrc internalNewSrc : Option ℕ)
    (inputNb : ℤ) : List ConnectCall × ConnectEnd :=
  if internalOldSrc.isSome ∧ internalNewSrc.isSome then
    ([ConnectCall.swapInput internalNewSrc inputNb], ConnectEnd.returned)
  else if internalOldSrc.isSome ∧ internalNewSrc.isSome then
    if connectionOk env.canConnectInput then
      ([ConnectCall.canConnectInput internalNewSrc inputNb,
        ConnectCall.swapInput internalNewSrc inputNb], ConnectEnd.returned)
    else
      let d := disconnectOldSrc env internalOldSrc
      (ConnectCall.canConnectInput internalNewSrc inputNb :: d.1, d.2)
  else if internalOldSrc.isSome ∧ ¬internalNewSrc.isSome then
    disconnectOldSrc env internalOldSrc
  else if ¬internalOldSrc.isSome ∧ internalNewSrc.isSome then
    if connectionOk env.canConnectInput then
      ([ConnectCall.canConnectInput internalNewSrc inputNb,
        ConnectCall.connectInput internalNewSrc inputNb], ConnectEnd.returned)
    else
      let d := disconnectOldSrc env internalOldSrc
      (ConnectCall.canConnectInput internalNewSrc inputNb :: d.1, d.2)
  else ([], ConnectEnd.returned)

/-- The method `ConnectCommand::doConnect(oldSrc, newSrc, dst, inputNb, viewerInternalIndex)`:
the calls made and how the run ends. `oldSrc` and `newSrc` are `none` for null pointers and
`dst` is the number of the destination gui. -/
def doConnect (env : ConnectEnv) (oldSrc newSrc : Option NodeGui) (dst : ℕ) (inputNb : ℤ)
    (viewerInternalIndex : ℤ) : List ConnectCall × ConnectEnd :=
  let internalNewSrc := newSrc.bind (fun g => g.node)
  let internalOldSrc := oldSrc.bind (fun g => g.node)
  let pre := if env.isViewer then disconnectNewSrc env internalNewSrc inputNb else []
  let mid := connectBranches env internalOldSrc internalNewSrc inputNb
  match mid.2 with
  | ConnectEnd.nullOldSrcDereferenced => (pre ++ mid.1, ConnectEnd.nullOldSrcDereferenced)
  | ConnectEnd.returned =>
    let viewer :=
      if env.isViewer ∧ (viewerInternalIndex = 0 ∨ viewerInternalIndex = 1) then
        [ConnectCall.connectInputToIndex inputNb viewerInternalIndex]
      else []
    let newEdges := match newSrc with
      | some g => [ConnectCall.refreshEdgesVisility g.gui]
      | none => []
    let oldEdges := match oldSrc with
      | some g => [ConnectCall.refreshEdgesVisility g.gui]
      | none => []
    (pre ++ mid.1 ++ viewer ++
      [ConnectCall.refreshEdges, ConnectCall.refreshEdgesVisility dst] ++ newEdges ++ oldEdges,
      ConnectEnd.returned)

/-! ## The 8-bit path: the whole method (`scaleToTexture8bits`, lines 772-857) -/

/-- How a run of `scaleToTexture8bits` ends: it returns, a loop of the model runs out of fuel,
or the `%` of line 792 divides by zero. -/
inductive Run (α : Type) where
  | returned (a : α)
  | outOfFuel
  | divisionByZero

/-- Line 792: `rand() % ((texRect.x2 - texRect.x1) / closestPowerOf2)` for the value
`randValue` of `rand()`. Both `/` and `%` truncate toward zero; `none` when the divisor
is 0. -/
def startIndex (randValue : ℕ) (texRect : TextureRect) (closestPowerOf2 : ℤ) : Option ℤ :=
  let divisor := Int.tdiv (texRect.x2 - texRect.x1) closestPowerOf2
  if divisor = 0 then none else some (Int.tmod (randValue : ℤ) divisor)

/-- The body of the outer loop (lines 790-855) for one scan-line `c`, `dst_pixels` being the
destination pixel the row starts at: the writes of the forward walk, then those of the
backward walk, each with the index of the pixel written in the buffer. -/
def fillRow8 (c : ScanLine8) (randValue : ℕ) (dst_pixels : ℤ) (fuel : ℕ) :
    Run (List (ℤ × Write8)) :=
  match startIndex randValue c.texRect c.closestPowerOf2 with
  | none => Run.divisionByZero
  | some start =>
    match walk8 c false start fuel, walk8 c true start fuel with
    | some forward, some backward =>
      Run.returned ((forward ++ backward).map (fun wr => (dst_pixels + wr.dstIndex, wr)))
    | _, _ => Run.outOfFuel

/-- The outer loop of lines 790-855 over the scan-lines `rows` (source row and `dstY`);
`line y` is what the body reads on the scan-line `y`, `rand dstY` the value `rand()` returns
on the iteration `dstY`, and `output` the destination pixel the base pointer is at. -/
def fillRows8 (line : ℤ → ScanLine8) (rand : ℤ → ℕ) (output w : ℤ) (fuel : ℕ) :
    List (ℤ × ℤ) → Run (List (ℤ × Write8))
  | [] => Run.returned []
  | row :: rest =>
    match fillRow8 (line row.1) (rand row.2) (output + row.2 * w) fuel with
    | Run.returned a =>
      match fillRows8 line rand output w fuel rest with
      | Run.returned b => Run.returned (a ++ b)
      | Run.outOfFuel => Run.outOfFuel
      | Run.divisionByZero => Run.divisionByZero
    | Run.outOfFuel => Run.outOfFuel
    | Run.divisionByZero => Run.divisionByZero

/-- The method `scaleToTexture8bits`: the pixels written, in order, each with its index in the
buffer (in pixels of 4 bytes). `infos` is `_imp->interThreadInfos`, `colorSpace` is
`_imp->colorSpace` and `rand dstY` is the value of `rand()` on the iteration `dstY`. -/
def scaleToTexture8bits (infos : InterThreadInfos) (colorSpace : Option (ℚ → ℕ))
    (floatToInt256 : ℚ → ℕ) (rand : ℤ → ℕ) (inputImage : Image) (yRange : ℤ × ℤ)
    (texRect : TextureRect) (closestPowerOf2 : ℤ) (rOffset gOffset bOffset : ℕ)
    (luminance : Bool) (fuel : ℕ) : Run (List (ℤ × Write8)) :=
  let output := Int.tdiv (yRange.1 - texRect.y1) closestPowerOf2 * texRect.w
  let line : ℤ → ScanLine8 := fun y =>
    { inputImage := inputImage, y := y, texRect := texRect, closestPowerOf2 := closestPowerOf2
      rOffset := rOffset, gOffset := gOffset, bOffset := bOffset, luminance := luminance
      exposure := infos.exposure, offset := infos.offset, colorSpace := colorSpace
      floatToInt256 := floatToInt256 }
  match scanRowsLoop closestPowerOf2 yRange.2 fuel yRange.1 0 with
  | none => Run.outOfFuel
  | some rows => fillRows8 line rand output texRect.w fuel rows

/-- The events of lines 544-652, after the upstream render has returned: the three later abort
polls, the eviction of the frame, the `renderFunctor` calls, the trimming of the node cache
and the hand-off to the display. -/
def Event.isPost : Event → Bool
  | Event.aborted AbortPoll.afterRender _ => true
  | Event.aborted AbortPoll.afterFill _ => true
  | Event.aborted AbortPoll.beforePublish _ => true
  | Event.removeFromViewerCache _ => true
  | Event.renderFunctor _ => true
  | Event.clearExceedingEntriesFromNodeCache => true
  | Event.updateViewer => true
  | Event.doUpdateViewer => true
  | _ => false

/-- The trace a stage hands on or ends the pass with. -/
def Step.trace : Step → List Event
  | Step.finished pass => pass.trace
  | Step.continues _ tr => tr

/-- The `FrameKey` of lines 444-451 for a pass at `time` and `view` whose settings snapshot is
taken from `st`. -/
def frameKeyOf (env : Env) (time view : ℤ) (st : ViewerState) (textureRect : TextureRect) :
    FrameKey :=
  { time := time, treeVersion := env.hash, exposure := st.exposure, lut := st.lut
    bitDepth := env.bitDepth, channels := st.channels, view := view
    textureRect := textureRect }

/-- The condition of lines 459-468 under which the texture cache is by-passed: force-render,
user region of interest or auto-contrast. -/
def bypassesTextureCache (env : Env) (st : ViewerState) : Bool :=
  st.forceRender || env.userRoIEnabled || st.autoContrast

/-! ## Concrete inputs used in the evaluations below -/

/-- Scenario A of the spec: the RoD `(0,0,100,100)`. -/
def rodA : RectI := { x1 := 0, y1 := 0, x2 := 100, y2 := 100 }

/-- A visible rectangle in the top right corner of `rodA`. -/
def roiCorner : RectI := { x1 := 90, y1 := 90, x2 := 100, y2 := 100 }

/-- What the scheduling step leaves behind for `rodA` wholly visible at zoom 1 with tiles of
16 pixels. -/
def schedA : Scheduled :=
  { texRect := { x1 := 0, y1 := 0, x2 := 112, y2 := 112 }
    texRectClipped := { x1 := 0, y1 := 0, x2 := 100, y2 := 100 }
    textureRect := { x1 := 0, y1 := 0, x2 := 100, y2 := 100, w := 100, h := 100, closestPo2 := 1 } }

/-- What the scheduling step leaves behind for `roiCorner` visible of `rodA` at zoom 1 with
tiles of 16 pixels. -/
def schedCorner : Scheduled :=
  { texRect := { x1 := 80, y1 := 80, x2 := 112, y2 := 112 }
    texRectClipped := { x1 := 80, y1 := 80, x2 := 100, y2 := 100 }
    textureRect := { x1 := 80, y1 := 80, x2 := 100, y2 := 100, w := 32, h := 32, closestPo2 := 1 } }

/-- Scenario C of the spec: the source pixel `(0.5, 0.2, 0.1, 1.0)`. -/
def pixelC : Pixel := { r := 1 / 2, g := 1 / 5, b := 1 / 10, a := 1 }

/-- A RoD of 12 x 6 pixels. -/
def rodB : RectI := { x1 := 0, y1 := 0, x2 := 12, y2 := 6 }

/-- What the scheduling step leaves behind for `rodB` wholly visible at zoom 0.5 with tiles of
16 pixels. -/
def schedB : Scheduled :=
  { texRect := { x1 := 0, y1 := 0, x2 := 16, y2 := 16 }
    texRectClipped := { x1 := 0, y1 := 0, x2 := 12, y2 := 6 }
    textureRect := { x1 := 0, y1 := 0, x2 := 12, y2 := 6, w := 12, h := 6, closestPo2 := 2 } }

/-- A clipped rectangle of 4 x 12 pixels. -/
def rectTall : RectI := { x1 := 0, y1 := 0, x2 := 4, y2 := 12 }

/-- An image of `rodA` whose pixels are all opaque black. -/
def imageA : Image := { rod := rodA, pixelAt := fun _ _ => { r := 0, g := 0, b := 0, a := 1 } }

/-- A cache entry whose params report an identity redirect to input `nb` at time `t`
(`nb = -1`: not an identity). -/
def entryIdentity (nb t : ℤ) : CachedImage :=
  { params := { rod := rodA, isRodProjectFormat := false
                inputNbIdentity := nb, inputTimeIdentity := t }
    image := imageA }

/-- Nodes 0, 1, 2 with hashes 10, 11, 12; node 0 has node 1 as input 0 and node 1 has node 2
as input 0. -/
def graphChain : Graph :=
  { hash := fun n => 10 + n
    input := fun n i =>
      if n = 0 ∧ i = 0 then some 1 else if n = 1 ∧ i = 0 then some 2 else none }

/-- Nodes 0 and 1 with hashes 10 and 11, each the input 0 of the other. -/
def graphCycle : Graph :=
  { hash := fun n => 10 + n
    input := fun n i =>
      if n = 0 ∧ i = 0 then some 1 else if n = 1 ∧ i = 0 then some 0 else none }

/-- Both nodes of `graphCycle` are cached at time 5 as identities of their input 0 at
time 5. -/
def cacheCycle : ImageCache := fun k =>
  if k = { hash := 10, time := 5, view := 0 } then some (entryIdentity 0 5)
  else if k = { hash := 11, time := 5, view := 0 } then some (entryIdentity 0 5)
  else none

/-- Node 0 is cached at time 5 as an identity of its input 0 at time 5, and node 1 at time 5
as a terminal image. -/
def cacheChain2 : ImageCache := fun k =>
  if k = { hash := 10, time := 5, view := 0 } then some (entryIdentity 0 5)
  else if k = { hash := 11, time := 5, view := 0 } then some (entryIdentity (-1) 0)
  else none

/-- A rank on the keys of `cacheChain2`: 1 for node 0, 0 elsewhere. -/
def rankChain2 (k : ImageKey) : ℕ := if k.hash = 10 then 1 else 0

/-- Node 0 is cached at time 5 as an identity of its input 0 (node 1) at time 5, node 1 at time
5 as an identity of its input 0 (node 2) at time 7, and node 2 at time 7 as a terminal
image. -/
def cacheChain3 : ImageCache := fun k =>
  if k = { hash := 10, time := 5, view := 0 } then some (entryIdentity 0 5)
  else if k = { hash := 11, time := 5, view := 0 } then some (entryIdentity 0 7)
  else if k = { hash := 12, time := 7, view := 0 } then some (entryIdentity (-1) 0)
  else none

/-- A pass over Scenario A: nothing cached, the upstream render returns `imageA`, no abort. -/
def envA : Env :=
  { abortedAtEntry := false, abortedAfterRender := false, abortedAfterFill := false
    abortedBeforePublish := false, zoomFactor := 1, dispW := rodA, viewsCount := 1
    currentView := 0, graph := graphChain, activeInputToRender := 0, activeInput := 0
    imageCache := fun _ => none, regionOfDefinition := some (rodA, false)
    clipInfiniteRod := fun r => (r, false), imageRectangleDisplayed := fun r => r
    viewerTilesPowerOf2 := 4, bitDepth := BitDepth.BYTE, userRoIEnabled := false
    supportsTiles := true, renderRoI := RenderResult.image imageA, mustQuit := false
    idealThreadCount := 4, hash := 99 }

/-- The viewer state of a fresh viewer with an empty texture cache. -/
def stateA : ViewerState :=
  { forceRender := false
    interThreadInfos :=
      { textureRect := { x1 := 0, y1 := 0, x2 := 0, y2 := 0, w := 0, h := 0, closestPo2 := 1 }
        bytesCount := 0, autoContrast := false, channels := DisplayChannels.RGB
        bitDepth := BitDepth.BYTE, exposure := 0, offset := 0 }
    mustFreeBuffer := false, exposure := 1, offset := 0, lut := ViewerColorSpace.sRGB
    channels := DisplayChannels.RGB, lastRenderedImage := none, autoContrast := false
    vmin := 0, vmax := 0, textureCache := [] }

/-- The frame key of the pass `envA`, `stateA` at time 5. -/
def keyA : FrameKey :=
  { time := 5, treeVersion := 99, exposure := 1, lut := ViewerColorSpace.sRGB
    bitDepth := BitDepth.BYTE, channels := DisplayChannels.RGB, view := 0
    textureRect := schedA.textureRect }

/-- The pass of `envA` with the abort flag set at the poll after the upstream render. -/
def envAbortRender : Env := { envA with abortedAfterRender := true }

/-- The outcome, the trace and whether `keyA` has a texture-cache entry at the end of a
pass. -/
def Pass.summary (p : Pass) : Outcome × List Event × Bool :=
  (p.outcome, p.trace, decide (keyA ∈ p.state.textureCache))

/-- A region of zero width and ten rows. -/
def roiThin : RectI := { x1 := 5, y1 := 0, x2 := 5, y2 := 10 }

/-- An image of `rodA` whose pixels all have the value `3 * 10 ^ 9` in red, green and blue. -/
def imageBright : Image :=
  { rod := rodA
    pixelAt := fun _ _ => { r := 3000000000, g := 3000000000, b := 3000000000, a := 1 } }

/-- The region made of the single pixel `(0, 0)`. -/
def roiOne : RectI := { x1 := 0, y1 := 0, x2 := 1, y2 := 1 }

/-- The pass of `envA` with nothing of the image visible: the displayed rectangle is
`(0,0,0,0)`. -/
def envDegenerate : Env :=
  { envA with imageRectangleDisplayed := fun _ => { x1 := 0, y1 := 0, x2 := 0, y2 := 0 } }

/-- An image of `rodA` whose pixel `(x, y)` holds `x`, `y`, `x + y` and 1. -/
def imageRamp : Image :=
  { rod := rodA, pixelAt := fun x y => { r := x, g := y, b := x + y, a := 1 } }

/-- A TextureRect of 4 x 4 source pixels sampled every 2 pixels into 2 x 2 texels. -/
def texRectSmall : TextureRect :=
  { x1 := 0, y1 := 0, x2 := 4, y2 := 4, w := 2, h := 2, closestPo2 := 2 }

/-- A fast transform with three levels: 0 at or below 0, `0xFF00` at or above 1 and `0x8000`
in between. -/
def lutC (v : ℚ) : ℕ := if v ≤ 0 then 0 else if 1 ≤ v then 0xFF00 else 0x8000

/-- The scan-line `y = 0` of `imageRamp` for `texRectSmall` in RGB mode, exposure 1 and offset
0, with the transform `lutC`. -/
def scanLineC : ScanLine8 :=
  { inputImage := imageRamp, y := 0, texRect := texRectSmall, closestPowerOf2 := 2
    rOffset := 0, gOffset := 1, bOffset := 2, luminance := false, exposure := 1, offset := 0
    colorSpace := some lutC, floatToInt256 := fun _ => 0 }

/-- A destination with two inputs, none connected, whose `canConnectInput` refuses. -/
def connectEnvRefuse : ConnectEnv :=
  { isViewer := false, maxInputCount := 2, getInput := fun _ => none
    canConnectInput := CanConnectInputReturnValue.refused 1, inputsConnectedToOldSrc := [] }

/-- A RoD of a single pixel. -/
def rodTiny : RectI := { x1 := 0, y1 := 0, x2 := 1, y2 := 1 }

/-- What the scheduling step leaves behind for `rodTiny` wholly visible at zoom 0.5 with
tiles of 16 pixels. -/
def schedTiny : Scheduled :=
  { texRect := { x1 := 0, y1 := 0, x2 := 16, y2 := 16 }
    texRectClipped := { x1 := 0, y1 := 0, x2 := 1, y2 := 1 }
    textureRect := { x1 := 0, y1 := 0, x2 := 1, y2 := 1, w := 1, h := 1, closestPo2 := 2 } }

/-- The pass of `envA` whose upstream render raises. -/
def envRaise : Env := { envA with renderRoI := RenderResult.raised }

/-- A terminal cache entry of `imageA` whose RoD `rodA` was the project format when it was
cached. -/
def entryProjectFormat : CachedImage :=
  { params := { rod := rodA, isRodProjectFormat := true
                inputNbIdentity := -1, inputTimeIdentity := 0 }
    image := imageA }

/-- The pass of `envA` with node 0 cached at time 5 as `entryProjectFormat`, the project format
being `rodB` by now. -/
def envStale : Env :=
  { envA with
    imageCache := fun k =>
      if k = { hash := 10, time := 5, view := 0 } then some entryProjectFormat else none
    dispW := rodB }

/-- The locals of the identity walk of `envStale` at time 5 when it ends. -/
def resolveStale : Resolve :=
  { inputImageKey := { hash := 10, time := 5, view := 0 }, isInputImgCached := true
    cached := some entryProjectFormat, inputIdentityNumber := -1, inputIdentityTime := 0
    lookups := [{ hash := 10, time := 5, view := 0 }] }

/-- A visible strip along the top of `rodA`, over its whole width. -/
def roiStrip : RectI := { x1 := 0, y1 := 90, x2 := 100, y2 := 100 }

/-- What the scheduling step leaves behind for `roiStrip` visible of `rodA` at zoom 1 with
tiles of 16 pixels. -/
def schedStrip : Scheduled :=
  { texRect := { x1 := 0, y1 := 80, x2 := 112, y2 := 112 }
    texRectClipped := { x1 := 0, y1 := 80, x2 := 100, y2 := 100 }
    textureRect := { x1 := 0, y1 := 80, x2 := 100, y2 := 100, w := 100, h := 32, closestPo2 := 1 } }

/-- A RoD of 32768 x 32768 pixels. -/
def rodHuge : RectI := { x1 := 0, y1 := 0, x2 := 32768, y2 := 32768 }

/-- What the scheduling step leaves behind for `rodHuge` wholly visible at zoom 1 with tiles of
16 pixels. -/
def schedHuge : Scheduled :=
  { texRect := { x1 := 0, y1 := 0, x2 := 32768, y2 := 32768 }
    texRectClipped := { x1 := 0, y1 := 0, x2 := 32768, y2 := 32768 }
    textureRect :=
      { x1 := 0, y1 := 0, x2 := 32768, y2 := 32768, w := 32768, h := 32768, closestPo2 := 1 } }

/-- The pass of `envA` over an image of `rodHuge`, with the user region of interest enabled
(the output buffer is then a `malloc`) and a float bit depth. -/
def envHuge : Env :=
  { envA with regionOfDefinition := some (rodHuge, false), userRoIEnabled := true
              bitDepth := BitDepth.FLOAT }

/-! # Properties -/

/-! ## Numeric helpers -/

theorem cTrunc_intCast (m : ℤ) : cTrunc (m : ℚ) = m := by
  unfold cTrunc
  split <;> simp

theorem cTrunc_one : cTrunc 1 = 1 := by
  simpa using cTrunc_intCast 1

/-! ## The zoom factor -/

theorem clog_two_fifth : Int.clog 2 ((1 : ℚ) / 5) = -2 := by
  rw [Int.clog_of_right_le_one 2 (by norm_num)]
  norm_num
  simp [Nat.log]

theorem closestPowerOf2_fifth : closestPowerOf2 (1 / 5) = 4 := by
  unfold closestPowerOf2
  rw [if_neg (by norm_num), clog_two_fifth]
  norm_num

theorem closestPowerOf2_one : closestPowerOf2 1 = 1 := by
  simp [closestPowerOf2]

theorem clog_nonpos_of_lt_one {z : ℚ} (h0 : 0 < z) (h1 : z < 1) : Int.clog 2 z ≤ 0 :=
  (Int.le_zpow_iff_clog_le (R := ℚ) (b := 2) (by norm_num) (x := 0) h0).1 (by simpa using h1.le)

theorem closestPowerOf2_of_lt_one {z : ℚ} (h1 : z < 1) :
    closestPowerOf2 z = (2 : ℚ) ^ (-(Int.clog 2 z)) := by
  unfold closestPowerOf2
  rw [if_neg (by simpa using h1)]

theorem closestPowerOf2_eq_pow (z : ℚ) (hz : 0 < z) : ∃ k : ℕ, closestPowerOf2 z = 2 ^ k := by
  by_cases h1 : z < 1
  · rw [closestPowerOf2_of_lt_one h1]
    have hc := clog_nonpos_of_lt_one hz h1
    refine ⟨(-(Int.clog 2 z)).toNat, ?_⟩
    rw [← zpow_natCast, Int.toNat_of_nonneg (by omega)]
  · refine ⟨0, ?_⟩
    unfold closestPowerOf2
    rw [if_pos (by simpa using h1)]
    simp

/-- The model of `std::ceil(std::log(z) / std::log(2.))` agrees with the ceiling of the real
base-2 logarithm. -/
theorem clog_eq_ceil_logb (z : ℚ) (hz : 0 < z) :
    Int.clog 2 z = ⌈Real.logb 2 (z : ℝ)⌉ := by
  have h := Real.ceil_logb_natCast (b := 2) (r := (z : ℝ)) (by exact_mod_cast hz.le)
  rw [Nat.cast_ofNat] at h
  rw [h]
  by_cases h1 : 1 ≤ z
  · rw [Int.clog_of_one_le_right 2 h1, Int.clog_of_one_le_right 2 (by exact_mod_cast h1)]
    rw [← Int.ceil_toNat, ← Int.ceil_toNat, Rat.ceil_cast]
  · have h2 : z ≤ 1 := (not_le.1 h1).le
    rw [Int.clog_of_right_le_one 2 h2, Int.clog_of_right_le_one 2 (by exact_mod_cast h2)]
    rw [← Int.floor_toNat, ← Int.floor_toNat, ← Rat.cast_inv, Rat.floor_cast]

/-- C1, counterexample: at zoom 0.2 the code computes 4, which is below `1 / 0.2 = 5`; it is
neither 8 nor a power of two that is at least `1 / z`. -/
theorem closestPowerOf2_fifth_not_ge_inv :
    closestPowerOf2 (1 / 5) = 4 ∧ closestPowerOf2 (1 / 5) ≠ 8 ∧
      ¬ (1 / (1 / 5 : ℚ) ≤ closestPowerOf2 (1 / 5)) := by
  rw [closestPowerOf2_fifth]
  norm_num

/-- In exact arithmetic, for `0 < z < 1`, the value `2 ^ (-ceil(log2 z))` is a power of two,
is at most `1 / z`, exceeds `1 / (2 z)`, and is the largest power of two that is at most
`1 / z`; zoom 0.2 gives 4. -/
theorem closestPowerOf2_largest_pow_le_inv (z : ℚ) (h0 : 0 < z) (h1 : z < 1) :
    (∃ k : ℕ, closestPowerOf2 z = 2 ^ k) ∧ closestPowerOf2 z ≤ 1 / z ∧
      1 / z < 2 * closestPowerOf2 z ∧
      (∀ j : ℕ, (2 : ℚ) ^ j ≤ 1 / z → (2 : ℚ) ^ j ≤ closestPowerOf2 z) ∧
      closestPowerOf2 (1 / 5) = 4 := by
  have hc := clog_nonpos_of_lt_one h0 h1
  refine ⟨closestPowerOf2_eq_pow z h0, ?_⟩
  rw [closestPowerOf2_of_lt_one h1]
  have hle : z ≤ (2 : ℚ) ^ (Int.clog 2 z) := by
    simpa using Int.self_le_zpow_clog (b := 2) (by norm_num) z
  have hlt : (2 : ℚ) ^ (Int.clog 2 z - 1) < z := by
    simpa using Int.zpow_pred_clog_lt_self (b := 2) (by norm_num) h0
  have h2 : (0 : ℚ) < 2 := by norm_num
  refine ⟨?_, ?_, ?_, closestPowerOf2_fifth⟩
  · rw [zpow_neg, one_div]
    exact inv_anti₀ h0 hle
  · rw [one_div]
    have : (2 : ℚ) * 2 ^ (-(Int.clog 2 z)) = ((2 : ℚ) ^ (Int.clog 2 z - 1))⁻¹ := by
      rw [← zpow_neg, neg_sub, sub_eq_add_neg, zpow_add₀ (by norm_num), zpow_one]
    rw [this]
    exact inv_strictAnti₀ (zpow_pos h2 _) hlt
  · intro j hj
    have hz : z ≤ (2 : ℚ) ^ (-(j : ℤ)) := by
      rw [zpow_neg, zpow_natCast]
      rw [le_div_iff₀ h0] at hj
      rw [le_inv_comm₀ h0 (pow_pos h2 _)]
      rw [inv_eq_one_div, le_div_iff₀ h0]
      exact hj
    have hz2 : z ≤ ((2 : ℕ) : ℚ) ^ (-(j : ℤ)) := by exact_mod_cast hz
    have := (Int.le_zpow_iff_clog_le (b := 2) (by norm_num) h0).1 hz2
    rw [← zpow_natCast]
    exact zpow_le_zpow_right₀ (by norm_num) (by omega)

theorem ceil_eq_clog_of_exact (z q : ℚ) (h0 : 0 < z)
    (hlo : ∀ k : ℤ, z ≤ 2 ^ k → q ≤ k) (hhi : ∀ k : ℤ, q ≤ k → z ≤ 2 ^ k) :
    ⌈q⌉ = Int.clog 2 z := by
  have hc : ∀ k : ℤ, z ≤ (2 : ℚ) ^ k ↔ Int.clog 2 z ≤ k := by
    intro k
    have := Int.le_zpow_iff_clog_le (R := ℚ) (b := 2) (by norm_num) (x := k) h0
    simpa using this
  apply le_antisymm
  · exact Int.ceil_le.2 (hlo _ ((hc _).2 le_rfl))
  · exact (hc _).1 (hhi _ (Int.le_ceil q))

/-- C1, amended: for `0 < z < 1` the value computed at line 388 is `2 ^ (-ceil q)`, `q`
being the double `log(z) / log(2)`. If `q` lies on the same side of every integer `k` as
`log2 z` does, except possibly when `z` is within the relative error `eps` of `2 ^ k`, then the
value is at most `(1 + eps) / z`, exceeds `1 / (2 (1 + eps) z)`, and is at least every power
of two `2 ^ j` with `2 ^ j * (1 + eps) ≤ 1 / z`: up to the rounding of the logarithm it is the
largest power of two that is at most `1 / z`. With `eps = 0` it is the value of
`closestPowerOf2`, and zoom 0.2 gives 4 for every `eps ≤ 1/4`. -/
theorem closestPowerOf2_largest_pow_up_to_rounding (z q eps : ℚ) (h0 : 0 < z) (h1 : z < 1)
    (he : 0 ≤ eps) (hlo : ∀ k : ℤ, z * (1 + eps) ≤ 2 ^ k → q ≤ k)
    (hhi : ∀ k : ℤ, q ≤ k → z ≤ 2 ^ k * (1 + eps)) :
    closestPowerOf2Double z q = 2 ^ (-⌈q⌉) ∧
      closestPowerOf2Double z q ≤ (1 + eps) / z ∧
      1 / z < 2 * (1 + eps) * closestPowerOf2Double z q ∧
      (∀ j : ℤ, (2 : ℚ) ^ j * (1 + eps) ≤ 1 / z → (2 : ℚ) ^ j ≤ closestPowerOf2Double z q) ∧
      (eps = 0 → closestPowerOf2Double z q = closestPowerOf2 z) ∧
      (z = 1 / 5 → eps ≤ 1 / 4 → closestPowerOf2Double z q = 4) := by
  have hdef : closestPowerOf2Double z q = 2 ^ (-⌈q⌉) := by
    unfold closestPowerOf2Double
    rw [if_neg (by simpa using h1)]
  have h2 : (0 : ℚ) < 2 := by norm_num
  have he1 : (0 : ℚ) < 1 + eps := by linarith
  have hpos : ∀ k : ℤ, (0 : ℚ) < 2 ^ k := fun k => zpow_pos h2 k
  refine ⟨hdef, ?_, ?_, ?_, ?_, ?_⟩
  · rw [hdef, zpow_neg, le_div_iff₀ h0]
    have h := hhi ⌈q⌉ (Int.le_ceil q)
    rw [inv_mul_le_iff₀ (hpos _)]
    linarith
  · rw [hdef, div_lt_iff₀ h0]
    have hnot : ¬ q ≤ ((⌈q⌉ - 1 : ℤ) : ℚ) := by
      rw [not_le]
      have := Int.ceil_lt_add_one q
      push_cast
      linarith
    have h := mt (hlo (⌈q⌉ - 1)) hnot
    rw [not_le, zpow_sub₀ (by norm_num), zpow_one] at h
    rw [zpow_neg]
    have hq := hpos ⌈q⌉
    rw [div_lt_iff₀ h2] at h
    have : (2 : ℚ) ^ ⌈q⌉ * ((2 : ℚ) ^ ⌈q⌉)⁻¹ = 1 := mul_inv_cancel₀ hq.ne'
    have hinv : (0 : ℚ) < ((2 : ℚ) ^ ⌈q⌉)⁻¹ := inv_pos.2 hq
    nlinarith
  · intro j hj
    rw [hdef]
    apply zpow_le_zpow_right₀ (by norm_num)
    have hz : z * (1 + eps) ≤ (2 : ℚ) ^ (-j) := by
      rw [le_div_iff₀ h0] at hj
      rw [zpow_neg, le_inv_comm₀ (by positivity) (hpos j)]
      rw [inv_eq_one_div, le_div_iff₀ (by positivity)]
      linarith
    have := Int.ceil_le.2 (hlo (-j) hz)
    omega
  · intro h
    subst h
    rw [hdef, closestPowerOf2_of_lt_one h1,
      ceil_eq_clog_of_exact z q h0 (fun k hk => hlo k (by simpa using hk))
        (fun k hk => by simpa using hhi k hk)]
  · intro hz hle
    subst hz
    have hc : ⌈q⌉ = -2 := by
      rw [Int.ceil_eq_iff]
      constructor
      · have h := mt (hhi (-3))
        rw [not_le, not_le] at h
        have := h (by norm_num; linarith)
        push_cast at this ⊢
        linarith
      · have := hlo (-2) (by norm_num; linarith)
        push_cast at this ⊢
        linarith
    rw [hdef, hc]
    norm_num

theorem rounding_hypotheses_fifth :
    (∀ k : ℤ, (1 / 5 : ℚ) * (1 + 0) ≤ 2 ^ k → (-58 / 25 : ℚ) ≤ k) ∧
      ∀ k : ℤ, (-58 / 25 : ℚ) ≤ k → (1 / 5 : ℚ) ≤ 2 ^ k * (1 + 0) := by
  constructor
  · intro k hk
    by_contra hlt
    rw [not_le] at hlt
    have hk3 : k ≤ -3 := by
      have : (k : ℚ) < -2 := by linarith
      have : k < -2 := by exact_mod_cast this
      omega
    have := zpow_le_zpow_right₀ (show (1 : ℚ) ≤ 2 by norm_num) hk3
    norm_num at this hk
    linarith
  · intro k hk
    have hk2 : -2 ≤ k := by
      have : (-3 : ℚ) < k := by linarith
      have : -3 < k := by exact_mod_cast this
      omega
    have := zpow_le_zpow_right₀ (show (1 : ℚ) ≤ 2 by norm_num) hk2
    norm_num at this ⊢
    linarith

theorem rounding_hypotheses_above_eighth :
    (∀ k : ℤ, (1 / 8 * (1 + 1 / 2 ^ 52) : ℚ) * (1 + 1 / 2 ^ 52) ≤ 2 ^ k → (-3 : ℚ) ≤ k) ∧
      ∀ k : ℤ, (-3 : ℚ) ≤ k → (1 / 8 * (1 + 1 / 2 ^ 52) : ℚ) ≤ 2 ^ k * (1 + 1 / 2 ^ 52) := by
  constructor
  · intro k hk
    by_contra hlt
    rw [not_le] at hlt
    have hk4 : k ≤ -4 := by
      have : k < -3 := by exact_mod_cast hlt
      omega
    have := zpow_le_zpow_right₀ (show (1 : ℚ) ≤ 2 by norm_num) hk4
    norm_num at this hk
    linarith
  · intro k hk
    have hk3 : -3 ≤ k := by exact_mod_cast hk
    have := zpow_le_zpow_right₀ (show (1 : ℚ) ≤ 2 by norm_num) hk3
    norm_num at this ⊢
    nlinarith

/-- C1, witness: zoom 0.2, whose quotient `log(0.2) / log(2)` is about -2.32, taken as
`-58/25` with no rounding allowance, gives 4; and the zoom `0.125 (1 + 2 ^ (-52))`, just
above a power of two, whose quotient is computed as `-3`, gives 8 within the allowance
`eps = 2 ^ (-52)`. -/
theorem closestPowerOf2_largest_pow_up_to_rounding_witness :
    (closestPowerOf2Double (1 / 5) (-58 / 25) = 4 ∧
        closestPowerOf2Double (1 / 5) (-58 / 25) = closestPowerOf2 (1 / 5)) ∧
      closestPowerOf2Double (1 / 8 * (1 + 1 / 2 ^ 52)) (-3) = 2 ^ (-⌈(-3 : ℚ)⌉) ∧
      closestPowerOf2Double (1 / 8 * (1 + 1 / 2 ^ 52)) (-3) ≤
        (1 + 1 / 2 ^ 52) / (1 / 8 * (1 + 1 / 2 ^ 52)) := by
  have h := closestPowerOf2_largest_pow_up_to_rounding (1 / 5) (-58 / 25) 0 (by norm_num)
    (by norm_num) le_rfl rounding_hypotheses_fifth.1 rounding_hypotheses_fifth.2
  have h8 := closestPowerOf2_largest_pow_up_to_rounding (1 / 8 * (1 + 1 / 2 ^ 52)) (-3)
    (1 / 2 ^ 52) (by norm_num) (by norm_num) (by norm_num)
    rounding_hypotheses_above_eighth.1 rounding_hypotheses_above_eighth.2
  exact ⟨⟨h.2.2.2.2.2 rfl (by norm_num), h.2.2.2.2.1 rfl⟩, h8.1, h8.2.1⟩

/-! ## Luminance in the float path -/

/-- C2: in LUMINANCE mode `renderFunctor` leaves the three offsets at 0, so the float path
applies the three weights to the red component: the source pixel `(0.5, 0.2, 0.1, 1.0)` yields
0.5 in R, G and B, whereas the weighted sum of its red, green and blue is 0.2783. -/
theorem luminance_texel32_reads_red_only :
    channelOffsets DisplayChannels.LUMINANCE =
        { rOffset := 0, gOffset := 0, bOffset := 0, luminance := true } ∧
      renderFunctorTexel32 DisplayChannels.LUMINANCE pixelC =
        { r := 1 / 2, g := 1 / 2, b := 1 / 2, a := 1 } ∧
      (299 / 1000 * pixelC.r + 587 / 1000 * pixelC.g + 114 / 1000 * pixelC.b : ℚ)
        = 2783 / 10000 ∧
      (renderFunctorTexel32 DisplayChannels.LUMINANCE pixelC).r ≠
        299 / 1000 * pixelC.r + 587 / 1000 * pixelC.g + 114 / 1000 * pixelC.b := by
  refine ⟨rfl, ?_, ?_, ?_⟩
  · simp only [renderFunctorTexel32, channelOffsets, texel32, Pixel.comp, pixelC]
    norm_num
  · simp only [pixelC]
    norm_num
  · simp only [renderFunctorTexel32, channelOffsets, texel32, Pixel.comp, pixelC]
    norm_num

/-! ## Tile scheduling -/

theorem computeTexRect_pow (roi : RectI) (k n : ℕ) :
    computeTexRect roi ((2 : ℚ) ^ k) (tileSize n) =
      { x1 := ⌊((roi.x1 : ℚ) / 2 ^ k) / 2 ^ n⌋ * 2 ^ n
        y1 := ⌊((roi.y1 : ℚ) / 2 ^ k) / 2 ^ n⌋ * 2 ^ n
        x2 := ⌈((roi.x2 : ℚ) / 2 ^ k) / 2 ^ n⌉ * 2 ^ n
        y2 := ⌈((roi.y2 : ℚ) / 2 ^ k) / 2 ^ n⌉ * 2 ^ n } := by
  have h : ∀ m : ℤ, cTrunc ((m : ℚ) * 2 ^ n) = m * 2 ^ n := by
    intro m
    have : ((m : ℚ) * 2 ^ n) = ((m * 2 ^ n : ℤ) : ℚ) := by push_cast; ring
    rw [this, cTrunc_intCast]
  simp only [computeTexRect, tileSize, h]

theorem rescaleTexRect_pow (t : RectI) (k : ℕ) :
    rescaleTexRect t ((2 : ℚ) ^ k) =
      { x1 := t.x1 * 2 ^ k, y1 := t.y1 * 2 ^ k, x2 := t.x2 * 2 ^ k, y2 := t.y2 * 2 ^ k } := by
  have h : ∀ m : ℤ, cTrunc ((m : ℚ) * 2 ^ k) = m * 2 ^ k := by
    intro m
    have : ((m : ℚ) * 2 ^ k) = ((m * 2 ^ k : ℤ) : ℚ) := by push_cast; ring
    rw [this, cTrunc_intCast]
  simp only [rescaleTexRect, h]

theorem rescaleTexRect_one (t : RectI) : rescaleTexRect t 1 = t := by
  have := rescaleTexRect_pow t 0
  simpa using this

theorem floor_le_ceil_scaled (a b : ℤ) (k n : ℕ) (h : a ≤ b) :
    ⌊((a : ℚ) / 2 ^ k) / 2 ^ n⌋ * (2 : ℤ) ^ n ≤ ⌈((b : ℚ) / 2 ^ k) / 2 ^ n⌉ * 2 ^ n := by
  have hk : (0 : ℚ) < 2 ^ k := by positivity
  have hn : (0 : ℚ) < 2 ^ n := by positivity
  have hab : ((a : ℚ) / 2 ^ k) / 2 ^ n ≤ ((b : ℚ) / 2 ^ k) / 2 ^ n := by
    have : (a : ℚ) ≤ b := by exact_mod_cast h
    gcongr
  have : ⌊((a : ℚ) / 2 ^ k) / 2 ^ n⌋ ≤ ⌈((b : ℚ) / 2 ^ k) / 2 ^ n⌉ :=
    (Int.floor_le_floor hab).trans (Int.floor_le_ceil _)
  exact Int.mul_le_mul_of_nonneg_right this (by positivity)

/-- One axis of the dimension bound: `t` is the tile extent, `r` the RoD extent, `c` the
clipped extent and `pk` the downsampling factor. -/
theorem clip_axis_bound (t1 t2 r1 r2 c1 c2 pk : ℤ) (hpk : 1 ≤ pk) (ht : t1 ≤ t2)
    (hc : (c1 = t1 * pk ∧ c2 = t2 * pk) ∨ (c1 = max (t1 * pk) r1 ∧ c2 = min (t2 * pk) r2))
    (hn : (r1 ≤ t1 * pk ∧ t2 * pk ≤ r2) ∨ (t1 * pk ≤ r1 ∧ r2 ≤ t2 * pk)) :
    (if t2 - t1 > r2 - r1 then r2 - r1 else t2 - t1) ≤ c2 - c1 := by
  have hw : t2 - t1 ≤ t2 * pk - t1 * pk := by nlinarith
  generalize t1 * pk = s1 at *
  generalize t2 * pk = s2 at *
  split <;> rcases hc with ⟨h1, h2⟩ | ⟨h1, h2⟩ <;> rcases hn with ⟨h3, h4⟩ | ⟨h3, h4⟩ <;>
    subst h1 h2 <;> omega

theorem intersect_self_cases (a r : RectI) :
    a.intersect r a = a ∨
      a.intersect r a =
        { x1 := max a.x1 r.x1, y1 := max a.y1 r.y1
          x2 := min a.x2 r.x2, y2 := min a.y2 r.y2 } := by
  unfold RectI.intersect
  split_ifs <;> simp

theorem scheduleTexture_rodA_full :
    scheduleTexture rodA rodA (closestPowerOf2 1) (tileSize 4) = some schedA := by
  have hf : ⌊(0 : ℚ) / 1 / 2 ^ 4⌋ = 0 := by rw [Int.floor_eq_iff]; norm_num
  have hc : ⌈(100 : ℚ) / 1 / 2 ^ 4⌉ = 7 := by rw [Int.ceil_eq_iff]; norm_num
  have h : computeTexRect rodA 1 (tileSize 4) = { x1 := 0, y1 := 0, x2 := 112, y2 := 112 } := by
    have := computeTexRect_pow rodA 0 4
    simp only [pow_zero] at this
    rw [this]
    simp only [rodA, Int.cast_ofNat, Int.cast_zero, hf, hc]
    rfl
  rw [closestPowerOf2_one]
  simp only [scheduleTexture, h, rescaleTexRect_one, cTrunc_one]
  decide

theorem scheduleTexture_rodA_corner :
    scheduleTexture rodA roiCorner (closestPowerOf2 1) (tileSize 4) = some schedCorner := by
  have hf : ⌊(90 : ℚ) / 1 / 2 ^ 4⌋ = 5 := by rw [Int.floor_eq_iff]; norm_num
  have hc : ⌈(100 : ℚ) / 1 / 2 ^ 4⌉ = 7 := by rw [Int.ceil_eq_iff]; norm_num
  have h : computeTexRect roiCorner 1 (tileSize 4) =
      { x1 := 80, y1 := 80, x2 := 112, y2 := 112 } := by
    have := computeTexRect_pow roiCorner 0 4
    simp only [pow_zero] at this
    rw [this]
    simp only [roiCorner, Int.cast_ofNat, hf, hc]
    rfl
  rw [closestPowerOf2_one]
  simp only [scheduleTexture, h, rescaleTexRect_one, cTrunc_one]
  decide

/-- C7, counterexample: with the RoD `(0,0,100,100)`, the visible rectangle
`(90,90,100,100)`, zoom 1 and tiles of 16 pixels, `renderViewer` builds the TextureRect
`(80,80,100,100)` with output 32 x 32, wider and taller than its own rectangle. -/
theorem textureRect_corner_exceeds_rect :
    ∃ s, scheduleTexture rodA roiCorner (closestPowerOf2 1) (tileSize 4) = some s ∧
      s.textureRect =
        { x1 := 80, y1 := 80, x2 := 100, y2 := 100, w := 32, h := 32, closestPo2 := 1 } ∧
      ¬ (s.textureRect.w ≤ s.textureRect.x2 - s.textureRect.x1) ∧
      ¬ (s.textureRect.h ≤ s.textureRect.y2 - s.textureRect.y1) :=
  ⟨_, scheduleTexture_rodA_corner, rfl, by decide, by decide⟩

theorem scheduleTexture_rodA_strip :
    scheduleTexture rodA roiStrip (closestPowerOf2 1) (tileSize 4) = some schedStrip := by
  have hf0 : ⌊(0 : ℚ) / 1 / 2 ^ 4⌋ = 0 := by rw [Int.floor_eq_iff]; norm_num
  have hf : ⌊(90 : ℚ) / 1 / 2 ^ 4⌋ = 5 := by rw [Int.floor_eq_iff]; norm_num
  have hc : ⌈(100 : ℚ) / 1 / 2 ^ 4⌉ = 7 := by rw [Int.ceil_eq_iff]; norm_num
  have h : computeTexRect roiStrip 1 (tileSize 4) =
      { x1 := 0, y1 := 80, x2 := 112, y2 := 112 } := by
    have := computeTexRect_pow roiStrip 0 4
    simp only [pow_zero] at this
    rw [this]
    simp only [roiStrip, Int.cast_ofNat, Int.cast_zero, hf0, hf, hc]
    rfl
  rw [closestPowerOf2_one]
  simp only [scheduleTexture, h, rescaleTexRect_one, cTrunc_one]
  decide

/-- C7, amended: for a positive zoom, axis by axis: the TextureRect built by `renderViewer`
satisfies `outputWidth ≤ x2 - x1` when the visible rectangle is well formed horizontally and,
horizontally, the rescaled tile rectangle lies inside the RoD or contains it; and
`outputHeight ≤ y2 - y1` under the same two conditions vertically. Neither bound needs the
other axis. -/
theorem textureRect_dims_le_of_nested (rod roi : RectI) (z : ℚ) (n : ℕ) (s : Scheduled)
    (hz : 0 < z)
    (hs : scheduleTexture rod roi (closestPowerOf2 z) (tileSize n) = some s) :
    (roi.x1 ≤ roi.x2 →
        ((rod.x1 ≤ (rescaleTexRect s.texRect (closestPowerOf2 z)).x1 ∧
            (rescaleTexRect s.texRect (closestPowerOf2 z)).x2 ≤ rod.x2) ∨
          ((rescaleTexRect s.texRect (closestPowerOf2 z)).x1 ≤ rod.x1 ∧
            rod.x2 ≤ (rescaleTexRect s.texRect (closestPowerOf2 z)).x2)) →
        s.textureRect.w ≤ s.textureRect.x2 - s.textureRect.x1) ∧
      (roi.y1 ≤ roi.y2 →
        ((rod.y1 ≤ (rescaleTexRect s.texRect (closestPowerOf2 z)).y1 ∧
            (rescaleTexRect s.texRect (closestPowerOf2 z)).y2 ≤ rod.y2) ∨
          ((rescaleTexRect s.texRect (closestPowerOf2 z)).y1 ≤ rod.y1 ∧
            rod.y2 ≤ (rescaleTexRect s.texRect (closestPowerOf2 z)).y2)) →
        s.textureRect.h ≤ s.textureRect.y2 - s.textureRect.y1) := by
  obtain ⟨k, hk⟩ := closestPowerOf2_eq_pow z hz
  rw [hk] at hs ⊢
  unfold scheduleTexture at hs
  simp only at hs
  split at hs
  · cases hs
  · simp only [Option.some.injEq] at hs
    subst hs
    simp only [rescaleTexRect_pow]
    have hpk : (1 : ℤ) ≤ 2 ^ k := one_le_pow₀ (by norm_num)
    have htx : roi.x1 ≤ roi.x2 → (computeTexRect roi (2 ^ k) (tileSize n)).x1 ≤
        (computeTexRect roi (2 ^ k) (tileSize n)).x2 := by
      intro hx
      rw [computeTexRect_pow]; exact floor_le_ceil_scaled _ _ k n hx
    have hty : roi.y1 ≤ roi.y2 → (computeTexRect roi (2 ^ k) (tileSize n)).y1 ≤
        (computeTexRect roi (2 ^ k) (tileSize n)).y2 := by
      intro hy
      rw [computeTexRect_pow]; exact floor_le_ceil_scaled _ _ k n hy
    generalize computeTexRect roi (2 ^ k) (tileSize n) = t at *
    simp only [RectI.width, RectI.height]
    rcases intersect_self_cases
      { x1 := t.x1 * 2 ^ k, y1 := t.y1 * 2 ^ k, x2 := t.x2 * 2 ^ k, y2 := t.y2 * 2 ^ k } rod
      with h | h <;> rw [h] <;> constructor
    · intro hx hnx
      exact clip_axis_bound _ _ rod.x1 rod.x2 _ _ _ hpk (htx hx) (Or.inl ⟨rfl, rfl⟩) hnx
    · intro hy hny
      exact clip_axis_bound _ _ rod.y1 rod.y2 _ _ _ hpk (hty hy) (Or.inl ⟨rfl, rfl⟩) hny
    · intro hx hnx
      exact clip_axis_bound _ _ rod.x1 rod.x2 _ _ _ hpk (htx hx) (Or.inr ⟨rfl, rfl⟩) hnx
    · intro hy hny
      exact clip_axis_bound _ _ rod.y1 rod.y2 _ _ _ hpk (hty hy) (Or.inr ⟨rfl, rfl⟩) hny

/-- C7, witness: the RoD `(0,0,100,100)` with the strip `(0,90,100,100)` visible at zoom 1 and
tiles of 16: horizontally the rescaled tile rectangle `[0,112)` contains the RoD, and the
width bound `100 ≤ 100` holds, although vertically the tile rectangle `[80,112)` only partly
overlaps the RoD (and `outputHeight = 32` exceeds `y2 - y1 = 20`). -/
theorem textureRect_dims_le_of_nested_witness :
    scheduleTexture rodA roiStrip (closestPowerOf2 1) (tileSize 4) = some schedStrip ∧
      schedStrip.textureRect.w ≤ schedStrip.textureRect.x2 - schedStrip.textureRect.x1 ∧
      ¬ (schedStrip.textureRect.h ≤ schedStrip.textureRect.y2 - schedStrip.textureRect.y1) :=
  ⟨scheduleTexture_rodA_strip,
    (textureRect_dims_le_of_nested rodA roiStrip 1 4 schedStrip (by norm_num)
      scheduleTexture_rodA_strip).1 (by decide)
      (by
        rw [closestPowerOf2_one, rescaleTexRect_one]
        right
        decide),
    by decide⟩

/-! ## Row bands -/

theorem ceilDiv_eq (a b : ℤ) : ceilDiv a b = ⌈(a : ℚ) / (b : ℚ)⌉ := by
  unfold ceilDiv
  exact cTrunc_intCast _

theorem closestPowerOf2_half : closestPowerOf2 (1 / 2) = 2 := by
  have h : Int.clog 2 ((1 : ℚ) / 2) = -1 := by
    rw [Int.clog_of_right_le_one 2 (by norm_num)]
    norm_num
    simp [Nat.log]
  unfold closestPowerOf2
  rw [if_neg (by norm_num), h]
  norm_num

theorem scheduleTexture_rodB_half :
    scheduleTexture rodB rodB (closestPowerOf2 (1 / 2)) (tileSize 4) = some schedB := by
  have hf : ⌊(0 : ℚ) / 2 ^ 1 / 2 ^ 4⌋ = 0 := by rw [Int.floor_eq_iff]; norm_num
  have hc : ⌈(12 : ℚ) / 2 ^ 1 / 2 ^ 4⌉ = 1 := by rw [Int.ceil_eq_iff]; norm_num
  have hc2 : ⌈(6 : ℚ) / 2 ^ 1 / 2 ^ 4⌉ = 1 := by rw [Int.ceil_eq_iff]; norm_num
  have h2 : (2 : ℚ) = 2 ^ 1 := by norm_num
  have h : computeTexRect rodB (2 ^ 1) (tileSize 4) =
      { x1 := 0, y1 := 0, x2 := 16, y2 := 16 } := by
    rw [computeTexRect_pow]
    simp only [rodB, Int.cast_ofNat, Int.cast_zero, hf, hc, hc2]
    rfl
  have hr : rescaleTexRect { x1 := 0, y1 := 0, x2 := 16, y2 := 16 } (2 ^ 1) =
      { x1 := 0, y1 := 0, x2 := 32, y2 := 32 } := by
    rw [rescaleTexRect_pow]
    rfl
  have ht : cTrunc (2 ^ 1) = 2 := by
    simpa using cTrunc_intCast 2
  rw [closestPowerOf2_half, h2]
  simp only [scheduleTexture, h, hr, ht]
  decide

theorem splitRows_rodB :
    splitRows schedB.texRectClipped 4 2 = some [(0, 3), (3, 6)] := by
  have h : ceilDiv (12 - 0) 4 = 3 := by
    rw [ceilDiv_eq, Int.ceil_eq_iff]; norm_num
  simp only [splitRows, schedB, h]
  decide

/-- C8: for the RoD `(0,0,12,6)` wholly visible at zoom 0.5 (closestPowerOfTwo 2, tiles of 16)
and 4 worker threads, the band split yields `[0,3)` and `[3,6)`; the first band writes
destination rows 0 and 1, the second rows 1 and 2, so both write row 1. -/
theorem row_bands_share_destination_row :
    scheduleTexture rodB rodB (closestPowerOf2 (1 / 2)) (tileSize 4) = some schedB ∧
      splitRows schedB.texRectClipped 4 2 = some [(0, 3), (3, 6)] ∧
      destRows (0, 3) schedB.textureRect 2 2 = some [0, 1] ∧
      destRows (3, 6) schedB.textureRect 2 2 = some [1, 2] ∧
      (1 : ℤ) ∈ [(0 : ℤ), 1] ∧ (1 : ℤ) ∈ [(1 : ℤ), 2] :=
  ⟨scheduleTexture_rodB_half, splitRows_rodB, by decide, by decide, by decide, by decide⟩

/-- C9: for the clipped rectangle `(0,0,4,12)` and 2 worker threads the band split yields six
bands of `ceil(4 / 2) = 2` rows, the width divided by the thread count, where
`ceil(height / workerCount) = ceil(12 / 2) = 6`. -/
theorem row_bands_sized_by_width :
    splitRows rectTall 2 6 = some [(0, 2), (2, 4), (4, 6), (6, 8), (8, 10), (10, 12)] ∧
      ceilDiv (rectTall.x2 - rectTall.x1) 2 = 2 ∧
      ceilDiv (rectTall.y2 - rectTall.y1) 2 = 6 := by
  have h : ceilDiv (4 - 0) 2 = 2 := by
    rw [ceilDiv_eq, Int.ceil_eq_iff]; norm_num
  have h6 : ceilDiv (12 - 0) 2 = 6 := by
    rw [ceilDiv_eq, Int.ceil_eq_iff]; norm_num
  refine ⟨?_, h, h6⟩
  simp only [splitRows, rectTall, h]
  decide

/-! ## Identity-chain resolution -/

theorem resolveLoop_of_cond_false (g : Graph) (cache : ImageCache) (active : ℕ) (view : ℤ)
    (forceRender : Bool) (fuel : ℕ) (s : Resolve) (h : resolveCond forceRender s = false) :
    resolveLoop g cache active view forceRender fuel s = some s := by
  cases fuel <;> simp [resolveLoop, h]

theorem resolveLoop_cycle_diverges (fuel : ℕ) (s : Resolve) (h1 : s.isInputImgCached = true)
    (h2 : s.inputIdentityNumber = 0) (h3 : s.inputIdentityTime = 5) :
    resolveLoop graphCycle cacheCycle 0 0 false fuel s = none := by
  induction fuel generalizing s with
  | zero => simp [resolveLoop, resolveCond, h1, h2]
  | succ n ih =>
    have hc : resolveCond false s = true := by simp [resolveCond, h1, h2]
    rw [resolveLoop, if_pos hc]
    apply ih
    · simp [resolveStep, graphCycle, h2, h3, lookupImage, cacheCycle]
    · simp [resolveStep, graphCycle, h2, h3, lookupImage, cacheCycle, entryIdentity]
    · simp [resolveStep, graphCycle, h2, h3, lookupImage, cacheCycle, entryIdentity]

/-- C3: two nodes that are each the input 0 of the other, both cached at time 5 as identities
of their input 0 at time 5; whatever the fuel, the walk of `renderViewer` never leaves its
loop. -/
theorem identity_walk_cycle_never_terminates :
    ¬ ∃ fuel : ℕ, (resolveIdentity graphCycle cacheCycle 0 5 0 false fuel).isSome = true := by
  rintro ⟨fuel, h⟩
  have hd : resolveIdentity graphCycle cacheCycle 0 5 0 false fuel = none := by
    unfold resolveIdentity
    apply resolveLoop_cycle_diverges
    · simp [resolveInit, graphCycle, lookupImage, cacheCycle]
    · simp [resolveInit, graphCycle, lookupImage, cacheCycle, entryIdentity]
    · simp [resolveInit, graphCycle, lookupImage, cacheCycle, entryIdentity]
  rw [hd] at h
  cases h

theorem lookupImage_inv (cache : ImageCache) (key : ImageKey) (s : Resolve) :
    ResolveInv cache (lookupImage cache key s) ∧ (lookupImage cache key s).inputImageKey = key ∧
      (lookupImage cache key s).lookups = s.lookups ++ [key] := by
  unfold lookupImage ResolveInv
  cases h : cache key with
  | none => simp
  | some e => simp [h]

theorem resolveLoop_terminates_of_rank (g : Graph) (cache : ImageCache) (active : ℕ) (view : ℤ)
    (forceRender : Bool) (rank : ImageKey → ℕ)
    (hrank : ∀ k e q, cache k = some e → e.params.inputNbIdentity ≠ -1 →
      g.input active e.params.inputNbIdentity = some q →
      rank { hash := g.hash q, time := e.params.inputTimeIdentity, view := view } < rank k)
    (fuel : ℕ) (s : Resolve) (hinv : ResolveInv cache s) (hfuel : rank s.inputImageKey < fuel) :
    ∃ s', resolveLoop g cache active view forceRender fuel s = some s' ∧
      s'.lookups.length ≤ s.lookups.length + rank s.inputImageKey ∧
      resolveCond forceRender s' = false := by
  induction fuel generalizing s with
  | zero => omega
  | succ n ih =>
    by_cases hc : resolveCond forceRender s = true
    · rw [resolveLoop, if_pos hc]
      simp only [resolveCond, Bool.and_eq_true, Bool.not_eq_true', decide_eq_true_eq] at hc
      obtain ⟨⟨hf, hne⟩, hcached⟩ := hc
      obtain ⟨e, he, hnb, htime⟩ := hinv hcached
      unfold resolveStep
      cases hq : g.input active s.inputIdentityNumber with
      | none =>
        refine ⟨_, resolveLoop_of_cond_false _ _ _ _ _ _ _ ?_, ?_, ?_⟩
        · simp [resolveCond]
        · simp
        · simp [resolveCond]
      | some q =>
        simp only
        have hlt := hrank s.inputImageKey e q he (hnb ▸ hne) (hnb ▸ hq)
        obtain ⟨hi, hk, hl⟩ := lookupImage_inv cache
          { hash := g.hash q, time := s.inputIdentityTime, view := view } s
        obtain ⟨s', h1, h2, h3⟩ := ih _ hi (by rw [hk, htime]; omega)
        refine ⟨s', h1, ?_, h3⟩
        rw [hk, hl, htime] at h2
        simp only [List.length_append, List.length_singleton] at h2
        omega
    · have hc' : resolveCond forceRender s = false := by simpa using hc
      exact ⟨s, resolveLoop_of_cond_false _ _ _ _ _ _ _ hc', by omega, hc'⟩

/-- A sufficient condition for the loop to end: if the image-cache keys carry a rank that
strictly decreases along every re-lookup the loop performs (from a cached identity entry to
the key of the designated input of the active producer at the identity time), then the walk
of `renderViewer` terminates, after at most `rank + 1` cache lookups, `rank` being the rank of
the first key. -/
theorem identity_walk_terminates_of_rank (g : Graph) (cache : ImageCache) (active : ℕ)
    (time view : ℤ) (forceRender : Bool) (rank : ImageKey → ℕ)
    (hrank : ∀ k e q, cache k = some e → e.params.inputNbIdentity ≠ -1 →
      g.input active e.params.inputNbIdentity = some q →
      rank { hash := g.hash q, time := e.params.inputTimeIdentity, view := view } < rank k) :
    ∃ s, resolveIdentity g cache active time view forceRender
          (rank { hash := g.hash active, time := time, view := view } + 1) = some s ∧
      s.lookups.length ≤ rank { hash := g.hash active, time := time, view := view } + 1 ∧
      resolveCond forceRender s = false := by
  unfold resolveIdentity
  cases hf : forceRender with
  | true =>
    refine ⟨_, resolveLoop_of_cond_false _ _ _ _ _ _ _ ?_, ?_, ?_⟩ <;>
      simp [resolveInit, resolveCond]
  | false =>
    have hinit : resolveInit g cache active time view false =
        lookupImage cache { hash := g.hash active, time := time, view := view }
          { inputImageKey := { hash := g.hash active, time := time, view := view }
            isInputImgCached := false, cached := none
            inputIdentityNumber := -1, inputIdentityTime := 0, lookups := [] } := by
      simp [resolveInit]
    obtain ⟨hi, hk, hl⟩ := lookupImage_inv cache
      { hash := g.hash active, time := time, view := view }
      { inputImageKey := { hash := g.hash active, time := time, view := view }
        isInputImgCached := false, cached := none
        inputIdentityNumber := -1, inputIdentityTime := 0, lookups := [] }
    rw [hinit]
    obtain ⟨s', h1, h2, h3⟩ := resolveLoop_terminates_of_rank g cache active view false rank
      hrank (rank { hash := g.hash active, time := time, view := view } + 1) _ hi
      (by rw [hk]; omega)
    refine ⟨s', h1, ?_, h3⟩
    rw [hk, hl] at h2
    simpa [Nat.add_comm] using h2

theorem rankChain2_decreases (k : ImageKey) (e : CachedImage) (q : ℕ)
    (hk : cacheChain2 k = some e) (hne : e.params.inputNbIdentity ≠ -1)
    (hq : graphChain.input 0 e.params.inputNbIdentity = some q) :
    rankChain2 { hash := graphChain.hash q, time := e.params.inputTimeIdentity, view := 0 } <
      rankChain2 k := by
  unfold cacheChain2 at hk
  split_ifs at hk with h1 h2
  · simp only [Option.some.injEq] at hk
    subst hk h1
    simp only [entryIdentity, graphChain] at hq ⊢
    simp at hq
    subst hq
    decide
  · simp only [Option.some.injEq] at hk
    subst hk
    simp [entryIdentity] at hne

/-- An instance: node 0 cached as an identity of node 1, node 1 cached as terminal; the walk
ends within two lookups. -/
theorem identity_walk_terminates_of_rank_witness :
    ∃ s, resolveIdentity graphChain cacheChain2 0 5 0 false
          (rankChain2 { hash := graphChain.hash 0, time := 5, view := 0 } + 1) = some s ∧
      s.lookups.length ≤ rankChain2 { hash := graphChain.hash 0, time := 5, view := 0 } + 1 ∧
      resolveCond false s = false :=
  identity_walk_terminates_of_rank graphChain cacheChain2 0 5 0 false rankChain2
    rankChain2_decreases

theorem resolveLoop_chain_diverges (fuel : ℕ) (s : Resolve) (h1 : s.isInputImgCached = true)
    (h2 : s.inputIdentityNumber = 0) (h3 : s.inputIdentityTime = 5) :
    resolveLoop graphChain cacheCycle 0 0 false fuel s = none := by
  induction fuel generalizing s with
  | zero => simp [resolveLoop, resolveCond, h1, h2]
  | succ n ih =>
    have hc : resolveCond false s = true := by simp [resolveCond, h1, h2]
    rw [resolveLoop, if_pos hc]
    apply ih
    · simp [resolveStep, graphChain, h2, h3, lookupImage, cacheCycle]
    · simp [resolveStep, graphChain, h2, h3, lookupImage, cacheCycle, entryIdentity]
    · simp [resolveStep, graphChain, h2, h3, lookupImage, cacheCycle, entryIdentity]

/-- The walk also hangs where the redirects form no cycle: in the chain node 0 -> node 1 ->
node 2 with nodes 0 and 1 cached at time 5 as identities of their input 0 at time 5 and
node 2 not cached, the true chain ends on a miss at node 2, but the loop keeps taking the
input of node 0 and re-reads the entry of node 1 whatever the fuel. -/
theorem identity_walk_hangs_on_acyclic_chain :
    (∀ fuel : ℕ, resolveIdentity graphChain cacheCycle 0 5 0 false fuel = none) ∧
      graphChain.input 0 0 = some 1 ∧ graphChain.input 1 0 = some 2 ∧
      graphChain.input 2 0 = none ∧
      cacheCycle { hash := graphChain.hash 2, time := 5, view := 0 } = none := by
  refine ⟨?_, rfl, rfl, rfl, rfl⟩
  intro fuel
  unfold resolveIdentity
  apply resolveLoop_chain_diverges
  · simp [resolveInit, graphChain, lookupImage, cacheCycle]
  · simp [resolveInit, graphChain, lookupImage, cacheCycle, entryIdentity]
  · simp [resolveInit, graphChain, lookupImage, cacheCycle, entryIdentity]

/-- C4: for the chain node 0 -> node 1 -> node 2 (node 0 an identity of its input 0 at time 5,
node 1 an identity of its input 0 at time 7, node 2 terminal and cached at time 7) the second
re-lookup uses the hash of node 1, again the input of node 0, with time 7; it misses, and the
walk ends without the cached image of node 2. -/
theorem identity_walk_relooks_first_input :
    (resolveIdentity graphChain cacheChain3 0 5 0 false 3).map
        (fun s => (s.lookups, s.isInputImgCached)) =
      some ([{ hash := 10, time := 5, view := 0 }, { hash := 11, time := 5, view := 0 },
             { hash := 11, time := 7, view := 0 }], false) ∧
      (cacheChain3 { hash := graphChain.hash 2, time := 7, view := 0 }).isSome = true ∧
      graphChain.hash 2 = 12 := by
  refine ⟨?_, ?_, ?_⟩ <;> rfl

/-! ## The render pass: what each stage leaves behind -/

theorem fillStage_spec (env : Env) (single : Bool) (fuel : ℕ) (st st' : ViewerState)
    (image : Image) (roi rect : RectI) (filled : List Event)
    (h : fillStage env single fuel st image roi rect = some (st', filled)) :
    st'.textureCache = st.textureCache ∧ ∀ ev ∈ filled, ∃ y, ev = Event.renderFunctor y := by
  unfold fillStage at h
  split at h
  · simp only [Option.some.injEq, Prod.mk.injEq] at h
    obtain ⟨h1, h2⟩ := h
    subst h1 h2
    constructor
    · split <;> simp [applyAutoContrast]
    · simp
  · split at h
    · cases h
    · split at h
      · split at h
        · cases h
        · simp only [Option.some.injEq, Prod.mk.injEq] at h
          obtain ⟨h1, h2⟩ := h
          subst h1 h2
          simp only [applyAutoContrast, List.mem_map, true_and]
          rintro ev ⟨y, -, rfl⟩
          exact ⟨y, rfl⟩
      · simp only [Option.some.injEq, Prod.mk.injEq] at h
        obtain ⟨h1, h2⟩ := h
        subst h1 h2
        simp only [List.mem_map, true_and]
        rintro ev ⟨y, -, rfl⟩
        exact ⟨y, rfl⟩

/-- What `afterRender` leaves behind. -/
theorem afterRender_spec (env : Env) (single : Bool) (fuel : ℕ) (st : ViewerState)
    (tr : List Event) (cf : Option FrameKey) (roi rect : RectI) (step : Step)
    (h : afterRender env single fuel st tr cf roi rect = some step) :
    (∃ p, step = Step.finished p ∧
        p.state.textureCache = removeFromViewerCache st.textureCache cf ∧
        ((p.outcome = Outcome.returned Status.StatFailed ∧ st.lastRenderedImage = none ∧
            ∀ ev ∈ p.trace, ev ∈ tr ∨ ev = Event.removeFromViewerCache cf) ∨
          (p.outcome = Outcome.returned Status.StatOK ∧
            ∀ ev ∈ p.trace, ev ∈ tr ∨ ev = Event.removeFromViewerCache cf ∨
              (∃ y, ev = Event.renderFunctor y) ∨ (∃ b, ev = Event.aborted AbortPoll.afterRender b) ∨
              (∃ b, ev = Event.aborted AbortPoll.afterFill b)))) ∨
      (∃ st' tr', step = Step.continues st' tr' ∧ st'.textureCache = st.textureCache ∧
        ∀ ev ∈ tr', ev ∈ tr ∨ (∃ y, ev = Event.renderFunctor y) ∨
          ev = Event.aborted AbortPoll.afterRender false ∨
          ev = Event.aborted AbortPoll.afterFill false ∨
          ev = Event.clearExceedingEntriesFromNodeCache) := by
  unfold afterRender at h
  split at h
  · simp only [Option.some.injEq] at h
    subst h
    left
    refine ⟨_, rfl, rfl, Or.inl ⟨rfl, by assumption, ?_⟩⟩
    intro ev hev
    simpa [evictAndReturn] using hev
  · simp only at h
    split at h
    · simp only [Option.some.injEq] at h
      subst h
      left
      refine ⟨_, rfl, rfl, Or.inr ⟨rfl, ?_⟩⟩
      intro ev hev
      simp only [evictAndReturn, List.mem_append, List.mem_singleton] at hev
      rcases hev with (h | h) | h
      · exact Or.inl h
      · exact Or.inr (Or.inr (Or.inr (Or.inl ⟨_, h⟩)))
      · exact Or.inr (Or.inl h)
    · rename_i hnab
      split at h
      · cases h
      · rename_i st' filled hfill
        obtain ⟨hc, hf⟩ := fillStage_spec _ _ _ _ _ _ _ _ _ hfill
        split at h
        · simp only [Option.some.injEq] at h
          subst h
          left
          refine ⟨_, rfl, by simp [evictAndReturn, hc], Or.inr ⟨rfl, ?_⟩⟩
          intro ev hev
          simp only [evictAndReturn, List.mem_append, List.mem_singleton] at hev
          rcases hev with (((h | h) | h) | h) | h
          · exact Or.inl h
          · exact Or.inr (Or.inr (Or.inr (Or.inl ⟨_, h⟩)))
          · exact Or.inr (Or.inr (Or.inl (hf ev h)))
          · exact Or.inr (Or.inr (Or.inr (Or.inr ⟨_, h⟩)))
          · exact Or.inr (Or.inl h)
        · rename_i hnaf
          simp only [Option.some.injEq] at h
          subst h
          right
          refine ⟨_, _, rfl, hc, ?_⟩
          intro ev hev
          simp only [List.mem_append, List.mem_singleton] at hev
          simp only [Bool.not_eq_true] at hnab hnaf
          rw [hnab, hnaf] at hev
          rcases hev with ((((h | h) | h) | h) | h)
          · exact Or.inl h
          · exact Or.inr (Or.inr (Or.inl h))
          · exact Or.inr (Or.inl (hf ev h))
          · exact Or.inr (Or.inr (Or.inr (Or.inl h)))
          · exact Or.inr (Or.inr (Or.inr (Or.inr h)))

theorem publish_spec (env : Env) (single : Bool) (st : ViewerState) (tr : List Event) :
    (publish env single st tr).state = st ∧
      (((publish env single st tr).outcome = Outcome.returned Status.StatFailed ∧
          (publish env single st tr).trace = tr) ∨
        ((publish env single st tr).outcome = Outcome.returned Status.StatOK ∧
          ∀ ev ∈ (publish env single st tr).trace,
            ev ∈ tr ∨ ev = Event.aborted AbortPoll.beforePublish env.abortedBeforePublish ∨
              ev = Event.updateViewer ∨ ev = Event.doUpdateViewer)) := by
  unfold publish
  split
  · exact ⟨rfl, Or.inl ⟨rfl, rfl⟩⟩
  · simp only
    split
    · refine ⟨rfl, Or.inr ⟨rfl, ?_⟩⟩
      intro ev hev
      simp only [List.mem_append, List.mem_singleton] at hev
      rcases hev with (h | h) | h
      · exact Or.inl h
      · exact Or.inr (Or.inl h)
      · subst h
        cases single <;> simp
    · refine ⟨rfl, Or.inr ⟨rfl, ?_⟩⟩
      intro ev hev
      simp only [List.mem_append, List.mem_singleton] at hev
      rcases hev with h | h
      · exact Or.inl h
      · exact Or.inr (Or.inl h)

theorem allocateBuffer_spec (env : Env) (st : ViewerState) (tr : List Event) (byPass : Bool)
    (key : FrameKey) :
    (∀ ev ∈ (allocateBuffer env st tr byPass key).trace,
        ev ∈ tr ∨ ev = Event.freeBuffer ∨ (∃ n, ev = Event.mallocBuffer n) ∨
          (ev = Event.getTextureFromCacheOrCreate key ∧
            (allocateBuffer env st tr byPass key).cachedFrame = some key)) ∧
      (((allocateBuffer env st tr byPass key).cachedFrame = none ∧
          (allocateBuffer env st tr byPass key).state.textureCache = st.textureCache) ∨
        ((allocateBuffer env st tr byPass key).cachedFrame = some key ∧
          (allocateBuffer env st tr byPass key).state.textureCache =
            getTextureFromCacheOrCreate st.textureCache key)) := by
  unfold allocateBuffer
  simp only
  split
  · refine ⟨?_, Or.inl ⟨rfl, rfl⟩⟩
    intro ev hev
    split_ifs at hev <;> simp only [List.mem_append, List.mem_singleton] at hev
    · rcases hev with (h | h) | h
      · exact Or.inl h
      · exact Or.inr (Or.inl h)
      · exact Or.inr (Or.inr (Or.inl ⟨_, h⟩))
    · rcases hev with h | h
      · exact Or.inl h
      · exact Or.inr (Or.inr (Or.inl ⟨_, h⟩))
  · refine ⟨?_, Or.inr ⟨rfl, rfl⟩⟩
    intro ev hev
    split_ifs at hev <;> simp only [List.mem_append, List.mem_singleton] at hev
    · rcases hev with (h | h) | h
      · exact Or.inl h
      · exact Or.inr (Or.inl h)
      · exact Or.inr (Or.inr (Or.inr ⟨h, rfl⟩))
    · rcases hev with h | h
      · exact Or.inl h
      · exact Or.inr (Or.inr (Or.inr ⟨h, rfl⟩))

theorem storeRendered_textureCache (st : ViewerState) (c : Bool) (img : Option Image) :
    (storeRendered st c img).textureCache = st.textureCache := by
  unfold storeRendered
  split <;> rfl

theorem renderMiss_spec (env : Env) (single : Bool) (fuel : ℕ) (st : ViewerState)
    (tr : List Event) (byPass cachedIn : Bool) (rod roi rect : RectI) (key : FrameKey)
    (step : Step)
    (h : renderMiss env single fuel st tr byPass cachedIn rod roi rect key = some step) :
    ∃ st2 tr2 rect2,
      st2.textureCache = (allocateBuffer env st tr byPass key).state.textureCache ∧
      (∀ ev ∈ tr2, ev ∈ (allocateBuffer env st tr byPass key).trace ∨
        ev = Event.notifyInputNIsRendering env.activeInput ∨ ev = Event.renderRoI rect2 ∨
        ev = Event.notifyInputNIsFinishedRendering env.activeInput) ∧
      (step = Step.finished { outcome := Outcome.raised, state := st2, trace := tr2 } ∨
        afterRender env single fuel st2 tr2
          (allocateBuffer env st tr byPass key).cachedFrame roi rect2 = some step) := by
  have hmem : ∀ (l : List Event) (r : RectI), ∀ ev ∈ l ++
      [Event.notifyInputNIsRendering env.activeInput, Event.renderRoI r,
        Event.notifyInputNIsFinishedRendering env.activeInput],
      ev ∈ l ∨ ev = Event.notifyInputNIsRendering env.activeInput ∨ ev = Event.renderRoI r ∨
        ev = Event.notifyInputNIsFinishedRendering env.activeInput := by
    intro l r ev hev
    simpa using hev
  unfold renderMiss at h
  simp only at h
  split at h
  · simp only [Option.some.injEq] at h
    exact ⟨_, _, _, rfl, hmem _ _, Or.inl h.symm⟩
  · exact ⟨_, _, _, storeRendered_textureCache _ _ _, hmem _ _, Or.inr h⟩
  · exact ⟨_, _, _, storeRendered_textureCache _ _ _, hmem _ _, Or.inr h⟩

theorem frameStage_spec (env : Env) (time view : ℤ) (single : Bool) (fuel : ℕ)
    (st : ViewerState) (tr : List Event) (force cachedIn : Bool) (rod roi : RectI)
    (sch : Scheduled) (p : Pass)
    (h : frameStage env time view single fuel st tr force cachedIn rod roi sch = some p) :
    ∃ st0 tr0 key, st0.textureCache = st.textureCache ∧
      (∀ ev ∈ tr0, ev ∈ tr ∨ ev = Event.getTextureFromCache key) ∧
      (p = publish env single st0 tr0 ∨
        renderMiss env single fuel st0 tr0 force cachedIn rod roi sch.texRectClipped key
            = some (Step.finished p) ∨
        ∃ st1 tr1,
          renderMiss env single fuel st0 tr0 force cachedIn rod roi sch.texRectClipped key
              = some (Step.continues st1 tr1) ∧
            p = publish env single st1 tr1) := by
  unfold frameStage at h
  simp only at h
  have hmem : ∀ (c : Bool) (k : FrameKey),
      ∀ ev ∈ (if c = true then tr ++ [Event.getTextureFromCache k] else tr),
        ev ∈ tr ∨ ev = Event.getTextureFromCache k := by
    intro c k ev hev
    split_ifs at hev
    · simpa using hev
    · exact Or.inl hev
  split at h
  · simp only [Option.some.injEq] at h
    exact ⟨snapshot env st sch.textureRect, _, _, rfl, hmem _ _, Or.inl h.symm⟩
  · split at h
    · cases h
    · rename_i hm
      simp only [Option.some.injEq] at h
      subst h
      exact ⟨snapshot env st sch.textureRect, _, _, rfl, hmem _ _, Or.inr (Or.inl hm)⟩
    · rename_i hm
      simp only [Option.some.injEq] at h
      exact ⟨snapshot env st sch.textureRect, _, _, rfl, hmem _ _,
        Or.inr (Or.inr ⟨_, _, hm, h.symm⟩)⟩

theorem scheduleStage_spec (env : Env) (time view : ℤ) (single : Bool) (fuel : ℕ)
    (st : ViewerState) (tr : List Event) (force cachedIn : Bool) (rod : RectI) (p : Pass)
    (h : scheduleStage env time view single fuel st tr force cachedIn rod = some p) :
    p = { outcome := Outcome.returned Status.StatOK, state := st
          trace := tr ++ [Event.rodChanged rod] } ∨
      ∃ roi sch,
        frameStage env time view single fuel st (tr ++ [Event.rodChanged rod]) force cachedIn
          rod roi sch = some p := by
  unfold scheduleStage at h
  simp only at h
  split at h
  · simp only [Option.some.injEq] at h
    exact Or.inl h.symm
  · exact Or.inr ⟨_, _, h⟩

theorem resolveRoD_textureCache (env : Env) (rs : Resolve) (c : Bool) (st st' : ViewerState)
    (rod : RectI) (b : Bool) (h : resolveRoD env rs c st = some (rod, b, st')) :
    st'.textureCache = st.textureCache := by
  unfold resolveRoD at h
  split at h
  · simp only [Option.some.injEq, Prod.mk.injEq] at h
    obtain ⟨-, -, rfl⟩ := h
    rfl
  · split at h
    · cases h
    · simp only [Option.some.injEq, Prod.mk.injEq] at h
      obtain ⟨-, -, rfl⟩ := h
      rfl

theorem resolveIdentity_miss (g : Graph) (active : ℕ) (time view : ℤ) (fuel : ℕ) :
    (resolveIdentity g (fun _ => none) active time view false fuel) =
      some { inputImageKey := { hash := g.hash active, time := time, view := view }
             isInputImgCached := false
             cached := none, inputIdentityNumber := -1, inputIdentityTime := 0
             lookups := [{ hash := g.hash active, time := time, view := view }] } := by
  unfold resolveIdentity
  rw [resolveLoop_of_cond_false]
  · rfl
  · rfl

/-- The pass when nothing is cached for the active input and force-render is off: the RoD comes
from the producer and the pass goes on with the scheduling step. -/
theorem renderViewer_uncached (env : Env) (time : ℤ) (single : Bool) (fuel : ℕ)
    (st : ViewerState) (rod : RectI) (b : Bool) (h0 : env.abortedAtEntry = false)
    (hc : env.imageCache = fun _ => none) (hf : st.forceRender = false)
    (hr : env.regionOfDefinition = some (rod, b)) :
    renderViewer env time single fuel st =
      scheduleStage env time (if env.viewsCount > 0 then env.currentView else 0) single fuel
        { st with forceRender := false }
        [Event.aborted AbortPoll.atEntry false,
          Event.getImageFromCache
            { hash := env.graph.hash env.activeInputToRender, time := time
              view := if env.viewsCount > 0 then env.currentView else 0 },
          Event.getRegionOfDefinition]
        false false (env.clipInfiniteRod rod).1 := by
  simp only [renderViewer, h0, hc, hf, resolveIdentity_miss, isStaleProjectFormat, resolveRoD,
    hr, sourceTrace]
  simp

theorem scheduleStage_scheduled (env : Env) (time view : ℤ) (single : Bool) (fuel : ℕ)
    (st : ViewerState) (tr : List Event) (force cachedIn : Bool) (rod : RectI) (sch : Scheduled)
    (h : scheduleTexture rod (env.imageRectangleDisplayed rod) (closestPowerOf2 env.zoomFactor)
      (tileSize env.viewerTilesPowerOf2) = some sch) :
    scheduleStage env time view single fuel st tr force cachedIn rod =
      frameStage env time view single fuel st (tr ++ [Event.rodChanged rod]) force cachedIn rod
        (env.imageRectangleDisplayed rod) sch := by
  unfold scheduleStage
  simp only
  split
  · rename_i h2
    rw [h] at h2
    cases h2
  · rename_i s h2
    rw [h] at h2
    cases h2
    rfl


theorem summary_of_map (x : Option Pass) (o : Outcome) (t : List Event) (b : Bool)
    (h : x.map Pass.summary = some (o, t, b)) :
    ∃ p, x = some p ∧ p.outcome = o ∧ p.trace = t ∧
      (keyA ∈ p.state.textureCache ↔ b = true) := by
  cases x with
  | none => cases h
  | some p =>
    simp only [Option.map_some', Pass.summary, Option.some.injEq, Prod.mk.injEq] at h
    obtain ⟨h1, h2, h3⟩ := h
    refine ⟨p, rfl, h1, h2, ?_⟩
    rw [← h3]
    simp

theorem pass_envAbortRender :
    (renderViewer envAbortRender 5 true 0 stateA).map Pass.summary =
      some (Outcome.returned Status.StatOK,
        [Event.aborted AbortPoll.atEntry false,
          Event.getImageFromCache { hash := 10, time := 5, view := 0 },
          Event.getRegionOfDefinition, Event.rodChanged rodA, Event.getTextureFromCache keyA,
          Event.getTextureFromCacheOrCreate keyA, Event.notifyInputNIsRendering 0,
          Event.renderRoI { x1 := 0, y1 := 0, x2 := 100, y2 := 100 },
          Event.notifyInputNIsFinishedRendering 0,
          Event.aborted AbortPoll.afterRender true,
          Event.removeFromViewerCache (some keyA)], false) := by
  rw [renderViewer_uncached envAbortRender 5 true 0 stateA rodA false rfl rfl rfl rfl]
  rw [scheduleStage_scheduled _ _ _ _ _ _ _ _ _ _ schedA scheduleTexture_rodA_full]
  rfl

theorem updateLocal_eq (loc mm : ℚ × ℚ) : updateLocal loc mm = mergeMinMax loc mm := by
  unfold updateLocal mergeMinMax
  ext
  · simp only [min_def]
    split_ifs <;> first | rfl | linarith
  · simp only [max_def]
    split_ifs <;> first | rfl | linarith

theorem mergeMinMax_comm (a b : ℚ × ℚ) : mergeMinMax a b = mergeMinMax b a := by
  simp [mergeMinMax, min_comm, max_comm]

theorem mergeMinMax_assoc (a b c : ℚ × ℚ) :
    mergeMinMax (mergeMinMax a b) c = mergeMinMax a (mergeMinMax b c) := by
  simp [mergeMinMax, min_assoc, max_assoc]

theorem mergeMinMax_self (a : ℚ × ℚ) : mergeMinMax a a = a := by
  simp [mergeMinMax]

theorem merge_foldl (v a : ℚ × ℚ) (l : List (ℚ × ℚ)) :
    mergeMinMax v (l.foldl mergeMinMax a) = l.foldl mergeMinMax (mergeMinMax v a) := by
  induction l generalizing a with
  | nil => rfl
  | cons x xs ih => simp only [List.foldl_cons, ih, mergeMinMax_assoc]

theorem foldl_merge_absorb (a : ℚ × ℚ) (l : List (ℚ × ℚ)) :
    mergeMinMax (l.foldl mergeMinMax a) a = l.foldl mergeMinMax a := by
  rw [mergeMinMax_comm, merge_foldl, mergeMinMax_self]

theorem scanLine_eq (image : Image) (channels : DisplayChannels) (rect : RectI) (y : ℤ)
    (loc : ℚ × ℚ) :
    scanLine image channels rect y loc =
      ((intRange rect.x1 rect.x2).map
        (fun x => pixelMiniMaxi channels (image.pixelAt x y))).foldl mergeMinMax loc := by
  unfold scanLine
  rw [List.foldl_map]
  simp only [updateLocal_eq, RectI.left, RectI.right]

theorem rows_foldl_eq (image : Image) (channels : DisplayChannels) (rect : RectI)
    (rows : List ℤ) (loc : ℚ × ℚ) :
    rows.foldl (fun acc y => scanLine image channels rect y acc) loc =
      (regionValues image channels rect.x1 rect.x2 rows).foldl mergeMinMax loc := by
  induction rows generalizing loc with
  | nil => rfl
  | cons y ys ih =>
    simp only [List.foldl_cons, regionValues, List.foldl_append]
    rw [ih, scanLine_eq]

theorem localVminVmax_eq (image : Image) (channels : DisplayChannels) (rect : RectI) :
    localVminVmax image channels rect =
      (regionValues image channels rect.x1 rect.x2 (intRange rect.y1 rect.y2)).foldl
        mergeMinMax ((INT_MAX : ℚ), (INT_MIN : ℚ)) := by
  unfold localVminVmax
  rw [rows_foldl_eq]
  rfl

theorem findAutoContrastVminVmax_eq (image : Image) (channels : DisplayChannels) (rect : RectI)
    (v : ℚ × ℚ) :
    findAutoContrastVminVmax image channels rect v =
      mergeMinMax v (localVminVmax image channels rect) := rfl

theorem regionValues_append (image : Image) (channels : DisplayChannels) (x1 x2 : ℤ)
    (a b : List ℤ) :
    regionValues image channels x1 x2 (a ++ b) =
      regionValues image channels x1 x2 a ++ regionValues image channels x1 x2 b := by
  induction a with
  | nil => rfl
  | cons y ys ih =>
    show regionValues image channels x1 x2 (y :: (ys ++ b)) = _
    simp only [regionValues, ih, List.append_assoc]

theorem intRange_append (a b c : ℤ) (hab : a ≤ b) (hbc : b ≤ c) :
    intRange a c = intRange a b ++ intRange b c := by
  unfold intRange
  have h : (c - a).toNat = (b - a).toNat + (c - b).toNat := by omega
  rw [h, List.range_add, List.map_append, List.map_map]
  congr 1
  apply List.map_congr_left
  intro i _
  simp only [Function.comp]
  have : ((b - a).toNat : ℤ) = b - a := Int.toNat_of_nonneg (by omega)
  push_cast
  omega

theorem intRange_empty (a b : ℤ) (h : b ≤ a) : intRange a b = [] := by
  unfold intRange
  have : (b - a).toNat = 0 := by omega
  rw [this]
  rfl

theorem splitRectsLoop_spec (roi : RectI) (rpt : ℤ) (hrpt : 1 ≤ rpt) (fuel : ℕ) (k : ℤ)
    (hfuel : (roi.y2 - k).toNat ≤ fuel) :
    ∃ rects, splitRectsLoop roi rpt fuel k = some rects ∧
      (∀ r ∈ rects, r.x1 = roi.x1 ∧ r.x2 = roi.x2) ∧ bandRows rects = intRange k roi.y2 := by
  induction fuel generalizing k with
  | zero =>
    have hk : ¬ k < roi.y2 := by omega
    refine ⟨[], ?_, ?_, ?_⟩
    · simp [splitRectsLoop, hk]
    · simp
    · rw [intRange_empty _ _ (by omega)]
      rfl
  | succ n ih =>
    by_cases hk : k < roi.y2
    · obtain ⟨rects, h1, h2, h3⟩ := ih (k + rpt) (by omega)
      refine ⟨{ x1 := roi.left, y1 := k, x2 := roi.right
                y2 := if k + rpt > roi.top then roi.top else k + rpt } :: rects, ?_, ?_, ?_⟩
      · simp only [splitRectsLoop, hk, if_true, h1, Option.map_some']
      · intro r hr
        simp only [List.mem_cons] at hr
        rcases hr with rfl | hr
        · exact ⟨rfl, rfl⟩
        · exact h2 r hr
      · simp only [bandRows, h3, RectI.top]
        by_cases ht : k + rpt > roi.y2
        · rw [if_pos ht, intRange_empty (k + rpt) roi.y2 (by omega), List.append_nil]
        · rw [if_neg ht]
          exact (intRange_append k (k + rpt) roi.y2 (by omega) (by omega)).symm
    · refine ⟨[], ?_, ?_, ?_⟩
      · simp [splitRectsLoop, hk]
      · simp
      · rw [intRange_empty _ _ (by omega)]
        rfl

theorem merged_foldl (image : Image) (channels : DisplayChannels) (x1 x2 : ℤ)
    (rects : List RectI) (hx : ∀ r ∈ rects, r.x1 = x1 ∧ r.x2 = x2) (seen : List (ℚ × ℚ)) :
    rects.foldl (fun v r => findAutoContrastVminVmax image channels r v)
        (seen.foldl mergeMinMax ((INT_MAX : ℚ), (INT_MIN : ℚ))) =
      (seen ++ regionValues image channels x1 x2 (bandRows rects)).foldl mergeMinMax
        ((INT_MAX : ℚ), (INT_MIN : ℚ)) := by
  induction rects generalizing seen with
  | nil => simp [bandRows, regionValues]
  | cons r rs ih =>
    obtain ⟨h1, h2⟩ := hx r (List.mem_cons_self _ _)
    simp only [List.foldl_cons, bandRows, regionValues_append]
    rw [findAutoContrastVminVmax_eq, localVminVmax_eq, merge_foldl, foldl_merge_absorb,
      ← List.foldl_append, h1, h2]
    rw [ih (fun r' hr' => hx r' (List.mem_cons_of_mem _ hr'))]
    rw [List.append_assoc]

theorem ceilDiv_pos (a b : ℤ) (ha : 0 < a) (hb : 0 < b) : 1 ≤ ceilDiv a b := by
  rw [ceilDiv_eq]
  have : (0 : ℚ) < (a : ℚ) / (b : ℚ) := by
    have ha' : (0 : ℚ) < a := by exact_mod_cast ha
    have hb' : (0 : ℚ) < b := by exact_mod_cast hb
    positivity
  exact Int.one_le_ceil_iff.2 this

/-- For a region of positive width and at least one worker thread, the multi-threaded split
of lines 593-601 terminates, and the estimates of its sub-rectangles merged in any order equal
the estimate of a single run over the region. -/
theorem autoContrast_partition_invariant (image : Image) (channels : DisplayChannels)
    (roi : RectI) (n : ℤ) (hw : roi.x1 < roi.x2) (hn : 1 ≤ n) :
    ∃ rects, splitRects roi n (roi.y2 - roi.y1).toNat = some rects ∧
      ∀ rects', List.Perm rects' rects →
        mergedVminVmax image channels rects' = singleVminVmax image channels roi := by
  have hrpt : 1 ≤ ceilDiv roi.width n := ceilDiv_pos _ _ (by unfold RectI.width; omega) (by omega)
  obtain ⟨rects, h1, h2, h3⟩ :=
    splitRectsLoop_spec roi (ceilDiv roi.width n) hrpt (roi.y2 - roi.y1).toNat roi.y1 le_rfl
  refine ⟨rects, h1, ?_⟩
  intro rects' hperm
  have hcomm : RightCommutative
      (fun (v : ℚ × ℚ) (r : RectI) => findAutoContrastVminVmax image channels r v) := by
    constructor
    intro v a b
    simp only [findAutoContrastVminVmax_eq]
    rw [mergeMinMax_assoc, mergeMinMax_assoc,
      mergeMinMax_comm (localVminVmax image channels a)]
  unfold mergedVminVmax
  rw [hperm.foldl_eq]
  have hm := merged_foldl image channels roi.x1 roi.x2 rects h2 []
  simp only [List.foldl_nil, List.nil_append] at hm
  rw [hm, h3]
  unfold singleVminVmax
  rw [findAutoContrastVminVmax_eq, localVminVmax_eq, merge_foldl, mergeMinMax_self]

theorem splitRectsLoop_stuck (roi : RectI) (fuel : ℕ) (k : ℤ) (hk : k < roi.y2) :
    splitRectsLoop roi 0 fuel k = none := by
  induction fuel with
  | zero => simp [splitRectsLoop, hk]
  | succ n ih => simp [splitRectsLoop, hk, ih]

/-- C10: for the region `(5,0,5,10)`, of zero width, and 4 worker threads, `rowsPerThread` is
`ceil(0 / 4) = 0` and the splitting loop of lines 596-601 never ends, whatever the fuel, whereas
the single-threaded run over the region ends with `(INT_MAX, INT_MIN)`. -/
theorem autoContrast_split_diverges_on_zero_width :
    ceilDiv roiThin.width 4 = 0 ∧
      (¬ ∃ fuel : ℕ, (splitRects roiThin 4 fuel).isSome = true) ∧
      singleVminVmax imageA DisplayChannels.RGB roiThin = ((INT_MAX : ℚ), (INT_MIN : ℚ)) := by
  have h0 : ceilDiv roiThin.width 4 = 0 := by
    rw [ceilDiv_eq, Int.ceil_eq_iff]
    simp [roiThin, RectI.width]
  refine ⟨h0, ?_, ?_⟩
  · rintro ⟨fuel, h⟩
    unfold splitRects at h
    simp only [h0] at h
    rw [splitRectsLoop_stuck roiThin fuel roiThin.y1 (by decide)] at h
    cases h
  · unfold singleVminVmax
    rw [findAutoContrastVminVmax_eq, localVminVmax_eq, merge_foldl, mergeMinMax_self]
    have hr : ∀ rows : List ℤ, regionValues imageA DisplayChannels.RGB roiThin.x1 roiThin.x2 rows
        = [] := by
      intro rows
      induction rows with
      | nil => rfl
      | cons y ys ih =>
        simp only [regionValues, ih, List.append_nil]
        rw [intRange_empty _ _ (by decide)]
        rfl
    rw [hr]
    rfl

/-! ## Derived exposure and offset -/

/-- C11: after the estimate `(vmin, vmax)` has gone through lines 566-570 (608-612 in the
multi-threaded pass), `vmin` is `vmax - 1` when the two were equal and unchanged otherwise,
the denominator `vmax - vmin` is never zero, the derived values are
`exposure = 1 / (vmax - vmin)` and `offset = -vmin / (vmax - vmin)`, they are the ones stored
in the pass settings and in the viewer state, and for a flat estimate they are `1` and
`1 - vmax`. -/
theorem autoContrast_denominator_ne_zero (st : ViewerState) (v : ℚ × ℚ) :
    ((autoContrastArgs v).1.2 = v.2) ∧
      ((autoContrastArgs v).1.1 = if v.2 = v.1 then v.2 - 1 else v.1) ∧
      ((autoContrastArgs v).1.2 - (autoContrastArgs v).1.1 ≠ 0) ∧
      ((autoContrastArgs v).2.1 = 1 / ((autoContrastArgs v).1.2 - (autoContrastArgs v).1.1)) ∧
      ((autoContrastArgs v).2.2 =
        -(autoContrastArgs v).1.1 / ((autoContrastArgs v).1.2 - (autoContrastArgs v).1.1)) ∧
      ((applyAutoContrast st v).interThreadInfos.exposure = (autoContrastArgs v).2.1 ∧
        (applyAutoContrast st v).interThreadInfos.offset = (autoContrastArgs v).2.2 ∧
        (applyAutoContrast st v).exposure = (autoContrastArgs v).2.1 ∧
        (applyAutoContrast st v).offset = (autoContrastArgs v).2.2 ∧
        (applyAutoContrast st v).vmin = (autoContrastArgs v).1.1 ∧
        (applyAutoContrast st v).vmax = (autoContrastArgs v).1.2) ∧
      (v.2 = v.1 → (autoContrastArgs v).2.1 = 1 ∧ (autoContrastArgs v).2.2 = 1 - v.2) := by
  refine ⟨rfl, rfl, ?_, rfl, rfl, ⟨rfl, rfl, rfl, rfl, rfl, rfl⟩, ?_⟩
  · simp only [autoContrastArgs]
    split_ifs with h
    · norm_num
    · exact sub_ne_zero.2 h
  · intro h
    simp only [autoContrastArgs, h, if_true]
    constructor <;> ring

/-- C11, witness: the flat estimate `(3, 3)` gives exposure 1 and offset -2. -/
theorem autoContrast_denominator_ne_zero_witness :
    (autoContrastArgs ((3 : ℚ), (3 : ℚ))).2.1 = 1 ∧
      (autoContrastArgs ((3 : ℚ), (3 : ℚ))).2.2 = 1 - 3 :=
  (autoContrast_denominator_ne_zero stateA ((3 : ℚ), (3 : ℚ))).2.2.2.2.2.2 rfl

/-! ## The scheduling step, continued -/

theorem closestPowerOf2_of_one_le {z : ℚ} (h : 1 ≤ z) : closestPowerOf2 z = 1 := by
  unfold closestPowerOf2
  rw [if_pos h]

/-- C16: for every zoom factor `z > 0` the value computed at line 388 is `2 ^ k` for a natural
number `k`, hence at least 1, and it is 1 when `z ≥ 1`. -/
theorem closestPowerOf2_is_pow_two_ge_one (z : ℚ) (hz : 0 < z) :
    (∃ k : ℕ, closestPowerOf2 z = 2 ^ k) ∧ 1 ≤ closestPowerOf2 z ∧
      (1 ≤ z → closestPowerOf2 z = 1) := by
  obtain ⟨k, hk⟩ := closestPowerOf2_eq_pow z hz
  refine ⟨⟨k, hk⟩, ?_, closestPowerOf2_of_one_le⟩
  rw [hk]
  exact one_le_pow₀ (by norm_num)

/-- C16, witness: zoom 0.5 gives `2 ^ 1`. -/
theorem closestPowerOf2_is_pow_two_ge_one_witness :
    (0 : ℚ) < 1 / 2 ∧ closestPowerOf2 (1 / 2) = 2 ∧ 1 ≤ closestPowerOf2 (1 / 2) :=
  ⟨by norm_num, closestPowerOf2_half,
    (closestPowerOf2_is_pow_two_ge_one (1 / 2) (by norm_num)).2.1⟩

/-- C18: the `switch` of `renderFunctor` yields the offsets of the table, `RGB -> (0,1,2)`,
`R -> (0,0,0)`, `G -> (1,1,1)`, `B -> (2,2,2)`, `A -> (3,3,3)`, each without luminance
reduction, and luminance reduction is on for `LUMINANCE` and for no other mode. -/
theorem channelOffsets_table :
    channelOffsets DisplayChannels.RGB =
        { rOffset := 0, gOffset := 1, bOffset := 2, luminance := false } ∧
      channelOffsets DisplayChannels.R =
        { rOffset := 0, gOffset := 0, bOffset := 0, luminance := false } ∧
      channelOffsets DisplayChannels.G =
        { rOffset := 1, gOffset := 1, bOffset := 1, luminance := false } ∧
      channelOffsets DisplayChannels.B =
        { rOffset := 2, gOffset := 2, bOffset := 2, luminance := false } ∧
      channelOffsets DisplayChannels.A =
        { rOffset := 3, gOffset := 3, bOffset := 3, luminance := false } ∧
      (∀ c, (channelOffsets c).luminance = true ↔ c = DisplayChannels.LUMINANCE) := by
  refine ⟨rfl, rfl, rfl, rfl, rfl, ?_⟩
  intro c
  cases c <;> simp [channelOffsets]

/-- C14: the output dimensions of the TextureRect are the tile rectangle's width and height
(in downsampled coordinates), each capped by the RoD's, so neither exceeds the RoD's. -/
theorem textureRect_dims_eq_min (rod roi : RectI) (p ts : ℚ) (s : Scheduled)
    (h : scheduleTexture rod roi p ts = some s) :
    s.texRect = computeTexRect roi p ts ∧
      s.textureRect.w = min s.texRect.width rod.width ∧
      s.textureRect.h = min s.texRect.height rod.height ∧
      s.textureRect.w ≤ rod.width ∧ s.textureRect.h ≤ rod.height := by
  unfold scheduleTexture at h
  simp only at h
  split at h
  · cases h
  · simp only [Option.some.injEq] at h
    subst h
    refine ⟨rfl, ?_, ?_, ?_, ?_⟩ <;> dsimp only <;> split_ifs <;> omega

/-- C14, witness: Scenario A, where the tile rectangle is 112 x 112 and the RoD 100 x 100. -/
theorem textureRect_dims_eq_min_witness :
    schedA.textureRect.w = min schedA.texRect.width rodA.width ∧
      schedA.textureRect.h = min schedA.texRect.height rodA.height ∧
      schedA.textureRect.w ≤ rodA.width ∧ schedA.textureRect.h ≤ rodA.height :=
  (textureRect_dims_eq_min rodA rodA (closestPowerOf2 1) (tileSize 4) schedA
    scheduleTexture_rodA_full).2

theorem floor_tile_edge (q : ℚ) (n : ℕ) :
    (((⌊q / 2 ^ n⌋ * 2 ^ n : ℤ)) : ℚ) ≤ q ∧ q - ((⌊q / 2 ^ n⌋ * 2 ^ n : ℤ) : ℚ) < 2 ^ n := by
  have hn : (0 : ℚ) < 2 ^ n := by positivity
  have h1 := Int.floor_le (q / 2 ^ n)
  have h2 := Int.lt_floor_add_one (q / 2 ^ n)
  rw [le_div_iff₀ hn] at h1
  rw [div_lt_iff₀ hn] at h2
  push_cast
  constructor <;> linarith

theorem ceil_tile_edge (q : ℚ) (n : ℕ) :
    q ≤ (((⌈q / 2 ^ n⌉ * 2 ^ n : ℤ)) : ℚ) ∧ ((⌈q / 2 ^ n⌉ * 2 ^ n : ℤ) : ℚ) - q < 2 ^ n := by
  have hn : (0 : ℚ) < 2 ^ n := by positivity
  have h1 := Int.le_ceil (q / 2 ^ n)
  have h2 := Int.ceil_lt_add_one (q / 2 ^ n)
  rw [div_le_iff₀ hn] at h1
  have h3 : (⌈q / 2 ^ n⌉ : ℚ) * 2 ^ n < (q / 2 ^ n + 1) * 2 ^ n :=
    mul_lt_mul_of_pos_right h2 hn
  have h4 : (q / 2 ^ n + 1) * 2 ^ n = q + 2 ^ n := by
    field_simp
  push_cast
  constructor <;> linarith

/-- C13: for a positive zoom and tiles of `2 ^ n` pixels, every edge of the tile rectangle of
lines 392-397 is an integer multiple of `2 ^ n`; the rectangle contains the visible rectangle
scaled by `1 / closestPowerOf2`, and each of its edges is less than `2 ^ n` away from the
scaled edge. -/
theorem texRect_aligned_and_covers (roi : RectI) (z : ℚ) (n : ℕ) (hz : 0 < z) :
    ((∃ m : ℤ, (computeTexRect roi (closestPowerOf2 z) (tileSize n)).x1 = m * 2 ^ n) ∧
      (∃ m : ℤ, (computeTexRect roi (closestPowerOf2 z) (tileSize n)).y1 = m * 2 ^ n) ∧
      (∃ m : ℤ, (computeTexRect roi (closestPowerOf2 z) (tileSize n)).x2 = m * 2 ^ n) ∧
      (∃ m : ℤ, (computeTexRect roi (closestPowerOf2 z) (tileSize n)).y2 = m * 2 ^ n)) ∧
      (((computeTexRect roi (closestPowerOf2 z) (tileSize n)).x1 : ℚ) ≤
          roi.x1 / closestPowerOf2 z ∧
        (roi.x1 / closestPowerOf2 z -
          ((computeTexRect roi (closestPowerOf2 z) (tileSize n)).x1 : ℚ) < 2 ^ n)) ∧
      (((computeTexRect roi (closestPowerOf2 z) (tileSize n)).y1 : ℚ) ≤
          roi.y1 / closestPowerOf2 z ∧
        (roi.y1 / closestPowerOf2 z -
          ((computeTexRect roi (closestPowerOf2 z) (tileSize n)).y1 : ℚ) < 2 ^ n)) ∧
      ((roi.x2 / closestPowerOf2 z ≤
          ((computeTexRect roi (closestPowerOf2 z) (tileSize n)).x2 : ℚ)) ∧
        (((computeTexRect roi (closestPowerOf2 z) (tileSize n)).x2 : ℚ) -
          roi.x2 / closestPowerOf2 z < 2 ^ n)) ∧
      ((roi.y2 / closestPowerOf2 z ≤
          ((computeTexRect roi (closestPowerOf2 z) (tileSize n)).y2 : ℚ)) ∧
        (((computeTexRect roi (closestPowerOf2 z) (tileSize n)).y2 : ℚ) -
          roi.y2 / closestPowerOf2 z < 2 ^ n)) := by
  obtain ⟨k, hk⟩ := closestPowerOf2_eq_pow z hz
  rw [hk, computeTexRect_pow]
  exact ⟨⟨⟨_, rfl⟩, ⟨_, rfl⟩, ⟨_, rfl⟩, ⟨_, rfl⟩⟩, floor_tile_edge _ n, floor_tile_edge _ n,
    ceil_tile_edge _ n, ceil_tile_edge _ n⟩

/-- C13, witness: the visible rectangle `(90,90,100,100)` at zoom 1 with tiles of 16. -/
theorem texRect_aligned_and_covers_witness :
    (0 : ℚ) < 1 ∧
      (∃ m : ℤ, (computeTexRect roiCorner (closestPowerOf2 1) (tileSize 4)).x1 = m * 2 ^ 4) ∧
      ((computeTexRect roiCorner (closestPowerOf2 1) (tileSize 4)).x1 : ℚ) ≤
        roiCorner.x1 / closestPowerOf2 1 :=
  ⟨by norm_num, (texRect_aligned_and_covers roiCorner 1 4 (by norm_num)).1.1,
    (texRect_aligned_and_covers roiCorner 1 4 (by norm_num)).2.1.1⟩

theorem tile_contains_int (a : ℤ) (n : ℕ) :
    ⌊((a : ℚ) / 2 ^ 0) / 2 ^ n⌋ * 2 ^ n ≤ a ∧ a ≤ ⌈((a : ℚ) / 2 ^ 0) / 2 ^ n⌉ * 2 ^ n := by
  have h1 := (floor_tile_edge ((a : ℚ) / 2 ^ 0) n).1
  have h2 := (ceil_tile_edge ((a : ℚ) / 2 ^ 0) n).1
  simp only [pow_zero, div_one] at h1 h2 ⊢
  exact ⟨by exact_mod_cast h1, by exact_mod_cast h2⟩

/-- C15: at a zoom of at least 1, with the whole of a non-empty RoD visible, the TextureRect
has the RoD as its rectangle, the RoD's width and height as output dimensions and 1 as
`closestPo2`, whatever the tile size `2 ^ n`. -/
theorem textureRect_of_full_rod (rod : RectI) (z : ℚ) (n : ℕ) (hz : 1 ≤ z)
    (hx : rod.x1 < rod.x2) (hy : rod.y1 < rod.y2) :
    closestPowerOf2 z = 1 ∧
      ∃ s, scheduleTexture rod rod (closestPowerOf2 z) (tileSize n) = some s ∧
        s.texRectClipped = rod ∧
        s.textureRect =
          { x1 := rod.x1, y1 := rod.y1, x2 := rod.x2, y2 := rod.y2
            w := rod.width, h := rod.height, closestPo2 := 1 } := by
  refine ⟨closestPowerOf2_of_one_le hz, ?_⟩
  rw [closestPowerOf2_of_one_le hz]
  have hc := computeTexRect_pow rod 0 n
  rw [pow_zero] at hc
  obtain ⟨hx1, -⟩ := tile_contains_int rod.x1 n
  obtain ⟨-, hx2⟩ := tile_contains_int rod.x2 n
  obtain ⟨hy1, -⟩ := tile_contains_int rod.y1 n
  obtain ⟨-, hy2⟩ := tile_contains_int rod.y2 n
  simp only [pow_zero] at hx1 hx2 hy1 hy2
  unfold scheduleTexture
  simp only [hc, rescaleTexRect_one, cTrunc_one]
  generalize ⌊((rod.x1 : ℚ) / 1) / 2 ^ n⌋ * (2 : ℤ) ^ n = a1 at *
  generalize ⌈((rod.x2 : ℚ) / 1) / 2 ^ n⌉ * (2 : ℤ) ^ n = a2 at *
  generalize ⌊((rod.y1 : ℚ) / 1) / 2 ^ n⌋ * (2 : ℤ) ^ n = b1 at *
  generalize ⌈((rod.y2 : ℚ) / 1) / 2 ^ n⌉ * (2 : ℤ) ^ n = b2 at *
  have hw : ¬ (RectI.width { x1 := a1, y1 := b1, x2 := a2, y2 := b2 } = 0 ∨
      RectI.height { x1 := a1, y1 := b1, x2 := a2, y2 := b2 } = 0) := by
    simp only [RectI.width, RectI.height]
    omega
  rw [if_neg hw]
  refine ⟨_, rfl, ?_⟩
  have hi : RectI.intersect { x1 := a1, y1 := b1, x2 := a2, y2 := b2 } rod
      { x1 := a1, y1 := b1, x2 := a2, y2 := b2 } = rod := by
    unfold RectI.intersect
    have h1 : (RectI.isNull { x1 := a1, y1 := b1, x2 := a2, y2 := b2 } || rod.isNull) = false := by
      simp only [RectI.isNull, Bool.or_eq_false_iff, decide_eq_false_iff_not]
      omega
    rw [h1]
    simp only [Bool.false_eq_true, if_false]
    rw [if_neg (by omega)]
    cases rod
    simp only [RectI.mk.injEq] at *
    omega
  simp only [hi, RectI.width, RectI.height, true_and]
  congr 1 <;> split_ifs <;> omega

/-- C15, witness: Scenario A, the RoD `(0,0,100,100)` wholly visible at zoom 1 with tiles of
16: the TextureRect is `(0,0,100,100)` with output 100 x 100. -/
theorem textureRect_of_full_rod_witness :
    scheduleTexture rodA rodA (closestPowerOf2 1) (tileSize 4) = some schedA ∧
      schedA.textureRect =
        { x1 := 0, y1 := 0, x2 := 100, y2 := 100, w := 100, h := 100, closestPo2 := 1 } ∧
      closestPowerOf2 1 = 1 :=
  ⟨scheduleTexture_rodA_full, rfl,
    (textureRect_of_full_rod rodA 1 4 (by norm_num) (by decide) (by decide)).1⟩

/-! ## The auto-contrast estimate -/

theorem mem_intRange (lo hi x : ℤ) : x ∈ intRange lo hi ↔ lo ≤ x ∧ x < hi := by
  unfold intRange
  simp only [List.mem_map, List.mem_range]
  constructor
  · rintro ⟨i, hi', rfl⟩
    omega
  · rintro ⟨h1, h2⟩
    exact ⟨(x - lo).toNat, by omega, by omega⟩

theorem mem_regionValues (image : Image) (channels : DisplayChannels) (x1 x2 : ℤ)
    (rows : List ℤ) (e : ℚ × ℚ) :
    e ∈ regionValues image channels x1 x2 rows ↔
      ∃ y ∈ rows, ∃ x, x1 ≤ x ∧ x < x2 ∧ e = pixelMiniMaxi channels (image.pixelAt x y) := by
  induction rows with
  | nil => simp [regionValues]
  | cons y ys ih =>
    simp only [regionValues, List.mem_append, List.mem_map, ih, List.mem_cons, mem_intRange]
    constructor
    · rintro (⟨x, ⟨h1, h2⟩, rfl⟩ | ⟨y', hy', x, h1, h2, rfl⟩)
      · exact ⟨y, Or.inl rfl, x, h1, h2, rfl⟩
      · exact ⟨y', Or.inr hy', x, h1, h2, rfl⟩
    · rintro ⟨y', (rfl | hy'), x, h1, h2, rfl⟩
      · exact Or.inl ⟨x, ⟨h1, h2⟩, rfl⟩
      · exact Or.inr ⟨y', hy', x, h1, h2, rfl⟩

theorem foldl_merge_bounds (init : ℚ × ℚ) (l : List (ℚ × ℚ)) :
    ((l.foldl mergeMinMax init).1 ≤ init.1 ∧ init.2 ≤ (l.foldl mergeMinMax init).2) ∧
      (∀ e ∈ l, (l.foldl mergeMinMax init).1 ≤ e.1 ∧ e.2 ≤ (l.foldl mergeMinMax init).2) ∧
      ((l.foldl mergeMinMax init).1 = init.1 ∨ ∃ e ∈ l, (l.foldl mergeMinMax init).1 = e.1) ∧
      ((l.foldl mergeMinMax init).2 = init.2 ∨ ∃ e ∈ l, (l.foldl mergeMinMax init).2 = e.2) := by
  induction l generalizing init with
  | nil => simp
  | cons x xs ih =>
    obtain ⟨⟨h1, h2⟩, h3, h4, h5⟩ := ih (mergeMinMax init x)
    simp only [List.foldl_cons, List.mem_cons]
    have m1 : (mergeMinMax init x).1 = min init.1 x.1 := rfl
    have m2 : (mergeMinMax init x).2 = max init.2 x.2 := rfl
    rw [m1] at h1 h4
    rw [m2] at h2 h5
    refine ⟨⟨h1.trans (min_le_left _ _), (le_max_left _ _).trans h2⟩, ?_, ?_, ?_⟩
    · rintro e (rfl | he)
      · exact ⟨h1.trans (min_le_right _ _), (le_max_right _ _).trans h2⟩
      · exact h3 e he
    · rcases h4 with h | ⟨e, he, h⟩
      · rcases min_choice init.1 x.1 with hm | hm
        · exact Or.inl (h.trans hm)
        · exact Or.inr ⟨x, Or.inl rfl, h.trans hm⟩
      · exact Or.inr ⟨e, Or.inr he, h⟩
    · rcases h5 with h | ⟨e, he, h⟩
      · rcases max_choice init.2 x.2 with hm | hm
        · exact Or.inl (h.trans hm)
        · exact Or.inr ⟨x, Or.inl rfl, h.trans hm⟩
      · exact Or.inr ⟨e, Or.inr he, h⟩

theorem singleVminVmax_eq (image : Image) (channels : DisplayChannels) (roi : RectI) :
    singleVminVmax image channels roi =
      (regionValues image channels roi.x1 roi.x2 (intRange roi.y1 roi.y2)).foldl mergeMinMax
        ((INT_MAX : ℚ), (INT_MIN : ℚ)) := by
  unfold singleVminVmax
  rw [findAutoContrastVminVmax_eq, localVminVmax_eq, merge_foldl, mergeMinMax_self]

/-- C12: on a one-pixel region whose pixel is `3 * 10 ^ 9` in red, green and
blue, RGB mode, the estimator leaves `vmin = INT_MAX = 2147483647`, which is not the minimum
`3 * 10 ^ 9` of the per-pixel scalar over the region. -/
theorem autoContrast_vmin_stuck_at_INT_MAX :
    singleVminVmax imageBright DisplayChannels.RGB roiOne = (2147483647, 3000000000) ∧
      (pixelMiniMaxi DisplayChannels.RGB (imageBright.pixelAt 0 0)).1 = 3000000000 ∧
      (singleVminVmax imageBright DisplayChannels.RGB roiOne).1 ≠
        (pixelMiniMaxi DisplayChannels.RGB (imageBright.pixelAt 0 0)).1 := by
  have h : singleVminVmax imageBright DisplayChannels.RGB roiOne =
      (2147483647, 3000000000) := by
    rw [singleVminVmax_eq]
    have hr : intRange roiOne.y1 roiOne.y2 = [0] := by decide
    have hc : intRange roiOne.x1 roiOne.x2 = [0] := by decide
    simp only [hr, regionValues, hc, List.map_cons, List.map_nil, List.append_nil,
      List.foldl_cons, List.foldl_nil, mergeMinMax, pixelMiniMaxi, imageBright, INT_MAX,
      INT_MIN]
    norm_num
  have h2 : (pixelMiniMaxi DisplayChannels.RGB (imageBright.pixelAt 0 0)).1 = 3000000000 := by
    simp [pixelMiniMaxi, imageBright]
  refine ⟨h, h2, ?_⟩
  rw [h, h2]
  norm_num

/-- What the estimator computes: after it has run on a region from the initial accumulator
`(INT_MAX, INT_MIN)`, `vmin` is the minimum of `INT_MAX` and of the per-pixel scalar over the
region's pixels, and `vmax` the maximum of `INT_MIN` and of that scalar: `vmin` is a lower
bound and `vmax` an upper bound of the scalar, `vmin` is `INT_MAX` or the scalar of a pixel of
the region, `vmax` is `INT_MIN` or the scalar of a pixel; so `vmin` is the minimum over the
region as soon as one pixel's scalar is at most `INT_MAX`, and `vmax` the maximum as soon as
one is at least `INT_MIN`. The scalar is the min (resp. max) of R, G, B in RGB mode,
`0.299 R + 0.587 G + 0.114 B` in LUMINANCE mode and the selected component otherwise. -/
theorem autoContrast_estimate_is_clamped_min_max (image : Image) (channels : DisplayChannels)
    (roi : RectI) :
    ((singleVminVmax image channels roi).1 ≤ INT_MAX ∧
        (INT_MIN : ℚ) ≤ (singleVminVmax image channels roi).2) ∧
      (∀ x y, roi.x1 ≤ x → x < roi.x2 → roi.y1 ≤ y → y < roi.y2 →
        (singleVminVmax image channels roi).1 ≤
            (pixelMiniMaxi channels (image.pixelAt x y)).1 ∧
          (pixelMiniMaxi channels (image.pixelAt x y)).2 ≤
            (singleVminVmax image channels roi).2) ∧
      ((∃ x y, roi.x1 ≤ x ∧ x < roi.x2 ∧ roi.y1 ≤ y ∧ y < roi.y2 ∧
            (pixelMiniMaxi channels (image.pixelAt x y)).1 ≤ INT_MAX) →
        ∃ x y, roi.x1 ≤ x ∧ x < roi.x2 ∧ roi.y1 ≤ y ∧ y < roi.y2 ∧
          (singleVminVmax image channels roi).1 =
            (pixelMiniMaxi channels (image.pixelAt x y)).1) ∧
      ((∃ x y, roi.x1 ≤ x ∧ x < roi.x2 ∧ roi.y1 ≤ y ∧ y < roi.y2 ∧
            (INT_MIN : ℚ) ≤ (pixelMiniMaxi channels (image.pixelAt x y)).2) →
        ∃ x y, roi.x1 ≤ x ∧ x < roi.x2 ∧ roi.y1 ≤ y ∧ y < roi.y2 ∧
          (singleVminVmax image channels roi).2 =
            (pixelMiniMaxi channels (image.pixelAt x y)).2) ∧
      (∀ px : Pixel,
        pixelMiniMaxi DisplayChannels.RGB px =
            (min (min px.r px.g) px.b, max (max px.r px.g) px.b) ∧
          pixelMiniMaxi DisplayChannels.LUMINANCE px =
            (299 / 1000 * px.r + 587 / 1000 * px.g + 114 / 1000 * px.b,
              299 / 1000 * px.r + 587 / 1000 * px.g + 114 / 1000 * px.b) ∧
          pixelMiniMaxi DisplayChannels.R px = (px.r, px.r) ∧
          pixelMiniMaxi DisplayChannels.G px = (px.g, px.g) ∧
          pixelMiniMaxi DisplayChannels.B px = (px.b, px.b) ∧
          pixelMiniMaxi DisplayChannels.A px = (px.a, px.a)) := by
  rw [singleVminVmax_eq]
  obtain ⟨h0, hb, hmin, hmax⟩ := foldl_merge_bounds ((INT_MAX : ℚ), (INT_MIN : ℚ))
    (regionValues image channels roi.x1 roi.x2 (intRange roi.y1 roi.y2))
  have hmem : ∀ x y, roi.x1 ≤ x → x < roi.x2 → roi.y1 ≤ y → y < roi.y2 →
      pixelMiniMaxi channels (image.pixelAt x y) ∈
        regionValues image channels roi.x1 roi.x2 (intRange roi.y1 roi.y2) := by
    intro x y h1 h2 h3 h4
    rw [mem_regionValues]
    exact ⟨y, (mem_intRange _ _ _).2 ⟨h3, h4⟩, x, h1, h2, rfl⟩
  refine ⟨h0, ?_, ?_, ?_, ?_⟩
  · intro x y h1 h2 h3 h4
    exact hb _ (hmem x y h1 h2 h3 h4)
  · rintro ⟨x, y, h1, h2, h3, h4, hle⟩
    rcases hmin with h | ⟨e, he, h⟩
    · refine ⟨x, y, h1, h2, h3, h4, le_antisymm (hb _ (hmem x y h1 h2 h3 h4)).1 ?_⟩
      rw [h]
      exact hle
    · rw [mem_regionValues] at he
      obtain ⟨y', hy', x', hx1, hx2, rfl⟩ := he
      rw [mem_intRange] at hy'
      exact ⟨x', y', hx1, hx2, hy'.1, hy'.2, h⟩
  · rintro ⟨x, y, h1, h2, h3, h4, hle⟩
    rcases hmax with h | ⟨e, he, h⟩
    · refine ⟨x, y, h1, h2, h3, h4, le_antisymm ?_ (hb _ (hmem x y h1 h2 h3 h4)).2⟩
      rw [h]
      exact hle
    · rw [mem_regionValues] at he
      obtain ⟨y', hy', x', hx1, hx2, rfl⟩ := he
      rw [mem_intRange] at hy'
      exact ⟨x', y', hx1, hx2, hy'.1, hy'.2, h⟩
  · intro px
    exact ⟨rfl, rfl, rfl, rfl, rfl, rfl⟩

/-- An instance: on the one-pixel region of the black image `imageA`, RGB mode, the pixel's
scalar 0 is below `INT_MAX`, and `vmin` is the scalar of a pixel of the region. -/
theorem autoContrast_estimate_is_clamped_min_max_witness :
    ∃ x y, roiOne.x1 ≤ x ∧ x < roiOne.x2 ∧ roiOne.y1 ≤ y ∧ y < roiOne.y2 ∧
      (singleVminVmax imageA DisplayChannels.RGB roiOne).1 =
        (pixelMiniMaxi DisplayChannels.RGB (imageA.pixelAt x y)).1 :=
  (autoContrast_estimate_is_clamped_min_max imageA DisplayChannels.RGB roiOne).2.2.1
    ⟨0, 0, by decide, by decide, by decide, by decide, by
      simp [pixelMiniMaxi, imageA, INT_MAX]⟩

/-! ## The degenerate tile -/

theorem sourceTrace_isSource (rs : Resolve) (stale cachedIn : Bool) :
    ∀ ev ∈ sourceTrace rs stale cachedIn, ev.isSource = true := by
  intro ev hev
  unfold sourceTrace at hev
  simp only [List.mem_append, List.mem_singleton, List.mem_map] at hev
  rcases hev with ((h | ⟨k, -, h⟩) | h) | h
  · subst h; rfl
  · subst h; rfl
  · split_ifs at h
    · simp only [List.mem_singleton] at h
      subst h; rfl
    · cases h
  · split_ifs at h
    · cases h
    · simp only [List.mem_singleton] at h
      subst h; rfl

/-- The shape of a pass up to the scheduling step, with the trace of the source stage. -/
theorem renderViewer_source_spec (env : Env) (time : ℤ) (single : Bool) (fuel : ℕ)
    (st : ViewerState) (p : Pass) (h : renderViewer env time single fuel st = some p) :
    (env.abortedAtEntry = true ∧
        p = { outcome := Outcome.returned Status.StatFailed, state := st
              trace := [Event.aborted AbortPoll.atEntry true] }) ∨
      (env.abortedAtEntry = false ∧
        ∃ rs st0, st0.textureCache = st.textureCache ∧
          resolveIdentity env.graph env.imageCache env.activeInputToRender time
            (if env.viewsCount > 0 then env.currentView else 0) st.forceRender fuel = some rs ∧
          (p = { outcome := Outcome.returned Status.StatFailed, state := st0
                 trace := sourceTrace rs (isStaleProjectFormat env.dispW rs)
                   (rs.isInputImgCached && !isStaleProjectFormat env.dispW rs) } ∨
            ∃ rod b,
              resolveRoD env rs (rs.isInputImgCached && !isStaleProjectFormat env.dispW rs)
                  { st with forceRender := false } = some (rod, b, st0) ∧
              scheduleStage env time (if env.viewsCount > 0 then env.currentView else 0) single
                fuel st0
                (sourceTrace rs (isStaleProjectFormat env.dispW rs)
                  (rs.isInputImgCached && !isStaleProjectFormat env.dispW rs))
                st.forceRender (rs.isInputImgCached && !isStaleProjectFormat env.dispW rs) rod
                = some p)) := by
  unfold renderViewer at h
  split at h
  · left
    simp only [Option.some.injEq] at h
    exact ⟨by assumption, h.symm⟩
  · right
    rename_i hab
    refine ⟨by simpa using hab, ?_⟩
    simp only at h
    split at h
    · cases h
    · rename_i rs hrs
      split at h
      · simp only [Option.some.injEq] at h
        exact ⟨rs, { st with forceRender := false }, rfl, hrs, Or.inl h.symm⟩
      · rename_i rod b st0 hr
        exact ⟨rs, st0, resolveRoD_textureCache _ _ _ { st with forceRender := false } _ _ _ hr,
          hrs, Or.inr ⟨rod, b, hr, h⟩⟩

/-- Every event a pass adds from the texture-cache lookup on is a frame event. -/
theorem frameStage_trace (env : Env) (time view : ℤ) (single : Bool) (fuel : ℕ)
    (st : ViewerState) (tr : List Event) (force cachedIn : Bool) (rod roi : RectI)
    (sch : Scheduled) (p : Pass)
    (h : frameStage env time view single fuel st tr force cachedIn rod roi sch = some p) :
    ∀ ev ∈ p.trace, ev ∈ tr ∨ ev.isFrame = true := by
  obtain ⟨st0, tr0, key, -, ht0, hcase⟩ := frameStage_spec _ _ _ _ _ _ _ _ _ _ _ _ _ h
  have h0 : ∀ ev ∈ tr0, ev ∈ tr ∨ ev.isFrame = true := by
    intro ev hev
    rcases ht0 _ hev with h | h
    · exact Or.inl h
    · subst h; exact Or.inr rfl
  have hpub : ∀ st1 tr1, (∀ ev ∈ tr1, ev ∈ tr ∨ ev.isFrame = true) →
      ∀ ev ∈ (publish env single st1 tr1).trace, ev ∈ tr ∨ ev.isFrame = true := by
    intro st1 tr1 h1 ev hev
    rcases (publish_spec env single st1 tr1).2 with ⟨-, ht⟩ | ⟨-, ht⟩
    · rw [ht] at hev
      exact h1 _ hev
    · rcases ht _ hev with h | h | h | h
      · exact h1 _ h
      · subst h; exact Or.inr rfl
      · subst h; exact Or.inr rfl
      · subst h; exact Or.inr rfl
  have hmiss : ∀ step, renderMiss env single fuel st0 tr0 force cachedIn rod roi
      sch.texRectClipped key = some step →
      (∀ q, step = Step.finished q → ∀ ev ∈ q.trace, ev ∈ tr ∨ ev.isFrame = true) ∧
      (∀ st1 tr1, step = Step.continues st1 tr1 →
        ∀ ev ∈ tr1, ev ∈ tr ∨ ev.isFrame = true) := by
    intro step hs
    obtain ⟨st2, tr2, rect2, -, ht2, hs2⟩ := renderMiss_spec _ _ _ _ _ _ _ _ _ _ _ _ hs
    have h2 : ∀ ev ∈ tr2, ev ∈ tr ∨ ev.isFrame = true := by
      intro ev hev
      rcases ht2 _ hev with h | h | h | h
      · rcases (allocateBuffer_spec env st0 tr0 force key).1 _ h with h | h | ⟨n, h⟩ | ⟨h, -⟩
        · exact h0 _ h
        · subst h; exact Or.inr rfl
        · subst h; exact Or.inr rfl
        · subst h; exact Or.inr rfl
      · subst h; exact Or.inr rfl
      · subst h; exact Or.inr rfl
      · subst h; exact Or.inr rfl
    rcases hs2 with rfl | hs2
    · exact ⟨(fun q hq ev hev => by cases hq; exact h2 _ hev), (fun st1 tr1 hq => by cases hq)⟩
    · rcases afterRender_spec _ _ _ _ _ _ _ _ _ hs2 with ⟨q, rfl, -, ho⟩ | ⟨st1, tr1, rfl, -, ht⟩
      · refine ⟨?_, (fun st1 tr1 hq => by cases hq)⟩
        intro q' hq ev hev
        cases hq
        rcases ho with ⟨-, -, ht⟩ | ⟨-, ht⟩
        · rcases ht _ hev with h | h
          · exact h2 _ h
          · subst h; exact Or.inr rfl
        · rcases ht _ hev with h | h | ⟨y, h⟩ | ⟨b, h⟩ | ⟨b, h⟩
          · exact h2 _ h
          · subst h; exact Or.inr rfl
          · subst h; exact Or.inr rfl
          · subst h; exact Or.inr rfl
          · subst h; exact Or.inr rfl
      · refine ⟨(fun q hq => by cases hq), ?_⟩
        intro st1' tr1' hq ev hev
        cases hq
        rcases ht _ hev with h | ⟨y, h⟩ | h | h | h
        · exact h2 _ h
        · subst h; exact Or.inr rfl
        · subst h; exact Or.inr rfl
        · subst h; exact Or.inr rfl
        · subst h; exact Or.inr rfl
  rcases hcase with rfl | hm' | ⟨st1, tr1, hm', rfl⟩
  · exact hpub _ _ h0
  · exact (hmiss _ hm').1 p rfl
  · exact hpub _ _ ((hmiss _ hm').2 st1 tr1 rfl)

theorem scheduleTexture_eq_none_iff (rod roi : RectI) (p ts : ℚ) :
    scheduleTexture rod roi p ts = none ↔
      (computeTexRect roi p ts).width = 0 ∨ (computeTexRect roi p ts).height = 0 := by
  unfold scheduleTexture
  simp only
  split_ifs with h
  · simp [h]
  · simp [h]

theorem scheduleStage_degenerate (env : Env) (time view : ℤ) (single : Bool) (fuel : ℕ)
    (st : ViewerState) (tr : List Event) (force cachedIn : Bool) (rod : RectI)
    (h : scheduleTexture rod (env.imageRectangleDisplayed rod) (closestPowerOf2 env.zoomFactor)
      (tileSize env.viewerTilesPowerOf2) = none) :
    scheduleStage env time view single fuel st tr force cachedIn rod =
      some { outcome := Outcome.returned Status.StatOK, state := st
             trace := tr ++ [Event.rodChanged rod] } := by
  unfold scheduleStage
  simp only
  split
  · rfl
  · rename_i s h2
    rw [h] at h2
    cases h2

/-- C17: when a pass reaches the scheduling step with the RoD `rod` and the tile rectangle
computed there has zero width or zero height, `renderViewer` returns `StatOK`, leaves the
texture cache as it was, and its calls are those of the source stage followed by
`rodChanged`: no buffer is allocated, no texture-cache entry is looked up or created, the
upstream render is not called and nothing is handed to the display. -/
theorem degenerate_tile_returns_ok (env : Env) (time : ℤ) (singleThreaded : Bool) (fuel : ℕ)
    (st : ViewerState) (p : Pass) (rod : RectI)
    (h : renderViewer env time singleThreaded fuel st = some p)
    (hr : Event.rodChanged rod ∈ p.trace)
    (hd : (computeTexRect (env.imageRectangleDisplayed rod) (closestPowerOf2 env.zoomFactor)
          (tileSize env.viewerTilesPowerOf2)).width = 0 ∨
        (computeTexRect (env.imageRectangleDisplayed rod) (closestPowerOf2 env.zoomFactor)
          (tileSize env.viewerTilesPowerOf2)).height = 0) :
    p.outcome = Outcome.returned Status.StatOK ∧
      p.state.textureCache = st.textureCache ∧
      (∀ ev ∈ p.trace, ev.isSource = true ∨ ev = Event.rodChanged rod) ∧
      (∀ n, Event.mallocBuffer n ∉ p.trace) ∧
      (∀ k, Event.getTextureFromCache k ∉ p.trace) ∧
      (∀ k, Event.getTextureFromCacheOrCreate k ∉ p.trace) ∧
      (∀ r, Event.renderRoI r ∉ p.trace) ∧
      Event.updateViewer ∉ p.trace ∧ Event.doUpdateViewer ∉ p.trace := by
  have key : p.outcome = Outcome.returned Status.StatOK ∧
      p.state.textureCache = st.textureCache ∧
      (∀ ev ∈ p.trace, ev.isSource = true ∨ ev = Event.rodChanged rod) := by
    rcases renderViewer_source_spec _ _ _ _ _ _ h with
      ⟨-, rfl⟩ | ⟨-, rs, st0, hc, -, rfl | ⟨rod', b, -, hs⟩⟩
    · simp at hr
    · have := sourceTrace_isSource _ _ _ _ hr
      simp [Event.isSource] at this
    · have hsrc := sourceTrace_isSource rs (isStaleProjectFormat env.dispW rs)
        (rs.isInputImgCached && !isStaleProjectFormat env.dispW rs)
      cases hsch : scheduleTexture rod' (env.imageRectangleDisplayed rod')
          (closestPowerOf2 env.zoomFactor) (tileSize env.viewerTilesPowerOf2) with
      | none =>
        rw [scheduleStage_degenerate _ _ _ _ _ _ _ _ _ _ hsch] at hs
        simp only [Option.some.injEq] at hs
        subst hs
        simp only [List.mem_append, List.mem_singleton] at hr
        rcases hr with hr | hr
        · have := hsrc _ hr
          simp [Event.isSource] at this
        · simp only [Event.rodChanged.injEq] at hr
          subst hr
          refine ⟨rfl, hc, ?_⟩
          intro ev hev
          simp only [List.mem_append, List.mem_singleton] at hev
          rcases hev with hev | hev
          · exact Or.inl (hsrc _ hev)
          · exact Or.inr hev
      | some sch =>
        exfalso
        rw [scheduleStage_scheduled _ _ _ _ _ _ _ _ _ _ sch hsch] at hs
        rcases frameStage_trace _ _ _ _ _ _ _ _ _ _ _ _ _ hs _ hr with hm | hm
        · simp only [List.mem_append, List.mem_singleton] at hm
          rcases hm with hm | hm
          · have := hsrc _ hm
            simp [Event.isSource] at this
          · simp only [Event.rodChanged.injEq] at hm
            subst hm
            have hn := (scheduleTexture_eq_none_iff rod _ _ _).2 hd
            rw [hn] at hsch
            cases hsch
        · simp [Event.isFrame] at hm
  obtain ⟨h1, h2, h3⟩ := key
  refine ⟨h1, h2, h3, ?_, ?_, ?_, ?_, ?_, ?_⟩
  · intro n hm
    rcases h3 _ hm with h | h
    · simp [Event.isSource] at h
    · cases h
  · intro k hm
    rcases h3 _ hm with h | h
    · simp [Event.isSource] at h
    · cases h
  · intro k hm
    rcases h3 _ hm with h | h
    · simp [Event.isSource] at h
    · cases h
  · intro r hm
    rcases h3 _ hm with h | h
    · simp [Event.isSource] at h
    · cases h
  · intro hm
    rcases h3 _ hm with h | h
    · simp [Event.isSource] at h
    · cases h
  · intro hm
    rcases h3 _ hm with h | h
    · simp [Event.isSource] at h
    · cases h

theorem computeTexRect_empty :
    computeTexRect { x1 := 0, y1 := 0, x2 := 0, y2 := 0 } (closestPowerOf2 1) (tileSize 4) =
      { x1 := 0, y1 := 0, x2 := 0, y2 := 0 } := by
  have h := computeTexRect_pow { x1 := 0, y1 := 0, x2 := 0, y2 := 0 } 0 4
  rw [pow_zero] at h
  rw [closestPowerOf2_one, h]
  simp

theorem pass_envDegenerate :
    (renderViewer envDegenerate 5 true 0 stateA).map Pass.summary =
      some (Outcome.returned Status.StatOK,
        [Event.aborted AbortPoll.atEntry false,
          Event.getImageFromCache { hash := 10, time := 5, view := 0 },
          Event.getRegionOfDefinition, Event.rodChanged rodA], false) := by
  rw [renderViewer_uncached envDegenerate 5 true 0 stateA rodA false rfl rfl rfl rfl]
  have hn : scheduleTexture (envDegenerate.clipInfiniteRod rodA).1
      (envDegenerate.imageRectangleDisplayed (envDegenerate.clipInfiniteRod rodA).1)
      (closestPowerOf2 envDegenerate.zoomFactor) (tileSize envDegenerate.viewerTilesPowerOf2)
      = none := by
    rw [scheduleTexture_eq_none_iff]
    left
    show (computeTexRect { x1 := 0, y1 := 0, x2 := 0, y2 := 0 } (closestPowerOf2 1)
      (tileSize 4)).width = 0
    rw [computeTexRect_empty]
    rfl
  rw [scheduleStage_degenerate _ _ _ _ _ _ _ _ _ _ hn]
  rfl

/-- C17, witness: the pass of Scenario A with an empty displayed rectangle returns `StatOK`
after `rodChanged`, with no call on the texture cache, the upstream render or the display. -/
theorem degenerate_tile_returns_ok_witness :
    ∃ p, renderViewer envDegenerate 5 true 0 stateA = some p ∧
      Event.rodChanged rodA ∈ p.trace ∧ p.outcome = Outcome.returned Status.StatOK ∧
      (∀ r, Event.renderRoI r ∉ p.trace) := by
  obtain ⟨p, hp, -, ht, -⟩ := summary_of_map _ _ _ _ pass_envDegenerate
  have hr : Event.rodChanged rodA ∈ p.trace := by
    rw [ht]
    decide
  have hd : (computeTexRect (envDegenerate.imageRectangleDisplayed rodA)
        (closestPowerOf2 envDegenerate.zoomFactor)
        (tileSize envDegenerate.viewerTilesPowerOf2)).width = 0 ∨
      (computeTexRect (envDegenerate.imageRectangleDisplayed rodA)
        (closestPowerOf2 envDegenerate.zoomFactor)
        (tileSize envDegenerate.viewerTilesPowerOf2)).height = 0 := by
    left
    show (computeTexRect { x1 := 0, y1 := 0, x2 := 0, y2 := 0 } (closestPowerOf2 1)
      (tileSize 4)).width = 0
    rw [computeTexRect_empty]
    rfl
  have hw := degenerate_tile_returns_ok envDegenerate 5 true 0 stateA p rodA hp hr hd
  exact ⟨p, hp, hr, hw.1, hw.2.2.2.2.2.2.1⟩

/-! ## The float path -/

theorem scanRowsLoop_spec (p yEnd : ℤ) (hp : 1 ≤ p) :
    ∀ (fuel : ℕ) (y d : ℤ), (yEnd - y).toNat ≤ fuel →
      ∃ n : ℕ, (∀ i : ℕ, i < n ↔ y + i * p < yEnd) ∧
        scanRowsLoop p yEnd fuel y d =
          some ((List.range n).map (fun (i : ℕ) => (y + i * p, d + i))) := by
  intro fuel
  induction fuel with
  | zero =>
    intro y d hf
    have hy : yEnd ≤ y := by omega
    refine ⟨0, ?_, ?_⟩
    · intro i
      have : (0 : ℤ) ≤ i * p := by positivity
      constructor
      · intro h; omega
      · intro h; omega
    · simp only [scanRowsLoop]
      rw [if_neg (by omega)]
      rfl
  | succ fuel ih =>
    intro y d hf
    by_cases hy : y < yEnd
    · obtain ⟨n, hn, hrun⟩ := ih (y + p) (d + 1) (by omega)
      refine ⟨n + 1, ?_, ?_⟩
      · intro i
        cases i with
        | zero => simp [hy]
        | succ k =>
          rw [Nat.succ_lt_succ_iff, hn k]
          push_cast
          constructor <;> intro h <;> linarith
      · simp only [scanRowsLoop]
        rw [if_pos hy, hrun, List.range_succ_eq_map]
        simp only [Option.map_some', List.map_cons, List.map_map, Nat.cast_zero, zero_mul,
          add_zero]
        congr 2
        apply List.map_congr_left
        intro i _
        simp only [Function.comp, Nat.cast_succ]
        refine Prod.ext ?_ ?_ <;> simp only <;> ring
    · refine ⟨0, ?_, ?_⟩
      · intro i
        have : (0 : ℤ) ≤ i * p := by positivity
        constructor
        · intro h; omega
        · intro h; omega
      · simp only [scanRowsLoop]
        rw [if_neg hy]
        rfl

theorem fillRow32Loop_spec (inputImage : Image) (y x2 p : ℤ) (rO gO bO : ℕ) (lum : Bool)
    (hp : 1 ≤ p) :
    ∀ (fuel : ℕ) (x srcX dst : ℤ), (x2 - x).toNat ≤ fuel →
      ∃ m : ℕ, (∀ j : ℕ, j < m ↔ x + j * p < x2) ∧
        fillRow32Loop inputImage y x2 p rO gO bO lum fuel x srcX dst =
          some ((List.range m).map (fun (j : ℕ) =>
            (dst + j, texel32 (inputImage.pixelAt (srcX + j * p) y) rO gO bO lum))) := by
  intro fuel
  induction fuel with
  | zero =>
    intro x srcX dst hf
    refine ⟨0, ?_, ?_⟩
    · intro j
      have : (0 : ℤ) ≤ j * p := by positivity
      constructor
      · intro h; omega
      · intro h; omega
    · simp only [fillRow32Loop]
      rw [if_neg (by omega)]
      rfl
  | succ fuel ih =>
    intro x srcX dst hf
    by_cases hx : x < x2
    · obtain ⟨m, hm, hrun⟩ := ih (x + p) (srcX + p) (dst + 1) (by omega)
      refine ⟨m + 1, ?_, ?_⟩
      · intro j
        cases j with
        | zero => simp [hx]
        | succ k =>
          rw [Nat.succ_lt_succ_iff, hm k]
          push_cast
          constructor <;> intro h <;> linarith
      · simp only [fillRow32Loop]
        rw [if_pos hx, hrun, List.range_succ_eq_map]
        simp only [Option.map_some', List.map_cons, List.map_map, Nat.cast_zero, zero_mul,
          add_zero]
        congr 2
        apply List.map_congr_left
        intro j _
        simp only [Function.comp, Nat.cast_succ]
        have e1 : dst + 1 + (j : ℤ) = dst + ((j : ℤ) + 1) := by ring
        have e2 : srcX + p + (j : ℤ) * p = srcX + ((j : ℤ) + 1) * p := by ring
        rw [e1, e2]
    · refine ⟨0, ?_, ?_⟩
      · intro j
        have : (0 : ℤ) ≤ j * p := by positivity
        constructor
        · intro h; omega
        · intro h; omega
      · simp only [fillRow32Loop]
        rw [if_neg hx]
        rfl

theorem bound_unique {P : ℕ → Prop} {m m' : ℕ} (h : ∀ j, j < m ↔ P j) (h' : ∀ j, j < m' ↔ P j) :
    m = m' := by
  rcases lt_trichotomy m m' with hlt | heq | hgt
  · exact absurd ((h m).2 ((h' m).1 hlt)) (lt_irrefl _)
  · exact heq
  · exact absurd ((h' m').2 ((h m').1 hgt)) (lt_irrefl _)

theorem fillRows32_spec (inputImage : Image) (texRect : TextureRect) (p : ℤ) (rO gO bO : ℕ)
    (lum : Bool) (output : ℤ) (fuel m : ℕ) (hp : 1 ≤ p)
    (hf : (texRect.x2 - texRect.x1).toNat ≤ fuel)
    (hm : ∀ j : ℕ, j < m ↔ texRect.x1 + j * p < texRect.x2) (rows : List (ℤ × ℤ)) :
    fillRows32 inputImage texRect p rO gO bO lum output fuel rows =
      some (rows.flatMap (fun row => (List.range m).map (fun (j : ℕ) =>
        (output + row.2 * texRect.w + j,
          texel32 (inputImage.pixelAt (texRect.x1 + j * p) row.1) rO gO bO lum)))) := by
  induction rows with
  | nil => rfl
  | cons row rest ih =>
    obtain ⟨m', hm', hrun⟩ := fillRow32Loop_spec inputImage row.1 texRect.x2 p rO gO bO lum hp
      fuel texRect.x1 texRect.x1 (output + row.2 * texRect.w) hf
    have e : m' = m := bound_unique hm' hm
    subst e
    simp only [fillRows32, hrun, ih, List.flatMap_cons]

/-- C19: for a row band `yRange`, a step `p = closestPowerOf2 ≥ 1` and enough fuel for the
two loops, `scaleToTexture32bits` returns; its writes are, for the destination rows
`i = 0, 1, ...` with `yRange.first + i * p < yRange.second` and the columns `j = 0, 1, ...`
with `x1 + j * p < x2`, in this order, the destination pixel `j` of row `i` of the band (pixel
`(base + i) * w + j` of the buffer, `base` being the band's first destination row), and in a
non-luminance mode the four floats written there are `src[rOffset]`, `src[gOffset]`,
`src[bOffset]`, `1` of the source pixel at `(x1 + j * p, yRange.first + i * p)`. The writes are
the same whatever the exposure, the offset and the other settings of the pass are. -/
theorem scaleToTexture32bits_writes (infos : InterThreadInfos) (inputImage : Image)
    (yRange : ℤ × ℤ) (texRect : TextureRect) (p : ℤ) (rOffset gOffset bOffset : ℕ) (fuel : ℕ)
    (hp : 1 ≤ p) (hfy : (yRange.2 - yRange.1).toNat ≤ fuel)
    (hfx : (texRect.x2 - texRect.x1).toNat ≤ fuel) :
    ∃ n m : ℕ, (∀ i : ℕ, i < n ↔ yRange.1 + i * p < yRange.2) ∧
      (∀ j : ℕ, j < m ↔ texRect.x1 + j * p < texRect.x2) ∧
      scaleToTexture32bits infos inputImage yRange texRect p rOffset gOffset bOffset false fuel =
        some ((List.range n).flatMap (fun (i : ℕ) => (List.range m).map (fun (j : ℕ) =>
          ((Int.tdiv (yRange.1 - texRect.y1) p + i) * texRect.w + j,
            ({ r := (inputImage.pixelAt (texRect.x1 + j * p) (yRange.1 + i * p)).comp rOffset
               g := (inputImage.pixelAt (texRect.x1 + j * p) (yRange.1 + i * p)).comp gOffset
               b := (inputImage.pixelAt (texRect.x1 + j * p) (yRange.1 + i * p)).comp bOffset
               a := 1 } : Pixel))))) ∧
      ∀ infos' : InterThreadInfos,
        scaleToTexture32bits infos' inputImage yRange texRect p rOffset gOffset bOffset false
            fuel =
          scaleToTexture32bits infos inputImage yRange texRect p rOffset gOffset bOffset false
            fuel := by
  obtain ⟨n, hn, hrows⟩ := scanRowsLoop_spec p yRange.2 hp fuel yRange.1 0 hfy
  obtain ⟨m, hm, -⟩ := fillRow32Loop_spec inputImage yRange.1 texRect.x2 p rOffset gOffset
    bOffset false hp fuel texRect.x1 texRect.x1 0 hfx
  refine ⟨n, m, hn, hm, ?_, fun _ => rfl⟩
  simp only [scaleToTexture32bits, hrows]
  rw [fillRows32_spec inputImage texRect p rOffset gOffset bOffset false _ fuel m hp hfx hm]
  simp only [List.flatMap_map, texel32, zero_add, Bool.false_eq_true, if_false]
  congr 1
  apply List.flatMap_congr
  intro i _
  apply List.map_congr_left
  intro j _
  refine Prod.ext ?_ rfl
  simp only
  ring

/-- C19, witness: the band of rows 0 to 4 of `imageRamp` sampled every 2 pixels into
`texRectSmall`, RGB mode. -/
theorem scaleToTexture32bits_writes_witness :
    (1 : ℤ) ≤ 2 ∧
      ∃ n m : ℕ, (∀ i : ℕ, i < n ↔ (0 : ℤ) + i * 2 < 4) ∧
        (∀ j : ℕ, j < m ↔ texRectSmall.x1 + j * 2 < texRectSmall.x2) ∧
        scaleToTexture32bits stateA.interThreadInfos imageRamp (0, 4) texRectSmall 2 0 1 2 false
            4 =
          some ((List.range n).flatMap (fun (i : ℕ) => (List.range m).map (fun (j : ℕ) =>
            ((Int.tdiv (0 - texRectSmall.y1) 2 + i) * texRectSmall.w + j,
              ({ r := (imageRamp.pixelAt (texRectSmall.x1 + j * 2) (0 + i * 2)).comp 0
                 g := (imageRamp.pixelAt (texRectSmall.x1 + j * 2) (0 + i * 2)).comp 1
                 b := (imageRamp.pixelAt (texRectSmall.x1 + j * 2) (0 + i * 2)).comp 2
                 a := 1 } : Pixel))))) ∧
        ∀ infos' : InterThreadInfos,
          scaleToTexture32bits infos' imageRamp (0, 4) texRectSmall 2 0 1 2 false 4 =
            scaleToTexture32bits stateA.interThreadInfos imageRamp (0, 4) texRectSmall 2 0 1 2
              false 4 :=
  ⟨by decide,
    scaleToTexture32bits_writes stateA.interThreadInfos imageRamp (0, 4) texRectSmall 2 0 1 2 4
      (by decide) (by decide) (by decide)⟩

/-! ## Error diffusion in the 8-bit path -/

theorem and_0xff (e : ℕ) : e &&& 0xff = e % 256 :=
  Nat.and_pow_two_sub_one_eq_mod e 8

theorem errorUpdate_eq (e t : ℕ) (ht : t ≤ 0xFF00) : errorUpdate e t = e % 256 + t := by
  unfold errorUpdate
  rw [and_0xff]
  have := Nat.mod_lt e (show 0 < 256 by norm_num)
  apply Nat.mod_eq_of_lt
  omega

theorem emittedByte_eq (e : ℕ) (he : e < 0x10000) : emittedByte e = e / 256 := by
  unfold emittedByte
  rw [Nat.shiftRight_eq_div_pow]
  apply Nat.mod_eq_of_lt
  omega

theorem errorUpdate_lt (e t : ℕ) (ht : t ≤ 0xFF00) : errorUpdate e t < 0x10000 := by
  rw [errorUpdate_eq e t ht]
  have := Nat.mod_lt e (show 0 < 256 by norm_num)
  omega

theorem emittedByte_errorUpdate (e t : ℕ) (ht : t ≤ 0xFF00) :
    emittedByte (errorUpdate e t) = t >>> 8 ∨ emittedByte (errorUpdate e t) = (t >>> 8) + 1 := by
  rw [emittedByte_eq _ (errorUpdate_lt e t ht), errorUpdate_eq e t ht, Nat.shiftRight_eq_div_pow]
  have := Nat.mod_lt e (show 0 < 256 by norm_num)
  omega

theorem write_of_colorSpace (c : ScanLine8) (lut : ℚ → ℕ) (hc : c.colorSpace = some lut)
    (d s : ℤ) (er eg eb : ℕ) :
    c.write d s er eg eb =
      { dstIndex := d, srcIndex := s
        error_r := errorUpdate er (lut (c.value s).1)
        error_g := errorUpdate eg (lut (c.value s).2.1)
        error_b := errorUpdate eb (lut (c.value s).2.2)
        word := toBGRA (emittedByte (errorUpdate er (lut (c.value s).1)))
          (emittedByte (errorUpdate eg (lut (c.value s).2.1)))
          (emittedByte (errorUpdate eb (lut (c.value s).2.2))) 255 } := by
  simp only [ScanLine8.write, hc]

theorem walk8Loop_spec (c : ScanLine8) (lut : ℚ → ℕ) (hc : c.colorSpace = some lut)
    (hl : ∀ v, lut v ≤ 0xFF00) (backward : Bool) :
    ∀ (fuel : ℕ) (d s : ℤ) (er eg eb : ℕ),
      (if backward then d + 1 else c.texRect.w - d).toNat ≤ fuel →
      ∃ writes, walk8Loop c backward fuel d s er eg eb = some writes ∧
        writes.map (fun wr => (wr.error_r, emittedByte wr.error_r)) =
          specDiffuse er (writes.map (fun wr => lut (c.value wr.srcIndex).1)) ∧
        writes.map (fun wr => (wr.error_g, emittedByte wr.error_g)) =
          specDiffuse eg (writes.map (fun wr => lut (c.value wr.srcIndex).2.1)) ∧
        writes.map (fun wr => (wr.error_b, emittedByte wr.error_b)) =
          specDiffuse eb (writes.map (fun wr => lut (c.value wr.srcIndex).2.2)) ∧
        ∀ wr ∈ writes, ∃ er' eg' eb', wr = c.write wr.dstIndex wr.srcIndex er' eg' eb' := by
  intro fuel
  induction fuel with
  | zero =>
    intro d s er eg eb hf
    refine ⟨[], ?_, rfl, rfl, rfl, fun _ h => absurd h (List.not_mem_nil _)⟩
    simp only [walk8Loop]
    rw [if_neg]
    cases backward
    · simp only [Bool.false_eq_true, if_false] at hf
      omega
    · simp only [if_true] at hf
      omega
  | succ fuel ih =>
    intro d s er eg eb hf
    simp only [walk8Loop]
    by_cases h1 : d < c.texRect.w ∧ d ≥ 0
    · rw [if_pos h1]
      by_cases h2 : s ≥ c.texRect.x2 - c.texRect.x1
      · rw [if_pos h2]
        exact ⟨[], rfl, rfl, rfl, rfl, fun _ h => absurd h (List.not_mem_nil _)⟩
      · rw [if_neg h2]
        have hm : (if backward then (if backward then d - 1 else d + 1) + 1
            else c.texRect.w - (if backward then d - 1 else d + 1)).toNat ≤ fuel := by
          cases backward
          · simp only [Bool.false_eq_true, if_false] at hf ⊢
            omega
          · simp only [if_true] at hf ⊢
            omega
        obtain ⟨writes, hrun, hr, hg, hb, hw⟩ := ih (if backward then d - 1 else d + 1)
          (if backward then s - c.closestPowerOf2 else s + c.closestPowerOf2)
          (c.write d s er eg eb).error_r (c.write d s er eg eb).error_g
          (c.write d s er eg eb).error_b hm
        refine ⟨c.write d s er eg eb :: writes, ?_, ?_, ?_, ?_, ?_⟩
        · rw [hrun]
          rfl
        · simp only [List.map_cons, hr, specDiffuse]
          rw [write_of_colorSpace c lut hc]
          simp only
          rw [errorUpdate_eq _ _ (hl _), emittedByte_eq]
          have := Nat.mod_lt er (show 0 < 256 by norm_num)
          have := hl (c.value s).1
          omega
        · simp only [List.map_cons, hg, specDiffuse]
          rw [write_of_colorSpace c lut hc]
          simp only
          rw [errorUpdate_eq _ _ (hl _), emittedByte_eq]
          have := Nat.mod_lt eg (show 0 < 256 by norm_num)
          have := hl (c.value s).2.1
          omega
        · simp only [List.map_cons, hb, specDiffuse]
          rw [write_of_colorSpace c lut hc]
          simp only
          rw [errorUpdate_eq _ _ (hl _), emittedByte_eq]
          have := Nat.mod_lt eb (show 0 < 256 by norm_num)
          have := hl (c.value s).2.2
          omega
        · intro wr hwr
          rcases List.mem_cons.1 hwr with h | h
          · subst h
            refine ⟨er, eg, eb, ?_⟩
            simp only [write_of_colorSpace c lut hc]
          · exact hw wr h
    · rw [if_neg h1]
      exact ⟨[], rfl, rfl, rfl, rfl, fun _ h => absurd h (List.not_mem_nil _)⟩

theorem write_facts (c : ScanLine8) (lut : ℚ → ℕ) (hc : c.colorSpace = some lut)
    (hl : ∀ v, lut v ≤ 0xFF00) (wr : Write8)
    (h : ∃ er eg eb, wr = c.write wr.dstIndex wr.srcIndex er eg eb) :
    (wr.error_r < 0x10000 ∧ wr.error_g < 0x10000 ∧ wr.error_b < 0x10000) ∧
      (emittedByte wr.error_r = lut (c.value wr.srcIndex).1 >>> 8 ∨
        emittedByte wr.error_r = (lut (c.value wr.srcIndex).1 >>> 8) + 1) ∧
      (emittedByte wr.error_g = lut (c.value wr.srcIndex).2.1 >>> 8 ∨
        emittedByte wr.error_g = (lut (c.value wr.srcIndex).2.1 >>> 8) + 1) ∧
      (emittedByte wr.error_b = lut (c.value wr.srcIndex).2.2 >>> 8 ∨
        emittedByte wr.error_b = (lut (c.value wr.srcIndex).2.2 >>> 8) + 1) ∧
      wr.word =
        toBGRA (emittedByte wr.error_r) (emittedByte wr.error_g) (emittedByte wr.error_b) 255 := by
  obtain ⟨er, eg, eb, h⟩ := h
  rw [write_of_colorSpace c lut hc] at h
  have hr : wr.error_r = errorUpdate er (lut (c.value wr.srcIndex).1) := by rw [h]
  have hg : wr.error_g = errorUpdate eg (lut (c.value wr.srcIndex).2.1) := by rw [h]
  have hb : wr.error_b = errorUpdate eb (lut (c.value wr.srcIndex).2.2) := by rw [h]
  have hw : wr.word = toBGRA (emittedByte (errorUpdate er (lut (c.value wr.srcIndex).1)))
      (emittedByte (errorUpdate eg (lut (c.value wr.srcIndex).2.1)))
      (emittedByte (errorUpdate eb (lut (c.value wr.srcIndex).2.2))) 255 := by rw [h]
  rw [hr, hg, hb, hw]
  exact ⟨⟨errorUpdate_lt _ _ (hl _), errorUpdate_lt _ _ (hl _), errorUpdate_lt _ _ (hl _)⟩,
    emittedByte_errorUpdate _ _ (hl _), emittedByte_errorUpdate _ _ (hl _),
    emittedByte_errorUpdate _ _ (hl _), rfl⟩

theorem walk8_measure (c : ScanLine8) (backward : Bool) (start : ℤ) (fuel : ℕ)
    (hf : (if backward then start else c.texRect.w - start).toNat ≤ fuel) :
    (if backward then (if backward then start - 1 else start) + 1
      else c.texRect.w - (if backward then start - 1 else start)).toNat ≤ fuel := by
  cases backward
  · simpa using hf
  · simpa using hf

theorem lutC_le (v : ℚ) : lutC v ≤ 0xFF00 := by
  unfold lutC
  split_ifs <;> norm_num

/-- C20: in the 8-bit path with a color transform `lut` whose values are all at most `0xFF00`,
one direction of a scan-line returns once the fuel covers the destination indices left in
that direction. For each channel the accumulators and emitted bytes of its writes are those
of the error diffusion started at `0x80`: each accumulator is `(previous & 0xFF) + t`, `t`
being the transform's value for the pixel, and the byte is the accumulator's top byte. Every
accumulator is below `0x10000`, every emitted byte is `t >> 8` or `(t >> 8) + 1`, and the word
stored is `toBGRA` of the three bytes and 255. -/
theorem walk8_error_diffusion (c : ScanLine8) (lut : ℚ → ℕ) (hc : c.colorSpace = some lut)
    (hl : ∀ v, lut v ≤ 0xFF00) (backward : Bool) (start : ℤ) (fuel : ℕ)
    (hf : (if backward then start else c.texRect.w - start).toNat ≤ fuel) :
    ∃ writes, walk8 c backward start fuel = some writes ∧
      writes.map (fun wr => (wr.error_r, emittedByte wr.error_r)) =
        specDiffuse 0x80 (writes.map (fun wr => lut (c.value wr.srcIndex).1)) ∧
      writes.map (fun wr => (wr.error_g, emittedByte wr.error_g)) =
        specDiffuse 0x80 (writes.map (fun wr => lut (c.value wr.srcIndex).2.1)) ∧
      writes.map (fun wr => (wr.error_b, emittedByte wr.error_b)) =
        specDiffuse 0x80 (writes.map (fun wr => lut (c.value wr.srcIndex).2.2)) ∧
      ∀ wr ∈ writes,
        (wr.error_r < 0x10000 ∧ wr.error_g < 0x10000 ∧ wr.error_b < 0x10000) ∧
          (emittedByte wr.error_r = lut (c.value wr.srcIndex).1 >>> 8 ∨
            emittedByte wr.error_r = (lut (c.value wr.srcIndex).1 >>> 8) + 1) ∧
          (emittedByte wr.error_g = lut (c.value wr.srcIndex).2.1 >>> 8 ∨
            emittedByte wr.error_g = (lut (c.value wr.srcIndex).2.1 >>> 8) + 1) ∧
          (emittedByte wr.error_b = lut (c.value wr.srcIndex).2.2 >>> 8 ∨
            emittedByte wr.error_b = (lut (c.value wr.srcIndex).2.2 >>> 8) + 1) ∧
          wr.word =
            toBGRA (emittedByte wr.error_r) (emittedByte wr.error_g) (emittedByte wr.error_b)
              255 := by
  obtain ⟨writes, hrun, hr, hg, hb, hw⟩ := walk8Loop_spec c lut hc hl backward fuel
    (if backward then start - 1 else start)
    ((if backward then start - 1 else start) * c.closestPowerOf2) 0x80 0x80 0x80
    (walk8_measure c backward start fuel hf)
  exact ⟨writes, hrun, hr, hg, hb, fun wr hwr => write_facts c lut hc hl wr (hw wr hwr)⟩

/-- C20, witness: the forward walk from index 0 of the scan-line `scanLineC` under the
transform `lutC` returns, and its red accumulators stay below `0x10000`. -/
theorem walk8_error_diffusion_witness :
    (∀ v, lutC v ≤ 0xFF00) ∧
      ∃ writes, walk8 scanLineC false 0 2 = some writes ∧ ∀ wr ∈ writes, wr.error_r < 0x10000 :=
  ⟨lutC_le,
    (walk8_error_diffusion scanLineC lutC rfl lutC_le false 0 2 (by decide)).imp
      (fun _ h => ⟨h.1, fun wr hwr => (h.2.2.2.2 wr hwr).1.1⟩)⟩

theorem specDiffuse_sum (ts : List ℕ) :
    ∀ acc : ℕ, 256 * ((specDiffuse acc ts).map Prod.snd).sum +
        (((specDiffuse acc ts).map Prod.fst).getLastD acc) % 256 = acc % 256 + ts.sum := by
  induction ts with
  | nil => intro acc; simp [specDiffuse]
  | cons t ts ih =>
    intro acc
    have h := ih (acc % 256 + t)
    simp only [specDiffuse, List.map_cons, List.sum_cons, List.getLastD_cons]
    have := Nat.div_add_mod (acc % 256 + t) 256
    omega

/-- C29: error diffusion in the 8-bit path conserves value. With a color transform whose
values are all at most `0xFF00`, for one direction of a scan-line and each channel, 256 times
the sum of the bytes emitted plus the low byte of the last accumulator (`0x80` when nothing
was written) equals `0x80` plus the sum of the transform's values for the pixels written. -/
theorem walk8_conserves_value (c : ScanLine8) (lut : ℚ → ℕ) (hc : c.colorSpace = some lut)
    (hl : ∀ v, lut v ≤ 0xFF00) (backward : Bool) (start : ℤ) (fuel : ℕ)
    (hf : (if backward then start else c.texRect.w - start).toNat ≤ fuel) :
    ∃ writes, walk8 c backward start fuel = some writes ∧
      256 * (writes.map (fun wr => emittedByte wr.error_r)).sum +
          ((writes.map (fun wr => wr.error_r)).getLastD 0x80 &&& 0xFF) =
        0x80 + (writes.map (fun wr => lut (c.value wr.srcIndex).1)).sum ∧
      256 * (writes.map (fun wr => emittedByte wr.error_g)).sum +
          ((writes.map (fun wr => wr.error_g)).getLastD 0x80 &&& 0xFF) =
        0x80 + (writes.map (fun wr => lut (c.value wr.srcIndex).2.1)).sum ∧
      256 * (writes.map (fun wr => emittedByte wr.error_b)).sum +
          ((writes.map (fun wr => wr.error_b)).getLastD 0x80 &&& 0xFF) =
        0x80 + (writes.map (fun wr => lut (c.value wr.srcIndex).2.2)).sum := by
  obtain ⟨writes, hrun, hr, hg, hb, -⟩ := walk8Loop_spec c lut hc hl backward fuel
    (if backward then start - 1 else start)
    ((if backward then start - 1 else start) * c.closestPowerOf2) 0x80 0x80 0x80
    (walk8_measure c backward start fuel hf)
  refine ⟨writes, hrun, ?_, ?_, ?_⟩
  · have h := specDiffuse_sum (writes.map (fun wr => lut (c.value wr.srcIndex).1)) 0x80
    rw [← hr] at h
    simp only [List.map_map, Function.comp] at h
    rw [and_0xff]
    exact h
  · have h := specDiffuse_sum (writes.map (fun wr => lut (c.value wr.srcIndex).2.1)) 0x80
    rw [← hg] at h
    simp only [List.map_map, Function.comp] at h
    rw [and_0xff]
    exact h
  · have h := specDiffuse_sum (writes.map (fun wr => lut (c.value wr.srcIndex).2.2)) 0x80
    rw [← hb] at h
    simp only [List.map_map, Function.comp] at h
    rw [and_0xff]
    exact h

/-- C29, witness: the backward walk from index 2 of the scan-line `scanLineC` under the
transform `lutC` returns and conserves the red channel's value. -/
theorem walk8_conserves_value_witness :
    (∀ v, lutC v ≤ 0xFF00) ∧
      ∃ writes, walk8 scanLineC true 2 2 = some writes ∧
        256 * (writes.map (fun wr => emittedByte wr.error_r)).sum +
            ((writes.map (fun wr => wr.error_r)).getLastD 0x80 &&& 0xFF) =
          0x80 + (writes.map (fun wr => lutC (scanLineC.value wr.srcIndex).1)).sum :=
  ⟨lutC_le,
    (walk8_conserves_value scanLineC lutC rfl lutC_le true 2 2 (by decide)).imp
      (fun _ h => ⟨h.1, h.2.1⟩)⟩

/-! ## Reading a pixel back -/

theorem disconnectOldSrc_end (env : ConnectEnv) (old : Option ℕ) :
    (disconnectOldSrc env old).2 = ConnectEnd.nullOldSrcDereferenced ↔ old = none := by
  cases old <;> simp [disconnectOldSrc]

theorem connectBranches_end (env : ConnectEnv) (old new : Option ℕ) (inputNb : ℤ) :
    (connectBranches env old new inputNb).2 = ConnectEnd.nullOldSrcDereferenced ↔
      old = none ∧ new.isSome = true ∧ connectionOk env.canConnectInput = false := by
  unfold connectBranches
  cases old <;> cases new <;> cases hc : connectionOk env.canConnectInput <;>
    simp [disconnectOldSrc]

/-- C30: `doConnect` does call a method on an absent old source. A run ends in a call through
the null `internalOldSrc` exactly when the old source is absent, the new source is present
and `canConnectInput` does not allow the connection (lines 457-460); so it does for the
destination `connectEnvRefuse` with no old source and the new source 7. -/
theorem doConnect_dereferences_absent_old_source :
    (∀ (env : ConnectEnv) (oldSrc newSrc : Option NodeGui) (dst : ℕ)
        (inputNb viewerInternalIndex : ℤ),
        (doConnect env oldSrc newSrc dst inputNb viewerInternalIndex).2 =
            ConnectEnd.nullOldSrcDereferenced ↔
          oldSrc.bind (fun g => g.node) = none ∧
            (newSrc.bind (fun g => g.node)).isSome = true ∧
            connectionOk env.canConnectInput = false) ∧
      doConnect connectEnvRefuse none (some { gui := 7, node := some 7 }) 0 0 (-1) =
        ([ConnectCall.canConnectInput (some 7) 0], ConnectEnd.nullOldSrcDereferenced) := by
  constructor
  · intro env oldSrc newSrc dst inputNb idx
    rw [← connectBranches_end env _ _ inputNb]
    unfold doConnect
    simp only
    split
    · rename_i h
      simp [h]
    · rename_i h
      simp [h]
  · decide

/-! ## The band split of the fill -/

theorem splitRowsLoop_bands (r y2 : ℤ) (hr : 1 ≤ r) :
    ∀ (fuel : ℕ) (k : ℤ), (y2 - k).toNat ≤ fuel →
      ∃ rows, splitRowsLoop r y2 fuel k = some rows ∧
        (∀ b ∈ rows, k ≤ b.1 ∧ b.1 < b.2 ∧ b.2 ≤ y2) ∧
        (∀ b, rows.head? = some b → b.1 = k) ∧
        List.Chain' (fun a b : ℤ × ℤ => a.2 = b.1) rows ∧
        rows.Pairwise (fun a b : ℤ × ℤ => a.2 ≤ b.1) ∧
        ∀ y, (∃ b ∈ rows, b.1 ≤ y ∧ y < b.2) ↔ k ≤ y ∧ y < y2 := by
  intro fuel
  induction fuel with
  | zero =>
    intro k hf
    have hk : ¬ k < y2 := by omega
    refine ⟨[], by simp [splitRowsLoop, hk], by simp, by simp, List.chain'_nil,
      List.Pairwise.nil, ?_⟩
    intro y
    simp only [List.not_mem_nil, false_and, exists_false, false_iff]
    omega
  | succ fuel ih =>
    intro k hf
    by_cases hk : k < y2
    · obtain ⟨rows, hrun, hb, hh, hc, hp, hcov⟩ := ih (k + r) (by omega)
      refine ⟨(k, if k + r > y2 then y2 else k + r) :: rows, ?_, ?_, ?_, ?_, ?_, ?_⟩
      · simp only [splitRowsLoop, hk, if_true, hrun, Option.map_some']
      · intro b hbm
        rcases List.mem_cons.1 hbm with rfl | hbm
        · simp only
          split_ifs <;> omega
        · have := hb b hbm
          omega
      · intro b hb'
        simp only [List.head?_cons, Option.some.injEq] at hb'
        rw [← hb']
      · rw [List.chain'_cons']
        refine ⟨?_, hc⟩
        intro b hb'
        have h1 := hh b hb'
        have h2 := hb b (List.mem_of_mem_head? hb')
        simp only
        rw [if_neg (by omega)]
        omega
      · rw [List.pairwise_cons]
        refine ⟨?_, hp⟩
        intro b hbm
        have := hb b hbm
        simp only
        split_ifs <;> omega
      · intro y
        constructor
        · rintro ⟨b, hbm, h1, h2⟩
          rcases List.mem_cons.1 hbm with rfl | hbm
          · simp only at h1 h2
            split_ifs at h2 <;> omega
          · have := hb b hbm
            omega
        · rintro ⟨h1, h2⟩
          by_cases hy : y < k + r
          · refine ⟨_, List.mem_cons_self _ _, h1, ?_⟩
            simp only
            split_ifs <;> omega
          · obtain ⟨b, hbm, hb1, hb2⟩ := (hcov y).2 ⟨by omega, h2⟩
            exact ⟨b, List.mem_cons_of_mem _ hbm, hb1, hb2⟩
    · refine ⟨[], by simp [splitRowsLoop, hk], by simp, by simp, List.chain'_nil,
        List.Pairwise.nil, ?_⟩
      intro y
      simp only [List.not_mem_nil, false_and, exists_false, false_iff]
      omega

/-- C28: for a clipped rectangle with `x2 > x1` and a worker count of at least 1, the
band-splitting loop of lines 579-588 terminates (within `y2 - y1` iterations) and its row
bands are consecutive (each ends where the next begins), pairwise disjoint, cover exactly the
rows `[y1, y2)`, and each band `(first, second)` satisfies the entry assertion of
`renderFunctor`, `y1 ≤ first ≤ second ≤ y2`. -/
theorem splitRows_bands (texRectClipped : RectI) (idealThreadCount : ℤ) (fuel : ℕ)
    (hw : texRectClipped.x1 < texRectClipped.x2) (hn : 1 ≤ idealThreadCount)
    (hf : (texRectClipped.y2 - texRectClipped.y1).toNat ≤ fuel) :
    ∃ rows, splitRows texRectClipped idealThreadCount fuel = some rows ∧
      List.Chain' (fun a b : ℤ × ℤ => a.2 = b.1) rows ∧
      rows.Pairwise (fun a b : ℤ × ℤ => ∀ y, ¬ ((a.1 ≤ y ∧ y < a.2) ∧ (b.1 ≤ y ∧ y < b.2))) ∧
      (∀ y, (∃ b ∈ rows, b.1 ≤ y ∧ y < b.2) ↔ texRectClipped.y1 ≤ y ∧ y < texRectClipped.y2) ∧
      ∀ b ∈ rows, texRectClipped.y1 ≤ b.1 ∧ b.1 ≤ b.2 ∧ b.2 ≤ texRectClipped.y2 := by
  have hr : 1 ≤ ceilDiv (texRectClipped.x2 - texRectClipped.x1) idealThreadCount :=
    ceilDiv_pos _ _ (by omega) (by omega)
  obtain ⟨rows, hrun, hb, -, hc, hp, hcov⟩ := splitRowsLoop_bands _ texRectClipped.y2 hr fuel
    texRectClipped.y1 hf
  refine ⟨rows, hrun, hc, ?_, hcov, ?_⟩
  · refine hp.imp ?_
    intro a b hab y hy
    omega
  · intro b hbm
    have := hb b hbm
    omega

/-- C28, witness: the rectangle `rectTall` (4 x 12) split for 4 workers. -/
theorem splitRows_bands_witness :
    ∃ rows, splitRows rectTall 4 12 = some rows ∧
      (∀ y, (∃ b ∈ rows, b.1 ≤ y ∧ y < b.2) ↔ rectTall.y1 ≤ y ∧ y < rectTall.y2) ∧
      ∀ b ∈ rows, rectTall.y1 ≤ b.1 ∧ b.1 ≤ b.2 ∧ b.2 ≤ rectTall.y2 :=
  (splitRows_bands rectTall 4 12 (by decide) (by decide) (by decide)).imp
    (fun _ h => ⟨h.1, h.2.2.2.1, h.2.2.2.2⟩)

/-! ## The random start index of the 8-bit path -/

theorem scheduleTexture_rodTiny_half :
    scheduleTexture rodTiny rodTiny (closestPowerOf2 (1 / 2)) (tileSize 4) = some schedTiny := by
  have hf : ⌊(0 : ℚ) / 2 ^ 1 / 2 ^ 4⌋ = 0 := by rw [Int.floor_eq_iff]; norm_num
  have hc : ⌈(1 : ℚ) / 2 ^ 1 / 2 ^ 4⌉ = 1 := by rw [Int.ceil_eq_iff]; norm_num
  have h2 : (2 : ℚ) = 2 ^ 1 := by norm_num
  have h : computeTexRect rodTiny (2 ^ 1) (tileSize 4) =
      { x1 := 0, y1 := 0, x2 := 16, y2 := 16 } := by
    rw [computeTexRect_pow]
    simp only [rodTiny, Int.cast_one, Int.cast_zero, hf, hc]
    rfl
  have hr : rescaleTexRect { x1 := 0, y1 := 0, x2 := 16, y2 := 16 } (2 ^ 1) =
      { x1 := 0, y1 := 0, x2 := 32, y2 := 32 } := by
    rw [rescaleTexRect_pow]
    rfl
  have ht : cTrunc (2 ^ 1) = 2 := by
    simpa using cTrunc_intCast 2
  rw [closestPowerOf2_half, h2]
  simp only [scheduleTexture, h, hr, ht]
  decide

/-- C25: the divisor of the random start index can be 0. For a RoD of one pixel wholly
visible at zoom 0.5 with tiles of 16 pixels the tile rectangle is 16 x 16, not degenerate,
the TextureRect built by the scheduling step is `(0,0,1,1)` with `closestPowerOf2 = 2`, the
divisor `(x2 - x1) / closestPowerOf2` is `1 / 2 = 0`, and the `%` of line 792 divides by
zero on the first scan-line, whatever `rand()` returns. -/
theorem startIndex_divisor_zero :
    scheduleTexture rodTiny rodTiny (closestPowerOf2 (1 / 2)) (tileSize 4) = some schedTiny ∧
      schedTiny.texRect.width ≠ 0 ∧ schedTiny.texRect.height ≠ 0 ∧
      Int.tdiv (schedTiny.textureRect.x2 - schedTiny.textureRect.x1)
        schedTiny.textureRect.closestPo2 = 0 ∧
      (∀ randValue, startIndex randValue schedTiny.textureRect
        schedTiny.textureRect.closestPo2 = none) ∧
      ∀ (rand : ℤ → ℕ) (colorSpace : Option (ℚ → ℕ)) (floatToInt256 : ℚ → ℕ),
        scaleToTexture8bits stateA.interThreadInfos colorSpace floatToInt256 rand imageA
            (schedTiny.texRectClipped.y1, schedTiny.texRectClipped.y2) schedTiny.textureRect
            schedTiny.textureRect.closestPo2 0 1 2 false 1 = Run.divisionByZero := by
  refine ⟨scheduleTexture_rodTiny_half, by decide, by decide, by decide, ?_, ?_⟩
  · intro randValue
    rfl
  · intro rand colorSpace floatToInt256
    rfl

/-! ## The two walks of a scan-line in the 8-bit path -/

theorem write_dstIndex (c : ScanLine8) (d s : ℤ) (er eg eb : ℕ) :
    (c.write d s er eg eb).dstIndex = d := by
  simp only [ScanLine8.write]
  split <;> rfl

theorem clip_axis_cover (t1 t2 r1 r2 pk j : ℤ) (hpk : 1 ≤ pk) (hj : 0 ≤ j)
    (h : j * pk < min (t2 * pk) r2 - max (t1 * pk) r1) :
    j < (if t2 - t1 > r2 - r1 then r2 - r1 else t2 - t1) := by
  have h1 : j * pk < (t2 - t1) * pk := by
    have e : (t2 - t1) * pk = t2 * pk - t1 * pk := by ring
    rw [e]
    have := min_le_left (t2 * pk) r2
    have := le_max_left (t1 * pk) r1
    omega
  have h2 : j < t2 - t1 := lt_of_mul_lt_mul_right h1 (by omega)
  have h3 : j * 1 ≤ j * pk := mul_le_mul_of_nonneg_left hpk hj
  have h4 : j < r2 - r1 := by
    have := min_le_right (t2 * pk) r2
    have := le_max_right (t1 * pk) r1
    omega
  split <;> omega

theorem intersect_of_intersects (a r out : RectI) (h : a.intersects r = true) :
    a.intersect r out =
      { x1 := max a.x1 r.x1, y1 := max a.y1 r.y1, x2 := min a.x2 r.x2, y2 := min a.y2 r.y2 } := by
  unfold RectI.intersects at h
  simp only [Bool.and_eq_true, Bool.not_eq_true', decide_eq_false_iff_not] at h
  unfold RectI.intersect
  rw [if_neg (by simp [h.1]), if_neg h.2]

theorem cTrunc_pow (k : ℕ) : cTrunc ((2 : ℚ) ^ k) = 2 ^ k := by
  have : ((2 : ℚ) ^ k) = (((2 : ℤ) ^ k : ℤ) : ℚ) := by push_cast; rfl
  rw [this, cTrunc_intCast]

theorem scheduled_cover (rod roi : RectI) (z : ℚ) (n : ℕ) (sch : Scheduled) (hz : 0 < z)
    (hs : scheduleTexture rod roi (closestPowerOf2 z) (tileSize n) = some sch)
    (hi : (rescaleTexRect sch.texRect (closestPowerOf2 z)).intersects rod = true) :
    1 ≤ sch.textureRect.closestPo2 ∧
      (∀ j : ℤ, 0 ≤ j →
        j * sch.textureRect.closestPo2 < sch.textureRect.x2 - sch.textureRect.x1 →
        j < sch.textureRect.w) ∧
      (∀ i : ℤ, 0 ≤ i →
        i * sch.textureRect.closestPo2 < sch.textureRect.y2 - sch.textureRect.y1 →
        i < sch.textureRect.h) := by
  obtain ⟨k, hk⟩ := closestPowerOf2_eq_pow z hz
  rw [hk] at hs hi
  unfold scheduleTexture at hs
  simp only at hs
  split at hs
  · cases hs
  · simp only [Option.some.injEq] at hs
    subst hs
    simp only at hi
    rw [intersect_of_intersects _ _ _ hi]
    simp only [rescaleTexRect_pow, cTrunc_pow, RectI.width, RectI.height]
    have hpk : (1 : ℤ) ≤ 2 ^ k := one_le_pow₀ (by norm_num)
    refine ⟨hpk, ?_, ?_⟩
    · intro j hj h
      exact clip_axis_cover _ _ _ _ _ j hpk hj h
    · intro i hi' h
      exact clip_axis_cover _ _ _ _ _ i hpk hi' h

theorem index_in_buffer (w h row col : ℤ) (hr0 : 0 ≤ row) (hr : row < h) (hc0 : 0 ≤ col)
    (hc : col < w) : 0 ≤ row * w + col ∧ row * w + col < w * h := by
  have hw : 0 ≤ w := by omega
  have h1 : 0 ≤ row * w := mul_nonneg hr0 hw
  have h2 : row * w ≤ (h - 1) * w := mul_le_mul_of_nonneg_right (by omega) hw
  have h3 : (h - 1) * w = w * h - w := by ring
  constructor <;> omega

theorem band_row_bound (y1 y2 yS yE p : ℤ) (i : ℕ) (hp : 1 ≤ p) (h1 : y1 ≤ yS)
    (h3 : yE ≤ y2) (hi : yS + i * p < yE) :
    0 ≤ Int.tdiv (yS - y1) p + i ∧ (Int.tdiv (yS - y1) p + i) * p < y2 - y1 := by
  rw [Int.tdiv_eq_ediv (by omega) (by omega)]
  have h4 : 0 ≤ (yS - y1) / p := Int.ediv_nonneg (by omega) (by omega)
  have h5 : (yS - y1) / p * p ≤ yS - y1 := Int.ediv_mul_le _ (by omega)
  have h6 : ((yS - y1) / p + i) * p = (yS - y1) / p * p + i * p := by ring
  constructor
  · omega
  · rw [h6]
    omega

theorem scaleToTexture32bits_indices (infos : InterThreadInfos) (inputImage : Image)
    (yRange : ℤ × ℤ) (texRect : TextureRect) (p : ℤ) (rO gO bO : ℕ) (lum : Bool) (fuel : ℕ)
    (hp : 1 ≤ p) (hfy : (yRange.2 - yRange.1).toNat ≤ fuel)
    (hfx : (texRect.x2 - texRect.x1).toNat ≤ fuel) :
    ∃ writes, scaleToTexture32bits infos inputImage yRange texRect p rO gO bO lum fuel =
        some writes ∧
      ∀ e ∈ writes, ∃ i j : ℕ, yRange.1 + i * p < yRange.2 ∧ texRect.x1 + j * p < texRect.x2 ∧
        e.1 = (Int.tdiv (yRange.1 - texRect.y1) p + i) * texRect.w + j := by
  obtain ⟨n, hn, hrows⟩ := scanRowsLoop_spec p yRange.2 hp fuel yRange.1 0 hfy
  obtain ⟨m, hm, -⟩ := fillRow32Loop_spec inputImage yRange.1 texRect.x2 p rO gO bO lum hp fuel
    texRect.x1 texRect.x1 0 hfx
  have hrun := fillRows32_spec inputImage texRect p rO gO bO lum
    (Int.tdiv (yRange.1 - texRect.y1) p * texRect.w) fuel m hp hfx hm
    ((List.range n).map (fun (i : ℕ) => (yRange.1 + i * p, 0 + (i : ℤ))))
  refine ⟨_, (by simp only [scaleToTexture32bits, hrows]; exact hrun), ?_⟩
  · intro e he
    simp only [List.mem_flatMap, List.mem_map, List.mem_range] at he
    obtain ⟨row, ⟨i, hi, rfl⟩, j, hj, rfl⟩ := he
    refine ⟨i, j, (hn i).1 hi, (hm j).1 hj, ?_⟩
    simp only [zero_add]
    ring

theorem walk8Loop_in_row (c : ScanLine8) (backward : Bool) :
    ∀ (fuel : ℕ) (d s : ℤ) (er eg eb : ℕ),
      (if backward then (if d < c.texRect.w then d + 1 else 0) else c.texRect.w - d).toNat
        ≤ fuel →
      ∃ writes, walk8Loop c backward fuel d s er eg eb = some writes ∧
        ∀ wr ∈ writes, 0 ≤ wr.dstIndex ∧ wr.dstIndex < c.texRect.w := by
  intro fuel
  induction fuel with
  | zero =>
    intro d s er eg eb hf
    refine ⟨[], ?_, fun _ h => absurd h (List.not_mem_nil _)⟩
    simp only [walk8Loop]
    rw [if_neg]
    cases backward
    · simp only [Bool.false_eq_true, if_false] at hf
      omega
    · simp only [if_true] at hf
      split_ifs at hf <;> omega
  | succ fuel ih =>
    intro d s er eg eb hf
    simp only [walk8Loop]
    by_cases h1 : d < c.texRect.w ∧ d ≥ 0
    · rw [if_pos h1]
      by_cases h2 : s ≥ c.texRect.x2 - c.texRect.x1
      · rw [if_pos h2]
        exact ⟨[], rfl, fun _ h => absurd h (List.not_mem_nil _)⟩
      · rw [if_neg h2]
        have hm : (if backward then
              (if (if backward then d - 1 else d + 1) < c.texRect.w then
                (if backward then d - 1 else d + 1) + 1 else 0)
            else c.texRect.w - (if backward then d - 1 else d + 1)).toNat ≤ fuel := by
          cases backward
          · simp only [Bool.false_eq_true, if_false] at hf ⊢
            omega
          · simp only [if_true] at hf ⊢
            rw [if_pos h1.1] at hf
            rw [if_pos (by omega)]
            omega
        obtain ⟨writes, hrun, hw⟩ := ih (if backward then d - 1 else d + 1)
          (if backward then s - c.closestPowerOf2 else s + c.closestPowerOf2)
          (c.write d s er eg eb).error_r (c.write d s er eg eb).error_g
          (c.write d s er eg eb).error_b hm
        refine ⟨c.write d s er eg eb :: writes, ?_, ?_⟩
        · rw [hrun]
          rfl
        · intro wr hwr
          rcases List.mem_cons.1 hwr with h | h
          · subst h
            rw [write_dstIndex]
            omega
          · exact hw wr h
    · rw [if_neg h1]
      exact ⟨[], rfl, fun _ h => absurd h (List.not_mem_nil _)⟩

theorem walk8_in_row (c : ScanLine8) (backward : Bool) (start : ℤ) (fuel : ℕ) (h0 : 0 ≤ start)
    (hf : c.texRect.w.toNat ≤ fuel) :
    ∃ writes, walk8 c backward start fuel = some writes ∧
      ∀ wr ∈ writes, 0 ≤ wr.dstIndex ∧ wr.dstIndex < c.texRect.w := by
  unfold walk8
  apply walk8Loop_in_row
  cases backward
  · simp only [Bool.false_eq_true, if_false]
    omega
  · simp only [if_true]
    split_ifs <;> omega

theorem fillRow8_in_row (c : ScanLine8) (randValue : ℕ) (dst : ℤ) (fuel : ℕ)
    (hd : Int.tdiv (c.texRect.x2 - c.texRect.x1) c.closestPowerOf2 ≠ 0)
    (hf : c.texRect.w.toNat ≤ fuel) :
    ∃ writes, fillRow8 c randValue dst fuel = Run.returned writes ∧
      ∀ e ∈ writes, ∃ d, 0 ≤ d ∧ d < c.texRect.w ∧ e.1 = dst + d := by
  have hs : startIndex randValue c.texRect c.closestPowerOf2 =
      some (Int.tmod (randValue : ℤ)
        (Int.tdiv (c.texRect.x2 - c.texRect.x1) c.closestPowerOf2)) := by
    unfold startIndex
    simp only
    rw [if_neg hd]
  have h0 : 0 ≤ Int.tmod (randValue : ℤ)
      (Int.tdiv (c.texRect.x2 - c.texRect.x1) c.closestPowerOf2) :=
    Int.tmod_nonneg _ (by omega)
  obtain ⟨fw, hfw, hfb⟩ := walk8_in_row c false _ fuel h0 hf
  obtain ⟨bw, hbw, hbb⟩ := walk8_in_row c true _ fuel h0 hf
  refine ⟨(fw ++ bw).map (fun wr => (dst + wr.dstIndex, wr)), ?_, ?_⟩
  · unfold fillRow8
    rw [hs]
    simp only [hfw, hbw]
  · intro e he
    simp only [List.mem_map, List.mem_append] at he
    obtain ⟨wr, hwr, rfl⟩ := he
    rcases hwr with h | h
    · exact ⟨wr.dstIndex, (hfb wr h).1, (hfb wr h).2, rfl⟩
    · exact ⟨wr.dstIndex, (hbb wr h).1, (hbb wr h).2, rfl⟩

theorem fillRows8_in_rows (line : ℤ → ScanLine8) (rand : ℤ → ℕ) (output w : ℤ) (fuel : ℕ)
    (texRect : TextureRect) (p : ℤ) (hl : ∀ y, (line y).texRect = texRect)
    (hlp : ∀ y, (line y).closestPowerOf2 = p) (hw : texRect.w = w)
    (hd : Int.tdiv (texRect.x2 - texRect.x1) p ≠ 0) (hf : w.toNat ≤ fuel)
    (rows : List (ℤ × ℤ)) :
    ∃ writes, fillRows8 line rand output w fuel rows = Run.returned writes ∧
      ∀ e ∈ writes, ∃ row ∈ rows, ∃ d, 0 ≤ d ∧ d < w ∧ e.1 = output + row.2 * w + d := by
  induction rows with
  | nil => exact ⟨[], rfl, fun _ h => absurd h (List.not_mem_nil _)⟩
  | cons row rest ih =>
    obtain ⟨b, hb, hbb⟩ := ih
    obtain ⟨a, ha, hab⟩ := fillRow8_in_row (line row.1) (rand row.2) (output + row.2 * w) fuel
      (by rw [hl, hlp]; exact hd) (by rw [hl, hw]; exact hf)
    refine ⟨a ++ b, ?_, ?_⟩
    · simp only [fillRows8, ha, hb]
    · intro e he
      rcases List.mem_append.1 he with h | h
      · obtain ⟨d, h1, h2, h3⟩ := hab e h
        rw [hl, hw] at h2
        exact ⟨row, List.mem_cons_self _ _, d, h1, h2, h3⟩
      · obtain ⟨r, hr, d, h1, h2, h3⟩ := hbb e h
        exact ⟨r, List.mem_cons_of_mem _ hr, d, h1, h2, h3⟩

theorem scaleToTexture8bits_indices (infos : InterThreadInfos) (colorSpace : Option (ℚ → ℕ))
    (floatToInt256 : ℚ → ℕ) (rand : ℤ → ℕ) (inputImage : Image) (yRange : ℤ × ℤ)
    (texRect : TextureRect) (p : ℤ) (rO gO bO : ℕ) (lum : Bool) (fuel : ℕ) (hp : 1 ≤ p)
    (hd : Int.tdiv (texRect.x2 - texRect.x1) p ≠ 0)
    (hfy : (yRange.2 - yRange.1).toNat ≤ fuel) (hfw : texRect.w.toNat ≤ fuel) :
    ∃ writes, scaleToTexture8bits infos colorSpace floatToInt256 rand inputImage yRange texRect
        p rO gO bO lum fuel = Run.returned writes ∧
      ∀ e ∈ writes, ∃ (i : ℕ) (d : ℤ), yRange.1 + i * p < yRange.2 ∧ 0 ≤ d ∧ d < texRect.w ∧
        e.1 = (Int.tdiv (yRange.1 - texRect.y1) p + i) * texRect.w + d := by
  obtain ⟨n, hn, hrows⟩ := scanRowsLoop_spec p yRange.2 hp fuel yRange.1 0 hfy
  unfold scaleToTexture8bits
  simp only [hrows]
  obtain ⟨writes, hrun, hw⟩ := fillRows8_in_rows
    (fun y =>
      { inputImage := inputImage, y := y, texRect := texRect, closestPowerOf2 := p
        rOffset := rO, gOffset := gO, bOffset := bO, luminance := lum
        exposure := infos.exposure, offset := infos.offset, colorSpace := colorSpace
        floatToInt256 := floatToInt256 })
    rand (Int.tdiv (yRange.1 - texRect.y1) p * texRect.w) texRect.w fuel texRect p
    (fun _ => rfl) (fun _ => rfl) rfl hd hfw
    ((List.range n).map (fun (i : ℕ) => (yRange.1 + i * p, 0 + (i : ℤ))))
  refine ⟨writes, hrun, ?_⟩
  intro e he
  obtain ⟨row, hrow, d, h1, h2, h3⟩ := hw e he
  simp only [List.mem_map, List.mem_range] at hrow
  obtain ⟨i, hi, rfl⟩ := hrow
  refine ⟨i, d, (hn i).1 hi, h1, h2, ?_⟩
  rw [h3]
  simp only [zero_add]
  ring

/-- The index bounds of the two fills: for a TextureRect built by the scheduling step at a
positive zoom, whose rescaled tile rectangle meets the RoD, and a row band `[yStart, yEnd)`
inside `[y1, y2)`, the fill returns and every destination pixel it writes has an index in
`[0, w * h)`: always in the float path, and in the 8-bit path whenever the divisor of the
start index is not 0 (otherwise that path writes nothing). The byte count of the pass is
`w * h * 4`, times 4 for a float bit depth, as long as `w * h * 4` fits an `int`. -/
theorem texture_writes_below_w_mul_h (rod roi : RectI) (z : ℚ) (n : ℕ) (sch : Scheduled)
    (yRange : ℤ × ℤ) (fuel : ℕ) (hz : 0 < z)
    (hs : scheduleTexture rod roi (closestPowerOf2 z) (tileSize n) = some sch)
    (hi : (rescaleTexRect sch.texRect (closestPowerOf2 z)).intersects rod = true)
    (hy1 : sch.textureRect.y1 ≤ yRange.1) (hy2 : yRange.2 ≤ sch.textureRect.y2)
    (hfy : (yRange.2 - yRange.1).toNat ≤ fuel)
    (hfx : (sch.textureRect.x2 - sch.textureRect.x1).toNat ≤ fuel)
    (hfw : sch.textureRect.w.toNat ≤ fuel)
    (infos : InterThreadInfos) (colorSpace : Option (ℚ → ℕ)) (floatToInt256 : ℚ → ℕ)
    (rand : ℤ → ℕ) (inputImage : Image) (rOffset gOffset bOffset : ℕ) (luminance : Bool) :
    (∃ writes, scaleToTexture32bits infos inputImage yRange sch.textureRect
          sch.textureRect.closestPo2 rOffset gOffset bOffset luminance fuel = some writes ∧
        ∀ e ∈ writes, 0 ≤ e.1 ∧ e.1 < sch.textureRect.w * sch.textureRect.h) ∧
      (Int.tdiv (sch.textureRect.x2 - sch.textureRect.x1) sch.textureRect.closestPo2 ≠ 0 →
        ∃ writes, scaleToTexture8bits infos colorSpace floatToInt256 rand inputImage yRange
            sch.textureRect sch.textureRect.closestPo2 rOffset gOffset bOffset luminance fuel =
            Run.returned writes ∧
          ∀ e ∈ writes, 0 ≤ e.1 ∧ e.1 < sch.textureRect.w * sch.textureRect.h) ∧
      ∀ (env : Env) (st : ViewerState), 0 ≤ sch.textureRect.w * sch.textureRect.h →
        sch.textureRect.w * sch.textureRect.h * 4 < 2 ^ 31 →
        (snapshot env st sch.textureRect).interThreadInfos.bytesCount =
          sch.textureRect.w * sch.textureRect.h * 4 *
            (if env.bitDepth = BitDepth.FLOAT ∨ env.bitDepth = BitDepth.HALF_FLOAT then 4
              else 1) := by
  obtain ⟨hp, hcol, hrow⟩ := scheduled_cover rod roi z n sch hz hs hi
  refine ⟨?_, ?_, ?_⟩
  · obtain ⟨writes, hrun, hw⟩ := scaleToTexture32bits_indices infos inputImage yRange
      sch.textureRect sch.textureRect.closestPo2 rOffset gOffset bOffset luminance fuel hp hfy
      hfx
    refine ⟨writes, hrun, ?_⟩
    intro e he
    obtain ⟨i, j, hi', hj, heq⟩ := hw e he
    obtain ⟨hr0, hr1⟩ := band_row_bound sch.textureRect.y1 sch.textureRect.y2 yRange.1
      yRange.2 sch.textureRect.closestPo2 i hp hy1 hy2 hi'
    rw [heq]
    exact index_in_buffer _ _ _ _ hr0 (hrow _ hr0 hr1) (by omega)
      (hcol _ (by omega) (by omega))
  · intro hd
    obtain ⟨writes, hrun, hw⟩ := scaleToTexture8bits_indices infos colorSpace floatToInt256
      rand inputImage yRange sch.textureRect sch.textureRect.closestPo2 rOffset gOffset bOffset
      luminance fuel hp hd hfy hfw
    refine ⟨writes, hrun, ?_⟩
    intro e he
    obtain ⟨i, d, hi', hd0, hd1, heq⟩ := hw e he
    obtain ⟨hr0, hr1⟩ := band_row_bound sch.textureRect.y1 sch.textureRect.y2 yRange.1
      yRange.2 sch.textureRect.closestPo2 i hp hy1 hy2 hi'
    rw [heq]
    exact index_in_buffer _ _ _ _ hr0 (hrow _ hr0 hr1) hd0 hd1
  · intro env st h0 h31
    simp only [snapshot, wrapInt32, toSizeT]
    generalize sch.textureRect.w * sch.textureRect.h = X at h0 h31 ⊢
    norm_num at h31 ⊢
    split_ifs <;> omega

/-! ## The render pass: the shape of the trace -/

theorem publish_shape (env : Env) (single : Bool) (st : ViewerState) (tr : List Event) :
    ∃ post, (publish env single st tr).trace = tr ++ post ∧ ∀ ev ∈ post, ev.isPost = true := by
  unfold publish
  by_cases hq : env.mustQuit = true
  · rw [if_pos hq]
    exact ⟨[], by simp, by simp⟩
  · rw [if_neg hq]
    cases hb : env.abortedBeforePublish
    · refine ⟨[Event.aborted AbortPoll.beforePublish false,
        if single then Event.updateViewer else Event.doUpdateViewer], by simp, ?_⟩
      intro ev hev
      simp only [List.mem_cons, List.mem_singleton, List.not_mem_nil, or_false] at hev
      rcases hev with rfl | rfl
      · rfl
      · cases single <;> rfl
    · refine ⟨[Event.aborted AbortPoll.beforePublish true], by simp, ?_⟩
      intro ev hev
      simp only [List.mem_singleton] at hev
      subst hev
      rfl

theorem fillStage_isPost (env : Env) (single : Bool) (fuel : ℕ) (st st' : ViewerState)
    (image : Image) (roi rect : RectI) (filled : List Event)
    (h : fillStage env single fuel st image roi rect = some (st', filled)) :
    ∀ ev ∈ filled, ev.isPost = true := by
  intro ev hev
  obtain ⟨y, rfl⟩ := (fillStage_spec env single fuel st st' image roi rect filled h).2 ev hev
  rfl

theorem afterRender_shape (env : Env) (single : Bool) (fuel : ℕ) (st : ViewerState)
    (tr : List Event) (cf : Option FrameKey) (roi rect : RectI) (step : Step)
    (h : afterRender env single fuel st tr cf roi rect = some step) :
    ∃ post, step.trace = tr ++ post ∧ ∀ ev ∈ post, ev.isPost = true := by
  unfold afterRender at h
  cases himg : st.lastRenderedImage with
  | none =>
    rw [himg] at h
    simp only [Option.some.injEq] at h
    subst h
    refine ⟨[Event.removeFromViewerCache cf], rfl, ?_⟩
    intro ev hev
    simp only [List.mem_singleton] at hev
    subst hev
    rfl
  | some image =>
    rw [himg] at h
    simp only at h
    by_cases ha : env.abortedAfterRender = true
    · rw [if_pos ha] at h
      simp only [Option.some.injEq] at h
      subst h
      refine ⟨[Event.aborted AbortPoll.afterRender env.abortedAfterRender,
        Event.removeFromViewerCache cf], by simp [Step.trace, evictAndReturn], ?_⟩
      intro ev hev
      simp only [List.mem_cons, List.mem_singleton, List.not_mem_nil, or_false] at hev
      rcases hev with rfl | rfl <;> rfl
    · rw [if_neg ha] at h
      cases hfill : fillStage env single fuel st image roi rect with
      | none =>
        rw [hfill] at h
        cases h
      | some res =>
        obtain ⟨st', filled⟩ := res
        rw [hfill] at h
        simp only at h
        have hfilled := fillStage_isPost env single fuel st st' image roi rect filled hfill
        by_cases hb : env.abortedAfterFill = true
        · rw [if_pos hb] at h
          simp only [Option.some.injEq] at h
          subst h
          refine ⟨[Event.aborted AbortPoll.afterRender env.abortedAfterRender] ++ filled ++
            [Event.aborted AbortPoll.afterFill env.abortedAfterFill,
              Event.removeFromViewerCache cf], by simp [Step.trace, evictAndReturn], ?_⟩
          intro ev hev
          simp only [List.mem_append, List.mem_cons, List.mem_singleton, List.not_mem_nil,
            or_false] at hev
          rcases hev with (rfl | hev) | rfl | rfl
          · rfl
          · exact hfilled ev hev
          · rfl
          · rfl
        · rw [if_neg hb] at h
          simp only [Option.some.injEq] at h
          subst h
          refine ⟨[Event.aborted AbortPoll.afterRender env.abortedAfterRender] ++ filled ++
            [Event.aborted AbortPoll.afterFill env.abortedAfterFill,
              Event.clearExceedingEntriesFromNodeCache], by simp [Step.trace], ?_⟩
          intro ev hev
          simp only [List.mem_append, List.mem_cons, List.mem_singleton, List.not_mem_nil,
            or_false] at hev
          rcases hev with (rfl | hev) | rfl | rfl
          · rfl
          · exact hfilled ev hev
          · rfl
          · rfl

theorem allocateBuffer_shape (env : Env) (st : ViewerState) (tr : List Event) (byPass : Bool)
    (key : FrameKey) :
    (allocateBuffer env st tr byPass key).trace =
      tr ++ (if st.mustFreeBuffer then [Event.freeBuffer] else []) ++
        [if byPass || env.userRoIEnabled || st.interThreadInfos.autoContrast then
          Event.mallocBuffer st.interThreadInfos.bytesCount
        else Event.getTextureFromCacheOrCreate key] := by
  unfold allocateBuffer
  simp only
  by_cases hx : (byPass || env.userRoIEnabled || st.interThreadInfos.autoContrast) = true <;>
    by_cases hf : st.mustFreeBuffer = true <;>
    simp only [hx, hf, if_true, if_false, List.append_assoc, List.append_nil,
      Bool.false_eq_true]

theorem renderMiss_shape (env : Env) (single : Bool) (fuel : ℕ) (st : ViewerState)
    (tr : List Event) (byPass cachedIn : Bool) (rod roi rect : RectI) (key : FrameKey)
    (step : Step)
    (h : renderMiss env single fuel st tr byPass cachedIn rod roi rect key = some step) :
    ∃ rect2 post,
      step.trace = (allocateBuffer env st tr byPass key).trace ++
        [Event.notifyInputNIsRendering env.activeInput, Event.renderRoI rect2,
          Event.notifyInputNIsFinishedRendering env.activeInput] ++ post ∧
      (∀ ev ∈ post, ev.isPost = true) ∧
      (env.renderRoI = RenderResult.raised →
        ∃ p, step = Step.finished p ∧ p.outcome = Outcome.raised ∧ post = []) := by
  unfold renderMiss at h
  simp only at h
  cases hr : env.renderRoI with
  | raised =>
    rw [hr] at h
    simp only [Option.some.injEq] at h
    subst h
    exact ⟨_, [], (List.append_nil _).symm, by simp, fun _ => ⟨_, rfl, rfl, rfl⟩⟩
  | null =>
    rw [hr] at h
    obtain ⟨post, hpost, hall⟩ := afterRender_shape _ _ _ _ _ _ _ _ _ h
    exact ⟨_, post, hpost, hall, fun hh => by cases hh⟩
  | image img =>
    rw [hr] at h
    obtain ⟨post, hpost, hall⟩ := afterRender_shape _ _ _ _ _ _ _ _ _ h
    exact ⟨_, post, hpost, hall, fun hh => by cases hh⟩

theorem frameStage_shape (env : Env) (time view : ℤ) (single : Bool) (fuel : ℕ)
    (st : ViewerState) (tr : List Event) (force cachedIn : Bool) (rod roi : RectI)
    (sch : Scheduled) (p : Pass)
    (h : frameStage env time view single fuel st tr force cachedIn rod roi sch = some p) :
    ((force || env.userRoIEnabled || st.autoContrast) = false ∧
        frameKeyOf env time view st sch.textureRect ∈ st.textureCache ∧
        ∃ post, p.trace = tr ++
            [Event.getTextureFromCache (frameKeyOf env time view st sch.textureRect)] ++ post ∧
          ∀ ev ∈ post, ev.isPost = true) ∨
      (¬ ((force || env.userRoIEnabled || st.autoContrast) = false ∧
          frameKeyOf env time view st sch.textureRect ∈ st.textureCache) ∧
        ∃ rect post,
          p.trace = tr ++
            (if (force || env.userRoIEnabled || st.autoContrast) then []
              else [Event.getTextureFromCache (frameKeyOf env time view st sch.textureRect)]) ++
            (if st.mustFreeBuffer then [Event.freeBuffer] else []) ++
            [if (force || env.userRoIEnabled || st.autoContrast) then
              Event.mallocBuffer (snapshot env st sch.textureRect).interThreadInfos.bytesCount
            else
              Event.getTextureFromCacheOrCreate
                (frameKeyOf env time view st sch.textureRect)] ++
            [Event.notifyInputNIsRendering env.activeInput, Event.renderRoI rect,
              Event.notifyInputNIsFinishedRendering env.activeInput] ++ post ∧
          (∀ ev ∈ post, ev.isPost = true) ∧
          (env.renderRoI = RenderResult.raised → p.outcome = Outcome.raised ∧ post = [])) := by
  have hkey : ({ time := time, treeVersion := env.hash
                 exposure := (snapshot env st sch.textureRect).interThreadInfos.exposure
                 lut := (snapshot env st sch.textureRect).lut
                 bitDepth := (snapshot env st sch.textureRect).interThreadInfos.bitDepth
                 channels := (snapshot env st sch.textureRect).interThreadInfos.channels
                 view := view, textureRect := sch.textureRect } : FrameKey) =
      frameKeyOf env time view st sch.textureRect := rfl
  have hcache : (snapshot env st sch.textureRect).textureCache = st.textureCache := rfl
  have hauto : (snapshot env st sch.textureRect).interThreadInfos.autoContrast =
      st.autoContrast := rfl
  have hfree : (snapshot env st sch.textureRect).mustFreeBuffer = st.mustFreeBuffer := rfl
  have hlook : (!force && !env.userRoIEnabled && !st.autoContrast) =
      !(force || env.userRoIEnabled || st.autoContrast) := by
    cases force <;> cases env.userRoIEnabled <;> cases st.autoContrast <;> rfl
  have hbp : (force || env.userRoIEnabled || st.autoContrast) = false →
      (force || env.userRoIEnabled) = false := by
    cases force <;> cases env.userRoIEnabled <;> cases st.autoContrast <;> simp
  unfold frameStage at h
  simp only [hkey, hcache, hauto, hlook] at h
  by_cases hb : (force || env.userRoIEnabled || st.autoContrast) = false
  · rw [hb] at h
    simp only [Bool.not_false, Bool.true_and, if_true] at h
    by_cases hc : frameKeyOf env time view st sch.textureRect ∈ st.textureCache
    · left
      have hg : getTextureFromCache st.textureCache
          (frameKeyOf env time view st sch.textureRect) = true := by
        simp [getTextureFromCache, hc]
      rw [hg] at h
      simp only [if_true, Option.some.injEq] at h
      subst h
      exact ⟨hb, hc, publish_shape _ _ _ _⟩
    · right
      refine ⟨fun hh => hc hh.2, ?_⟩
      have hg : getTextureFromCache st.textureCache
          (frameKeyOf env time view st sch.textureRect) = false := by
        simp [getTextureFromCache, hc]
      rw [hg] at h
      simp only [Bool.false_eq_true, if_false] at h
      cases hm : renderMiss env single fuel (snapshot env st sch.textureRect)
          (tr ++ [Event.getTextureFromCache (frameKeyOf env time view st sch.textureRect)])
          force cachedIn rod roi sch.texRectClipped
          (frameKeyOf env time view st sch.textureRect) with
      | none => rw [hm] at h; cases h
      | some step =>
        rw [hm] at h
        obtain ⟨rect, post, hshape, hall, hraise⟩ := renderMiss_shape _ _ _ _ _ _ _ _ _ _ _ _ hm
        rw [allocateBuffer_shape, hauto, hfree, hb] at hshape
        simp only [Bool.false_eq_true, if_false] at hshape
        rw [hb]
        simp only [Bool.false_eq_true, if_false]
        cases step with
        | finished pass =>
          simp only [Option.some.injEq] at h
          subst h
          refine ⟨rect, post, ?_, hall, ?_⟩
          · simpa [Step.trace] using hshape
          · intro hr
            obtain ⟨p', hp', ho, hpost⟩ := hraise hr
            simp only [Step.finished.injEq] at hp'
            subst hp'
            exact ⟨ho, hpost⟩
        | continues st1 tr1 =>
          simp only [Option.some.injEq] at h
          subst h
          obtain ⟨post2, hpub, hall2⟩ := publish_shape env single st1 tr1
          refine ⟨rect, post ++ post2, ?_, ?_, ?_⟩
          · rw [hpub]
            simp only [Step.trace] at hshape
            rw [hshape]
            simp
          · intro ev hev
            rcases List.mem_append.1 hev with h1 | h1
            · exact hall ev h1
            · exact hall2 ev h1
          · intro hr
            obtain ⟨p', hp', -, -⟩ := hraise hr
            cases hp'
  · right
    refine ⟨fun hh => hb hh.1, ?_⟩
    have hb1 : (force || env.userRoIEnabled || st.autoContrast) = true := by
      cases hx : (force || env.userRoIEnabled || st.autoContrast)
      · exact absurd hx hb
      · rfl
    rw [hb1] at h
    simp only [Bool.not_true, Bool.false_and, Bool.false_eq_true, if_false] at h
    cases hm : renderMiss env single fuel (snapshot env st sch.textureRect) tr
        force cachedIn rod roi sch.texRectClipped
        (frameKeyOf env time view st sch.textureRect) with
    | none => rw [hm] at h; cases h
    | some step =>
      rw [hm] at h
      obtain ⟨rect, post, hshape, hall, hraise⟩ := renderMiss_shape _ _ _ _ _ _ _ _ _ _ _ _ hm
      rw [allocateBuffer_shape, hauto, hfree, hb1] at hshape
      simp only [if_true] at hshape
      rw [hb1]
      simp only [if_true]
      cases step with
      | finished pass =>
        simp only [Option.some.injEq] at h
        subst h
        refine ⟨rect, post, ?_, hall, ?_⟩
        · simpa [Step.trace] using hshape
        · intro hr
          obtain ⟨p', hp', ho, hpost⟩ := hraise hr
          simp only [Step.finished.injEq] at hp'
          subst hp'
          exact ⟨ho, hpost⟩
      | continues st1 tr1 =>
        simp only [Option.some.injEq] at h
        subst h
        obtain ⟨post2, hpub, hall2⟩ := publish_shape env single st1 tr1
        refine ⟨rect, post ++ post2, ?_, ?_, ?_⟩
        · rw [hpub]
          simp only [Step.trace] at hshape
          rw [hshape]
          simp
        · intro ev hev
          rcases List.mem_append.1 hev with h1 | h1
          · exact hall ev h1
          · exact hall2 ev h1
        · intro hr
          obtain ⟨p', hp', -, -⟩ := hraise hr
          cases hp'

theorem resolveRoD_fields (env : Env) (rs : Resolve) (c : Bool) (st st' : ViewerState)
    (rod : RectI) (b : Bool) (h : resolveRoD env rs c st = some (rod, b, st')) :
    st'.textureCache = st.textureCache ∧ st'.autoContrast = st.autoContrast ∧
      st'.exposure = st.exposure ∧ st'.lut = st.lut ∧ st'.channels = st.channels ∧
      st'.mustFreeBuffer = st.mustFreeBuffer := by
  unfold resolveRoD at h
  split at h
  · simp only [Option.some.injEq, Prod.mk.injEq] at h
    obtain ⟨-, -, rfl⟩ := h
    exact ⟨rfl, rfl, rfl, rfl, rfl, rfl⟩
  · split at h
    · cases h
    · simp only [Option.some.injEq, Prod.mk.injEq] at h
      obtain ⟨-, -, rfl⟩ := h
      exact ⟨rfl, rfl, rfl, rfl, rfl, rfl⟩

theorem renderViewer_stages (env : Env) (time : ℤ) (single : Bool) (fuel : ℕ)
    (st : ViewerState) (p : Pass) (h : renderViewer env time single fuel st = some p) :
    p.trace = [Event.aborted AbortPoll.atEntry true] ∨
      ∃ src, (∀ ev ∈ src, ev.isSource = true) ∧
        (p.trace = src ∨
          ∃ rod,
            (p.trace = src ++ [Event.rodChanged rod] ∧
              scheduleTexture rod (env.imageRectangleDisplayed rod)
                (closestPowerOf2 env.zoomFactor) (tileSize env.viewerTilesPowerOf2) = none) ∨
            ∃ sch st0 cachedIn,
              scheduleTexture rod (env.imageRectangleDisplayed rod)
                (closestPowerOf2 env.zoomFactor) (tileSize env.viewerTilesPowerOf2) = some sch ∧
              (st0.textureCache = st.textureCache ∧ st0.autoContrast = st.autoContrast ∧
                st0.exposure = st.exposure ∧ st0.lut = st.lut ∧ st0.channels = st.channels ∧
                st0.mustFreeBuffer = st.mustFreeBuffer) ∧
              frameStage env time (if env.viewsCount > 0 then env.currentView else 0) single
                fuel st0 (src ++ [Event.rodChanged rod]) st.forceRender cachedIn rod
                (env.imageRectangleDisplayed rod) sch = some p) := by
  rcases renderViewer_source_spec _ _ _ _ _ _ h with
    ⟨-, rfl⟩ | ⟨-, rs, st0, -, -, rfl | ⟨rod, b, hrod, hs⟩⟩
  · exact Or.inl rfl
  · exact Or.inr ⟨_, sourceTrace_isSource _ _ _, Or.inl rfl⟩
  · refine Or.inr ⟨sourceTrace rs (isStaleProjectFormat env.dispW rs)
      (rs.isInputImgCached && !isStaleProjectFormat env.dispW rs),
      sourceTrace_isSource _ _ _, Or.inr ⟨rod, ?_⟩⟩
    cases hsch : scheduleTexture rod (env.imageRectangleDisplayed rod)
        (closestPowerOf2 env.zoomFactor) (tileSize env.viewerTilesPowerOf2) with
    | none =>
      rw [scheduleStage_degenerate _ _ _ _ _ _ _ _ _ _ hsch] at hs
      simp only [Option.some.injEq] at hs
      subst hs
      exact Or.inl ⟨rfl, rfl⟩
    | some sch =>
      rw [scheduleStage_scheduled _ _ _ _ _ _ _ _ _ _ sch hsch] at hs
      have hfields := resolveRoD_fields _ _ _ _ _ _ _ hrod
      exact Or.inr ⟨sch, st0, _, rfl, hfields, hs⟩

theorem renderViewer_shape (env : Env) (time : ℤ) (single : Bool) (fuel : ℕ)
    (st : ViewerState) (p : Pass) (h : renderViewer env time single fuel st = some p) :
    (p.trace = [Event.aborted AbortPoll.atEntry true] ∨
      ∃ src, (∀ ev ∈ src, ev.isSource = true) ∧
        (p.trace = src ∨
          ∃ rod, p.trace = src ++ [Event.rodChanged rod] ∧
            scheduleTexture rod (env.imageRectangleDisplayed rod)
              (closestPowerOf2 env.zoomFactor) (tileSize env.viewerTilesPowerOf2) = none)) ∨
      ∃ src rod sch, (∀ ev ∈ src, ev.isSource = true) ∧
        scheduleTexture rod (env.imageRectangleDisplayed rod)
          (closestPowerOf2 env.zoomFactor) (tileSize env.viewerTilesPowerOf2) = some sch ∧
        ((bypassesTextureCache env st = false ∧
            frameKeyOf env time (if env.viewsCount > 0 then env.currentView else 0) st
              sch.textureRect ∈ st.textureCache ∧
            ∃ post, p.trace = src ++ [Event.rodChanged rod] ++
                [Event.getTextureFromCache
                  (frameKeyOf env time (if env.viewsCount > 0 then env.currentView else 0) st
                    sch.textureRect)] ++ post ∧
              ∀ ev ∈ post, ev.isPost = true) ∨
          (¬ (bypassesTextureCache env st = false ∧
              frameKeyOf env time (if env.viewsCount > 0 then env.currentView else 0) st
                sch.textureRect ∈ st.textureCache) ∧
            ∃ rect post bytes,
              p.trace = src ++ [Event.rodChanged rod] ++
                (if bypassesTextureCache env st then []
                  else [Event.getTextureFromCache
                    (frameKeyOf env time (if env.viewsCount > 0 then env.currentView else 0) st
                      sch.textureRect)]) ++
                (if st.mustFreeBuffer then [Event.freeBuffer] else []) ++
                [if bypassesTextureCache env st then Event.mallocBuffer bytes
                else
                  Event.getTextureFromCacheOrCreate
                    (frameKeyOf env time (if env.viewsCount > 0 then env.currentView else 0) st
                      sch.textureRect)] ++
                [Event.notifyInputNIsRendering env.activeInput, Event.renderRoI rect,
                  Event.notifyInputNIsFinishedRendering env.activeInput] ++ post ∧
              (∀ ev ∈ post, ev.isPost = true) ∧
              (env.renderRoI = RenderResult.raised →
                p.outcome = Outcome.raised ∧ post = []))) := by
  rcases renderViewer_stages _ _ _ _ _ _ h with h0 | ⟨src, hsrc, h1 | ⟨rod, ⟨h2, h3⟩ | h4⟩⟩
  · exact Or.inl (Or.inl h0)
  · exact Or.inl (Or.inr ⟨src, hsrc, Or.inl h1⟩)
  · exact Or.inl (Or.inr ⟨src, hsrc, Or.inr ⟨rod, h2, h3⟩⟩)
  · obtain ⟨sch, st0, cachedIn, hsch, ⟨hcache, ha, he, hl, hc, hf⟩, hfs⟩ := h4
    refine Or.inr ⟨src, rod, sch, hsrc, hsch, ?_⟩
    have hkey : frameKeyOf env time (if env.viewsCount > 0 then env.currentView else 0) st0
        sch.textureRect =
        frameKeyOf env time (if env.viewsCount > 0 then env.currentView else 0) st
          sch.textureRect := by
      simp only [frameKeyOf, he, hl, hc]
    have hby : (st.forceRender || env.userRoIEnabled || st0.autoContrast) =
        bypassesTextureCache env st := by
      rw [ha]
      rfl
    have hshape := frameStage_shape _ _ _ _ _ _ _ _ _ _ _ _ _ hfs
    rw [hkey, hby, hf, hcache] at hshape
    rcases hshape with ⟨hb, hk, post, hpost, hall⟩ | ⟨hn, rect, post, hpost, hall, hraise⟩
    · exact Or.inl ⟨hb, hk, post, hpost, hall⟩
    · exact Or.inr ⟨hn, rect, post, _, hpost, hall, hraise⟩

theorem not_mem_of_isSource {src : List Event} (hsrc : ∀ ev ∈ src, ev.isSource = true)
    (ev : Event) (hev : ev.isSource = false) : ev ∉ src := by
  intro hm
  rw [hsrc ev hm] at hev
  cases hev

theorem not_mem_of_isPost {post : List Event} (hall : ∀ ev ∈ post, ev.isPost = true)
    (ev : Event) (hev : ev.isPost = false) : ev ∉ post := by
  intro hm
  rw [hall ev hm] at hev
  cases hev

/-- C21: in a render pass, when force-render was set, the user region of interest is enabled
or auto-contrast is enabled, the texture cache is neither looked up nor given a new entry,
and a pass that reaches the allocation takes a transient `malloc` buffer. In every other
case there is no `malloc`, and a pass that reaches the cache lookup (it has announced the RoD
and scheduled a non-degenerate tile) looks the frame key up; on a miss it creates the
cache-owned entry of that key, and on a hit it creates nothing and renders nothing. -/
theorem texture_cache_bypass (env : Env) (time : ℤ) (singleThreaded : Bool) (fuel : ℕ)
    (st : ViewerState) (p : Pass)
    (h : renderViewer env time singleThreaded fuel st = some p) :
    (bypassesTextureCache env st = true →
        (∀ k, Event.getTextureFromCache k ∉ p.trace) ∧
        (∀ k, Event.getTextureFromCacheOrCreate k ∉ p.trace) ∧
        ∀ rod sch, Event.rodChanged rod ∈ p.trace →
          scheduleTexture rod (env.imageRectangleDisplayed rod)
            (closestPowerOf2 env.zoomFactor) (tileSize env.viewerTilesPowerOf2) = some sch →
          ∃ n, Event.mallocBuffer n ∈ p.trace) ∧
      (bypassesTextureCache env st = false →
        (∀ n, Event.mallocBuffer n ∉ p.trace) ∧
        ∀ rod sch, Event.rodChanged rod ∈ p.trace →
          scheduleTexture rod (env.imageRectangleDisplayed rod)
            (closestPowerOf2 env.zoomFactor) (tileSize env.viewerTilesPowerOf2) = some sch →
          Event.getTextureFromCache
              (frameKeyOf env time (if env.viewsCount > 0 then env.currentView else 0) st
                sch.textureRect) ∈ p.trace ∧
            (frameKeyOf env time (if env.viewsCount > 0 then env.currentView else 0) st
                sch.textureRect ∉ st.textureCache →
              Event.getTextureFromCacheOrCreate
                (frameKeyOf env time (if env.viewsCount > 0 then env.currentView else 0) st
                  sch.textureRect) ∈ p.trace) ∧
            (frameKeyOf env time (if env.viewsCount > 0 then env.currentView else 0) st
                sch.textureRect ∈ st.textureCache →
              (∀ k, Event.getTextureFromCacheOrCreate k ∉ p.trace) ∧
                ∀ r, Event.renderRoI r ∉ p.trace)) := by
  rcases renderViewer_shape _ _ _ _ _ _ h with
    (h0 | ⟨src, hsrc, h1 | ⟨rod', h2, h3⟩⟩) | ⟨src, rod', sch', hsrc, hsch, hcase⟩
  · refine ⟨fun _ => ⟨?_, ?_, ?_⟩, fun _ => ⟨?_, ?_⟩⟩ <;> simp [h0]
  · have hns := not_mem_of_isSource hsrc
    refine ⟨fun _ => ⟨?_, ?_, ?_⟩, fun _ => ⟨?_, ?_⟩⟩
    · intro k; rw [h1]; exact hns _ rfl
    · intro k; rw [h1]; exact hns _ rfl
    · intro rod sch hr; rw [h1] at hr; exact absurd hr (hns _ rfl)
    · intro n; rw [h1]; exact hns _ rfl
    · intro rod sch hr; rw [h1] at hr; exact absurd hr (hns _ rfl)
  · have hns := not_mem_of_isSource hsrc
    have hrod : ∀ rod, Event.rodChanged rod ∈ p.trace → rod = rod' := by
      intro rod hr
      rw [h2] at hr
      simpa [hns (Event.rodChanged rod) rfl] using hr
    refine ⟨fun _ => ⟨?_, ?_, ?_⟩, fun _ => ⟨?_, ?_⟩⟩
    · intro k; simp [h2, hns (Event.getTextureFromCache k) rfl]
    · intro k; simp [h2, hns (Event.getTextureFromCacheOrCreate k) rfl]
    · intro rod sch hr hs
      rw [hrod rod hr, h3] at hs
      cases hs
    · intro n; simp [h2, hns (Event.mallocBuffer n) rfl]
    · intro rod sch hr hs
      rw [hrod rod hr, h3] at hs
      cases hs
  · have hns := not_mem_of_isSource hsrc
    rcases hcase with ⟨hb, hk, post, hpost, hall⟩ | ⟨hn, rect, post, bytes, hpost, hall, -⟩
    · have hnp := not_mem_of_isPost hall
      have hrod : ∀ rod, Event.rodChanged rod ∈ p.trace → rod = rod' := by
        intro rod hr
        rw [hpost] at hr
        simpa [hns (Event.rodChanged rod) rfl, hnp (Event.rodChanged rod) rfl] using hr
      refine ⟨fun hb' => ?_, fun _ => ⟨?_, ?_⟩⟩
      · rw [hb] at hb'
        cases hb'
      · intro n
        simp [hpost, hns (Event.mallocBuffer n) rfl, hnp (Event.mallocBuffer n) rfl]
      · intro rod sch hr hs
        rw [hrod rod hr, hsch] at hs
        simp only [Option.some.injEq] at hs
        subst hs
        refine ⟨by simp [hpost], fun hk' => absurd hk hk', fun _ => ⟨?_, ?_⟩⟩
        · intro k
          simp [hpost, hns (Event.getTextureFromCacheOrCreate k) rfl,
            hnp (Event.getTextureFromCacheOrCreate k) rfl]
        · intro r
          simp [hpost, hns (Event.renderRoI r) rfl, hnp (Event.renderRoI r) rfl]
    · have hnp := not_mem_of_isPost hall
      have hrod : ∀ rod, Event.rodChanged rod ∈ p.trace → rod = rod' := by
        intro rod hr
        rw [hpost] at hr
        cases hbb : bypassesTextureCache env st <;> cases hff : st.mustFreeBuffer <;>
          simpa [hbb, hff, hns (Event.rodChanged rod) rfl, hnp (Event.rodChanged rod) rfl]
            using hr
      refine ⟨fun hb => ⟨?_, ?_, ?_⟩, fun hb => ⟨?_, ?_⟩⟩
      · intro k
        cases hff : st.mustFreeBuffer <;>
          simp [hpost, hb, hff, hns (Event.getTextureFromCache k) rfl,
            hnp (Event.getTextureFromCache k) rfl]
      · intro k
        cases hff : st.mustFreeBuffer <;>
          simp [hpost, hb, hff, hns (Event.getTextureFromCacheOrCreate k) rfl,
            hnp (Event.getTextureFromCacheOrCreate k) rfl]
      · intro rod sch _ _
        exact ⟨bytes, by simp [hpost, hb]⟩
      · intro n
        cases hff : st.mustFreeBuffer <;>
          simp [hpost, hb, hff, hns (Event.mallocBuffer n) rfl,
            hnp (Event.mallocBuffer n) rfl]
      · intro rod sch hr hs
        rw [hrod rod hr, hsch] at hs
        simp only [Option.some.injEq] at hs
        subst hs
        refine ⟨by simp [hpost, hb], fun _ => by simp [hpost, hb], fun hk => ?_⟩
        exact absurd ⟨hb, hk⟩ hn

/-- C21, witness: the pass of Scenario A that is aborted after the upstream render by-passes
nothing; it looks `keyA` up, misses, and creates the cache-owned entry of `keyA`. -/
theorem texture_cache_bypass_witness :
    ∃ p, renderViewer envAbortRender 5 true 0 stateA = some p ∧
      bypassesTextureCache envAbortRender stateA = false ∧
      Event.getTextureFromCache keyA ∈ p.trace ∧
      Event.getTextureFromCacheOrCreate keyA ∈ p.trace ∧
      ∀ n, Event.mallocBuffer n ∉ p.trace := by
  obtain ⟨p, hp, -, ht, -⟩ := summary_of_map _ _ _ _ pass_envAbortRender
  have hr : Event.rodChanged rodA ∈ p.trace := by
    rw [ht]
    decide
  have hw := (texture_cache_bypass envAbortRender 5 true 0 stateA p hp).2 rfl
  have hk := hw.2 rodA schedA hr scheduleTexture_rodA_full
  exact ⟨p, hp, rfl, hk.1, hk.2.1 (by decide), hw.1⟩

/-! ## The notifications around the upstream render -/

theorem count_one_of_split (tr pre post : List Event) (a b c : Event)
    (h : tr = pre ++ [a, b, c] ++ post) (hn : ∀ ev ∈ pre ++ post, ev ≠ c) (ha : a ≠ c)
    (hb : b ≠ c) : tr.count c = 1 := by
  have h1 : pre.count c = 0 :=
    List.count_eq_zero.2 (fun hm => hn c (List.mem_append_left _ hm) rfl)
  have h2 : post.count c = 0 :=
    List.count_eq_zero.2 (fun hm => hn c (List.mem_append_right _ hm) rfl)
  rw [h, List.count_append, List.count_append, h1, h2]
  simp [List.count_cons, ha, hb]

/-- C23: in every pass that calls the upstream `renderRoI`, whether the call returns an
image, returns a null image or raises, the trace is
`... notifyInputNIsRendering(i), renderRoI, notifyInputNIsFinishedRendering(i) ...` with
`i = activeInput()` and with no other rendering notification, `renderRoI` call or finished
notification before or after: `notifyInputNIsFinishedRendering` is called exactly once, for
the input index `notifyInputNIsRendering` was called for, and a raised error is re-raised to
the caller after the notification. -/
theorem finished_rendering_notified_once (env : Env) (time : ℤ) (singleThreaded : Bool)
    (fuel : ℕ) (st : ViewerState) (p : Pass) (r : RectI)
    (h : renderViewer env time singleThreaded fuel st = some p)
    (hr : Event.renderRoI r ∈ p.trace) :
    (∃ pre post,
        p.trace = pre ++ [Event.notifyInputNIsRendering env.activeInput, Event.renderRoI r,
          Event.notifyInputNIsFinishedRendering env.activeInput] ++ post ∧
        ∀ ev ∈ pre ++ post, (∀ i, ev ≠ Event.notifyInputNIsRendering i) ∧
          (∀ r', ev ≠ Event.renderRoI r') ∧
          ∀ i, ev ≠ Event.notifyInputNIsFinishedRendering i) ∧
      p.trace.count (Event.notifyInputNIsFinishedRendering env.activeInput) = 1 ∧
      p.trace.count (Event.notifyInputNIsRendering env.activeInput) = 1 ∧
      (∀ i, Event.notifyInputNIsFinishedRendering i ∈ p.trace → i = env.activeInput) ∧
      (env.renderRoI = RenderResult.raised → p.outcome = Outcome.raised) := by
  have key : ∃ pre post,
      p.trace = pre ++ [Event.notifyInputNIsRendering env.activeInput, Event.renderRoI r,
        Event.notifyInputNIsFinishedRendering env.activeInput] ++ post ∧
      (∀ ev ∈ pre ++ post, (∀ i, ev ≠ Event.notifyInputNIsRendering i) ∧
        (∀ r', ev ≠ Event.renderRoI r') ∧
        ∀ i, ev ≠ Event.notifyInputNIsFinishedRendering i) ∧
      (env.renderRoI = RenderResult.raised → p.outcome = Outcome.raised) := by
    rcases renderViewer_shape _ _ _ _ _ _ h with
      (h0 | ⟨src, hsrc, h1 | ⟨rod', h2, h3⟩⟩) | ⟨src, rod', sch', hsrc, hsch, hcase⟩
    · rw [h0] at hr
      simp at hr
    · rw [h1] at hr
      exact absurd hr (not_mem_of_isSource hsrc _ rfl)
    · rw [h2] at hr
      simp [not_mem_of_isSource hsrc (Event.renderRoI r) rfl] at hr
    · have hns := not_mem_of_isSource hsrc
      rcases hcase with ⟨hb, hk, post, hpost, hall⟩ | ⟨hn, rect, post, bytes, hpost, hall, hraise⟩
      · have hnp := not_mem_of_isPost hall
        rw [hpost] at hr
        simp [hns (Event.renderRoI r) rfl, hnp (Event.renderRoI r) rfl] at hr
      · have hnp := not_mem_of_isPost hall
        have hrr : r = rect := by
          rw [hpost] at hr
          cases hbb : bypassesTextureCache env st <;> cases hff : st.mustFreeBuffer <;>
            simpa [hbb, hff, hns (Event.renderRoI r) rfl, hnp (Event.renderRoI r) rfl]
              using hr
        subst hrr
        refine ⟨_, post, hpost, ?_, fun hx => (hraise hx).1⟩
        intro ev hev
        have hcases : ev.isSource = true ∨ ev.isPost = true ∨ ev = Event.rodChanged rod' ∨
            (∃ k, ev = Event.getTextureFromCache k) ∨ ev = Event.freeBuffer ∨
            (∃ n, ev = Event.mallocBuffer n) ∨ ∃ k, ev = Event.getTextureFromCacheOrCreate k := by
          simp only [List.mem_append, List.mem_singleton] at hev
          rcases hev with ((((hev | hev) | hev) | hev) | hev) | hev
          · exact Or.inl (hsrc ev hev)
          · exact Or.inr (Or.inr (Or.inl hev))
          · by_cases hbb : bypassesTextureCache env st = true
            · rw [if_pos hbb] at hev
              simp at hev
            · rw [if_neg hbb] at hev
              simp only [List.mem_singleton] at hev
              exact Or.inr (Or.inr (Or.inr (Or.inl ⟨_, hev⟩)))
          · by_cases hff : st.mustFreeBuffer = true
            · rw [if_pos hff] at hev
              simp only [List.mem_singleton] at hev
              exact Or.inr (Or.inr (Or.inr (Or.inr (Or.inl hev))))
            · rw [if_neg hff] at hev
              simp at hev
          · by_cases hbb : bypassesTextureCache env st = true
            · rw [if_pos hbb] at hev
              exact Or.inr (Or.inr (Or.inr (Or.inr (Or.inr (Or.inl ⟨_, hev⟩)))))
            · rw [if_neg hbb] at hev
              exact Or.inr (Or.inr (Or.inr (Or.inr (Or.inr (Or.inr ⟨_, hev⟩)))))
          · exact Or.inr (Or.inl (hall ev hev))
        refine ⟨?_, ?_, ?_⟩ <;> intro i hi <;> subst hi <;>
          rcases hcases with hc | hc | hc | ⟨k, hc⟩ | hc | ⟨n, hc⟩ | ⟨k, hc⟩ <;> cases hc
  obtain ⟨pre, post, hsplit, hclean, hraise⟩ := key
  refine ⟨⟨pre, post, hsplit, hclean⟩, ?_, ?_, ?_, hraise⟩
  · exact count_one_of_split _ pre post _ _ _ hsplit (fun ev hev => (hclean ev hev).2.2 _)
      (by simp) (by simp)
  · have hsplit' : p.trace = pre ++ [Event.notifyInputNIsRendering env.activeInput] ++
        ([Event.renderRoI r, Event.notifyInputNIsFinishedRendering env.activeInput] ++ post) := by
      rw [hsplit]
      simp
    have h1 : pre.count (Event.notifyInputNIsRendering env.activeInput) = 0 :=
      List.count_eq_zero.2 (fun hm => (hclean _ (List.mem_append_left _ hm)).1 _ rfl)
    have h2 : post.count (Event.notifyInputNIsRendering env.activeInput) = 0 :=
      List.count_eq_zero.2 (fun hm => (hclean _ (List.mem_append_right _ hm)).1 _ rfl)
    rw [hsplit', List.count_append, List.count_append, List.count_append, h1, h2]
    simp [List.count_cons]
  · intro i hi
    rw [hsplit] at hi
    simp only [List.mem_append, List.mem_cons, List.mem_singleton, List.not_mem_nil,
      or_false] at hi
    rcases hi with (hi | hi | hi | hi) | hi
    · exact absurd rfl ((hclean _ (List.mem_append_left _ hi)).2.2 i)
    · cases hi
    · cases hi
    · simp only [Event.notifyInputNIsFinishedRendering.injEq] at hi
      exact hi
    · exact absurd rfl ((hclean _ (List.mem_append_right _ hi)).2.2 i)

theorem pass_envRaise :
    (renderViewer envRaise 5 true 0 stateA).map Pass.summary =
      some (Outcome.raised,
        [Event.aborted AbortPoll.atEntry false,
          Event.getImageFromCache { hash := 10, time := 5, view := 0 },
          Event.getRegionOfDefinition, Event.rodChanged rodA, Event.getTextureFromCache keyA,
          Event.getTextureFromCacheOrCreate keyA, Event.notifyInputNIsRendering 0,
          Event.renderRoI { x1 := 0, y1 := 0, x2 := 100, y2 := 100 },
          Event.notifyInputNIsFinishedRendering 0], true) := by
  rw [renderViewer_uncached envRaise 5 true 0 stateA rodA false rfl rfl rfl rfl]
  rw [scheduleStage_scheduled _ _ _ _ _ _ _ _ _ _ schedA scheduleTexture_rodA_full]
  rfl

/-- C23, witness: in the pass of Scenario A whose upstream render raises, the finished
notification is sent once, for input 0, and the error is re-raised. -/
theorem finished_rendering_notified_once_witness :
    ∃ p, renderViewer envRaise 5 true 0 stateA = some p ∧
      Event.renderRoI { x1 := 0, y1 := 0, x2 := 100, y2 := 100 } ∈ p.trace ∧
      p.trace.count (Event.notifyInputNIsFinishedRendering 0) = 1 ∧
      p.outcome = Outcome.raised := by
  obtain ⟨p, hp, -, ht, -⟩ := summary_of_map _ _ _ _ pass_envRaise
  have hr : Event.renderRoI { x1 := 0, y1 := 0, x2 := 100, y2 := 100 } ∈ p.trace := by
    rw [ht]
    decide
  have hw := finished_rendering_notified_once envRaise 5 true 0 stateA p _ hp hr
  exact ⟨p, hp, hr, hw.2.1, hw.2.2.2.2 rfl⟩

/-! ## A cached RoD that depended on a project format since changed -/

theorem scheduleStage_extends (env : Env) (time view : ℤ) (single : Bool) (fuel : ℕ)
    (st : ViewerState) (tr : List Event) (force cachedIn : Bool) (rod : RectI) (p : Pass)
    (h : scheduleStage env time view single fuel st tr force cachedIn rod = some p) :
    ∃ rest, p.trace = tr ++ [Event.rodChanged rod] ++ rest := by
  rcases scheduleStage_spec _ _ _ _ _ _ _ _ _ _ _ h with rfl | ⟨roi, sch, hf⟩
  · exact ⟨[], by simp⟩
  · rcases frameStage_shape _ _ _ _ _ _ _ _ _ _ _ _ _ hf with
      ⟨-, -, post, hpost, -⟩ | ⟨-, rect, post, hpost, -, -⟩
    · exact ⟨[Event.getTextureFromCache (frameKeyOf env time view st sch.textureRect)] ++ post,
        by rw [hpost, List.append_assoc]⟩
    · exact ⟨(if (force || env.userRoIEnabled || st.autoContrast) = true then []
          else [Event.getTextureFromCache (frameKeyOf env time view st sch.textureRect)]) ++
          ((if st.mustFreeBuffer = true then [Event.freeBuffer] else []) ++
            ([if (force || env.userRoIEnabled || st.autoContrast) = true then
                  Event.mallocBuffer (snapshot env st sch.textureRect).interThreadInfos.bytesCount
                else Event.getTextureFromCacheOrCreate
                  (frameKeyOf env time view st sch.textureRect)] ++
              ([Event.notifyInputNIsRendering env.activeInput, Event.renderRoI rect,
                  Event.notifyInputNIsFinishedRendering env.activeInput] ++ post))),
        by rw [hpost]; simp only [List.append_assoc]⟩

/-- C22: when the identity walk of a pass ends on a cached image whose params are terminal
(identity input index -1) and marked project-format dependent, and whose cached RoD differs
from the current project format, the pass is the pass of a miss: after the lookups of the walk
it calls `removeFromNodeCache` for that entry and `getRegionOfDefinition` on the producer,
fails if that fails, and otherwise goes on with the producer's RoD (clipped if infinite), with
`isInputImgCached` false and with `lastRenderedImage` not set to the cached image. -/
theorem stale_project_format_is_a_miss (env : Env) (time : ℤ) (singleThreaded : Bool)
    (fuel : ℕ) (st : ViewerState) (rs : Resolve) (e : CachedImage)
    (h0 : env.abortedAtEntry = false)
    (hrs : resolveIdentity env.graph env.imageCache env.activeInputToRender time
      (if env.viewsCount > 0 then env.currentView else 0) st.forceRender fuel = some rs)
    (hc : rs.isInputImgCached = true) (he : rs.cached = some e)
    (hid : rs.inputIdentityNumber = -1) (hpf : e.params.isRodProjectFormat = true)
    (hd : env.dispW ≠ e.params.rod) :
    renderViewer env time singleThreaded fuel st =
        (match env.regionOfDefinition with
          | none =>
            some { outcome := Outcome.returned Status.StatFailed
                   state := { st with forceRender := false }
                   trace := [Event.aborted AbortPoll.atEntry false] ++
                     rs.lookups.map Event.getImageFromCache ++
                     [Event.removeFromNodeCache rs.inputImageKey] ++
                     [Event.getRegionOfDefinition] }
          | some (rod, _) =>
            scheduleStage env time (if env.viewsCount > 0 then env.currentView else 0)
              singleThreaded fuel { st with forceRender := false }
              ([Event.aborted AbortPoll.atEntry false] ++
                rs.lookups.map Event.getImageFromCache ++
                [Event.removeFromNodeCache rs.inputImageKey] ++
                [Event.getRegionOfDefinition])
              st.forceRender false (env.clipInfiniteRod rod).1) ∧
      ∀ p, renderViewer env time singleThreaded fuel st = some p →
        Event.removeFromNodeCache rs.inputImageKey ∈ p.trace ∧
          Event.getRegionOfDefinition ∈ p.trace ∧
          (env.regionOfDefinition = none → p.outcome = Outcome.returned Status.StatFailed) ∧
          ∀ rod b, env.regionOfDefinition = some (rod, b) →
            Event.rodChanged (env.clipInfiniteRod rod).1 ∈ p.trace := by
  have hstale : isStaleProjectFormat env.dispW rs = true := by
    unfold isStaleProjectFormat
    rw [he]
    simp [hc, hid, hpf, hd]
  have hrun : renderViewer env time singleThreaded fuel st =
      (match env.regionOfDefinition with
        | none =>
          some { outcome := Outcome.returned Status.StatFailed
                 state := { st with forceRender := false }
                 trace := [Event.aborted AbortPoll.atEntry false] ++
                   rs.lookups.map Event.getImageFromCache ++
                   [Event.removeFromNodeCache rs.inputImageKey] ++
                   [Event.getRegionOfDefinition] }
        | some (rod, _) =>
          scheduleStage env time (if env.viewsCount > 0 then env.currentView else 0)
            singleThreaded fuel { st with forceRender := false }
            ([Event.aborted AbortPoll.atEntry false] ++
              rs.lookups.map Event.getImageFromCache ++
              [Event.removeFromNodeCache rs.inputImageKey] ++
              [Event.getRegionOfDefinition])
            st.forceRender false (env.clipInfiniteRod rod).1) := by
    unfold renderViewer
    rw [if_neg (by simp [h0])]
    simp only [hrs, hstale, hc, Bool.not_true, Bool.and_false]
    unfold resolveRoD sourceTrace
    cases hreg : env.regionOfDefinition with
    | none => simp
    | some rb =>
      obtain ⟨rod, b⟩ := rb
      simp
  refine ⟨hrun, ?_⟩
  intro p hp
  rw [hrun] at hp
  cases hreg : env.regionOfDefinition with
  | none =>
    rw [hreg] at hp
    simp only [Option.some.injEq] at hp
    subst hp
    exact ⟨(by simp), (by simp), fun _ => rfl, fun rod b hh => (by cases hh)⟩
  | some rb =>
    obtain ⟨rod, b⟩ := rb
    rw [hreg] at hp
    simp only at hp
    obtain ⟨rest, hrest⟩ := scheduleStage_extends _ _ _ _ _ _ _ _ _ _ _ hp
    refine ⟨(by simp [hrest]), (by simp [hrest]), (fun hh => (by cases hh)), ?_⟩
    intro rod' b' hh
    simp only [Option.some.injEq, Prod.mk.injEq] at hh
    obtain ⟨rfl, -⟩ := hh
    simp [hrest]

/-- C22, witness: with node 0 cached as a terminal, project-format dependent image of RoD
`rodA` while the project format is `rodB`, the pass evicts the entry, asks the producer for
the RoD and goes on with it. -/
theorem stale_project_format_is_a_miss_witness :
    ∃ p, renderViewer envStale 5 true 0 stateA = some p ∧
      Event.removeFromNodeCache { hash := 10, time := 5, view := 0 } ∈ p.trace ∧
      Event.getRegionOfDefinition ∈ p.trace ∧ Event.rodChanged rodA ∈ p.trace := by
  have hw := stale_project_format_is_a_miss envStale 5 true 0 stateA resolveStale
    entryProjectFormat rfl rfl rfl rfl rfl rfl (by decide)
  have hsch : scheduleTexture (envStale.clipInfiniteRod rodA).1
      (envStale.imageRectangleDisplayed (envStale.clipInfiniteRod rodA).1)
      (closestPowerOf2 envStale.zoomFactor) (tileSize envStale.viewerTilesPowerOf2) =
      some schedA := scheduleTexture_rodA_full
  have hsome : ∃ p, renderViewer envStale 5 true 0 stateA = some p := by
    rw [hw.1]
    show ∃ p, scheduleStage envStale 5 (if envStale.viewsCount > 0 then envStale.currentView
      else 0) true 0 { stateA with forceRender := false }
      ([Event.aborted AbortPoll.atEntry false] ++
        resolveStale.lookups.map Event.getImageFromCache ++
        [Event.removeFromNodeCache resolveStale.inputImageKey] ++
        [Event.getRegionOfDefinition]) stateA.forceRender false
      (envStale.clipInfiniteRod rodA).1 = some p
    rw [scheduleStage_scheduled _ _ _ _ _ _ _ _ _ _ schedA hsch]
    exact ⟨_, rfl⟩
  obtain ⟨p, hp⟩ := hsome
  have h := hw.2 p hp
  exact ⟨p, hp, h.1, h.2.1, h.2.2.2 rodA false rfl⟩

/-! ## The size of the output buffer -/

theorem scheduleTexture_rodHuge_full :
    scheduleTexture rodHuge rodHuge (closestPowerOf2 1) (tileSize 4) = some schedHuge := by
  have hf : ⌊(0 : ℚ) / 1 / 2 ^ 4⌋ = 0 := by rw [Int.floor_eq_iff]; norm_num
  have hc : ⌈(32768 : ℚ) / 1 / 2 ^ 4⌉ = 2048 := by rw [Int.ceil_eq_iff]; norm_num
  have h : computeTexRect rodHuge 1 (tileSize 4) =
      { x1 := 0, y1 := 0, x2 := 32768, y2 := 32768 } := by
    have := computeTexRect_pow rodHuge 0 4
    simp only [pow_zero] at this
    rw [this]
    simp only [rodHuge, Int.cast_ofNat, Int.cast_zero, hf, hc]
    rfl
  rw [closestPowerOf2_one]
  simp only [scheduleTexture, h, rescaleTexRect_one, cTrunc_one]
  decide

theorem bytesCount_schedHuge (env : Env) (st : ViewerState) :
    (snapshot env st schedHuge.textureRect).interThreadInfos.bytesCount = 0 := by
  simp only [snapshot, wrapInt32, toSizeT, schedHuge]
  split_ifs <;> norm_num

theorem scaleToTexture32bits_of_rows (iti : InterThreadInfos) (inputImage : Image)
    (y1 y2 : ℤ) (texRect : TextureRect) (p : ℤ) (rO gO bO : ℕ) (lum : Bool) (fuel : ℕ)
    (rows : List (ℤ × ℤ)) (h : scanRowsLoop p y2 fuel y1 0 = some rows) :
    scaleToTexture32bits iti inputImage (y1, y2) texRect p rO gO bO lum fuel =
      fillRows32 inputImage texRect p rO gO bO lum (Int.tdiv (y1 - texRect.y1) p * texRect.w)
        fuel rows := by
  simp only [scaleToTexture32bits, h]

theorem mem_rows_cols {α β : Type} (rowfn : ℕ → β) (F : β → ℕ → α) (n m i j : ℕ)
    (hi : i < n) (hj : j < m) :
    F (rowfn i) j ∈
      ((List.range n).map rowfn).flatMap (fun row => (List.range m).map (fun j => F row j)) := by
  simp only [List.mem_flatMap, List.mem_map, List.mem_range]
  exact ⟨_, ⟨i, hi, rfl⟩, j, hj, rfl⟩

/-- C26: the writes do not always stay inside the buffer of `bytesCount` bytes. For a RoD of
32768 x 32768 pixels wholly visible at zoom 1 with tiles of 16 pixels, the TextureRect is
`(0,0,32768,32768)` with `w = h = 32768` and its rescaled tile rectangle meets the RoD; the
`int` product `w * h * 4` of line 421 wraps to 0, so `bytesCount` is 0 for every bit depth;
with the user region of interest enabled the pass allocates `malloc(0)` and goes on to call
`renderFunctor` for the rows 0 to 32768; and the float fill of that band writes, among
others, the destination pixels 0 and `w * h - 1`. -/
theorem buffer_size_wraps_to_zero :
    scheduleTexture rodHuge rodHuge (closestPowerOf2 1) (tileSize 4) = some schedHuge ∧
      (rescaleTexRect schedHuge.texRect (closestPowerOf2 1)).intersects rodHuge = true ∧
      (∀ (env : Env) (st : ViewerState),
        (snapshot env st schedHuge.textureRect).interThreadInfos.bytesCount = 0) ∧
      (renderViewer envHuge 5 true 0 stateA).map Pass.summary =
        some (Outcome.returned Status.StatOK,
          [Event.aborted AbortPoll.atEntry false,
            Event.getImageFromCache { hash := 10, time := 5, view := 0 },
            Event.getRegionOfDefinition, Event.rodChanged rodHuge, Event.mallocBuffer 0,
            Event.notifyInputNIsRendering 0,
            Event.renderRoI { x1 := 0, y1 := 0, x2 := 32768, y2 := 32768 },
            Event.notifyInputNIsFinishedRendering 0,
            Event.aborted AbortPoll.afterRender false, Event.renderFunctor (0, 32768),
            Event.aborted AbortPoll.afterFill false,
            Event.clearExceedingEntriesFromNodeCache,
            Event.aborted AbortPoll.beforePublish false, Event.updateViewer], false) ∧
      ∃ writes, scaleToTexture32bits stateA.interThreadInfos imageA (0, 32768)
          schedHuge.textureRect schedHuge.textureRect.closestPo2 0 1 2 false 32768 =
          some writes ∧
        (∃ e ∈ writes, e.1 = 0) ∧
        ∃ e ∈ writes, e.1 = schedHuge.textureRect.w * schedHuge.textureRect.h - 1 := by
  refine ⟨scheduleTexture_rodHuge_full, ?_, bytesCount_schedHuge, ?_, ?_⟩
  · rw [closestPowerOf2_one, rescaleTexRect_one]
    decide
  · rw [renderViewer_uncached envHuge 5 true 0 stateA rodHuge false rfl rfl rfl rfl]
    rw [scheduleStage_scheduled _ _ _ _ _ _ _ _ _ _ schedHuge scheduleTexture_rodHuge_full]
    rfl
  · obtain ⟨n, hn, hrows⟩ := scanRowsLoop_spec 1 32768 le_rfl 32768 0 0 (by decide)
    obtain ⟨m, hm, -⟩ := fillRow32Loop_spec imageA 0 32768 1 0 1 2 false le_rfl 32768 0 0 0
      (by decide)
    have hrun := fillRows32_spec imageA schedHuge.textureRect 1 0 1 2 false
      (Int.tdiv (0 - schedHuge.textureRect.y1) 1 * schedHuge.textureRect.w) 32768 m le_rfl
      (by decide) hm
      ((List.range n).map (fun (i : ℕ) => ((0 : ℤ) + i * 1, 0 + (i : ℤ))))
    have hp : schedHuge.textureRect.closestPo2 = 1 := rfl
    rw [hp, scaleToTexture32bits_of_rows _ _ _ _ _ _ _ _ _ _ _ _ hrows, hrun]
    refine ⟨_, rfl, ?_, ?_⟩
    · have h0n : 0 < n := (hn 0).2 (by norm_num)
      have h0m : 0 < m := (hm 0).2 (by norm_num)
      refine ⟨_, mem_rows_cols _ _ n m 0 0 h0n h0m, ?_⟩
      simp [schedHuge]
    · have hn' : 32767 < n := (hn 32767).2 (by norm_num)
      have hm' : 32767 < m := (hm 32767).2 (by norm_num)
      refine ⟨_, mem_rows_cols _ _ n m 32767 32767 hn' hm', ?_⟩
      simp [schedHuge]

end Natron
